import Mathlib

/-!
Verification of the maze-simulation engine of this repository.

The JavaScript sources are shallowly embedded:
* machine numbers are modelled as `Int` (grid indices, scores, cell values)
  and `ℚ` (world-space positions, speeds, timers);
* `Math.floor(a / b)` on integers is `Int.fdiv`;
* `Math.floor(Math.random() * n)` is modelled by drawing the next value of an
  ambient choice function `f : Nat → Nat` and folding it into the admissible
  range of the JavaScript expression (`jsFloorMul`), so theorems quantified
  over `f` cover every sequence of random draws;
* a JavaScript comparison `Math.sqrt d2 < t` (resp. `≤`) is embedded in the
  equivalent square-free form `0 < t ∧ d2 < t ^ 2` (resp. `0 ≤ t ∧ d2 ≤ t ^ 2`);
* a maze (2D array of rows) is a rectangle of cells together with a total
  map from coordinates to `Option Int`; `none` plays the role of the JavaScript
  `undefined` read of a missing array slot.  Writing a cell of a missing row
  (row index outside `[0, height)`) is the JavaScript `TypeError`, modelled by
  `Except.error`; writing inside an existing row always succeeds (JavaScript
  arrays accept any column index).  All reads performed by the sources are
  row-guarded, so a total read function is faithful at every call site;
* unbounded JavaScript recursion/loops carry an explicit fuel argument whose
  exhaustion is an `Except.error`.
-/

namespace MazeGame

/-- Cell value used for walls (`this.WALL = 1`). -/
def WALL : Int := 1

/-- Cell value used for paths (`this.PATH = 0`). -/
def PATH : Int := 0

/-- Integer point, the `{x, y}` objects of the sources. -/
structure IPt where
  x : Int
  y : Int
deriving DecidableEq, Repr

/-- A maze grid: `width`/`height` of the rectangular array produced by
`initializeMaze`, and the cell contents.  `cells x y` is the JavaScript read
`maze[y][x]`; `none` is `undefined`. -/
structure Maze where
  width : Int
  height : Int
  cells : Int → Int → Option Int

instance : Inhabited Maze := ⟨⟨0, 0, fun _ _ => none⟩⟩

/-- Read `maze[y][x]`. -/
def Maze.get (m : Maze) (x y : Int) : Option Int := m.cells x y

/-- Write `maze[y][x] = v`.  Fails (JavaScript `TypeError`) when row `y` does
not exist; any column index is accepted on an existing row. -/
def Maze.set? (m : Maze) (x y v : Int) : Except String Maze :=
  if 0 ≤ y ∧ y < m.height then
    .ok { m with cells := fun a b => if a = x ∧ b = y then some v else m.cells a b }
  else
    .error "row index out of bounds"

/-- Generation monad: a counter into the ambient stream of random draws,
with JavaScript exceptions. -/
def GenM (α : Type) : Type := Nat → Except String (α × Nat)

def GenM.pure (a : α) : GenM α := fun s => .ok (a, s)

def GenM.bind (ma : GenM α) (g : α → GenM β) : GenM β := fun s =>
  match ma s with
  | .ok (a, s') => g a s'
  | .error e => .error e

instance : Monad GenM where
  pure := GenM.pure
  bind := GenM.bind

def GenM.throw (msg : String) : GenM α := fun _ => .error msg

def GenM.ofExcept (e : Except String α) : GenM α := fun s =>
  match e with
  | .ok a => .ok (a, s)
  | .error msg => .error msg

/-- Draw the next value of the random stream `f`. -/
def GenM.rand (f : Nat → Nat) : GenM Nat := fun s => .ok (f s, s + 1)

/-- The set of values `Math.floor(Math.random() * n)` can take for an integer
`n`, indexed by a raw draw `r`: `[0, n-1]` for positive `n`, `0` for `n = 0`,
and `[n, 0]` for negative `n` (where `Math.random() * n ∈ (n, 0]`). -/
def jsFloorMul (r : Nat) (n : Int) : Int :=
  if 0 < n then (r : Int) % n
  else if n = 0 then 0
  else -((r : Int) % (1 - n))

/-- `Math.floor(Math.random() * n)` as a monadic draw. -/
def randFloorMul (f : Nat → Nat) (n : Int) : GenM Int := do
  let r ← GenM.rand f
  GenM.pure (jsFloorMul r n)

/-- Integer range `[a, b)` as a list. -/
def intRange (a b : Int) : List Int :=
  (List.range (b - a).toNat).map (fun i : Nat => a + (i : Int))

/-- Swap two positions of a list (the array-destructuring swap of
`shuffleArray`); indices out of range leave the list unchanged (they never are
at the call sites). -/
def listSwap (l : List α) (i j : Nat) : List α :=
  match l[i]?, l[j]? with
  | some a, some b => (l.set i b).set j a
  | _, _ => l

/-- Loop body of `shuffleArray` (Fisher-Yates): the argument is the loop
index `i`, counting down to `1`. -/
def shuffleGo (f : Nat → Nat) : Nat → List α → GenM (List α)
  | 0, l => GenM.pure l
  | Nat.succ k, l => do
      let j ← randFloorMul f ((k : Int) + 2)
      shuffleGo f k (listSwap l (k + 1) j.toNat)

/-- `MazeGenerator.shuffleArray` (also duplicated verbatim in
`PelletManager.shuffleArray`). -/
def shuffleArray (f : Nat → Nat) (l : List α) : GenM (List α) :=
  shuffleGo f (l.length - 1) l

namespace MazeGenerator

/-- Constructor normalization: `width % 2 === 0 ? width + 1 : width`. -/
def oddNorm (n : Int) : Int := if n % 2 = 0 then n + 1 else n

/-- `this.directions` (up, right, down, left; two-cell steps). -/
def mazeDirections : List IPt := [⟨0, -2⟩, ⟨2, 0⟩, ⟨0, 2⟩, ⟨-2, 0⟩]

/-- One-cell neighbor offsets (up, right, down, left) used by
`validateMaze`, `getPathNeighbors` and `createStartingPaths`. -/
def neighborDirs : List IPt := [⟨0, -1⟩, ⟨1, 0⟩, ⟨0, 1⟩, ⟨-1, 0⟩]

/-- `MazeGenerator.isValidPosition`. -/
def isValidPosition (w h x y : Int) : Prop :=
  0 < x ∧ x < w - 1 ∧ 0 < y ∧ y < h - 1

instance (w h x y : Int) : Decidable (isValidPosition w h x y) := by
  unfold isValidPosition; infer_instance

/-- `MazeGenerator.isInBounds`. -/
def isInBounds (w h x y : Int) : Prop :=
  0 ≤ x ∧ x < w ∧ 0 ≤ y ∧ y < h

instance (w h x y : Int) : Decidable (isInBounds w h x y) := by
  unfold isInBounds; infer_instance

/-- `MazeGenerator.initializeMaze`: the rectangle of rows, all cells `WALL`. -/
def initMaze (w h : Int) : Maze :=
  { width := w, height := h,
    cells := fun x y => if 0 ≤ x ∧ x < w ∧ 0 ≤ y ∧ y < h then some WALL else none }

/-- Loop of `recursiveBacktrack` over the shuffled directions.  The fuel is
decremented on every step; the JavaScript recursion always terminates (each
recursive call has just carved a wall cell), so a large enough fuel reproduces
it exactly, and every theorem below quantifies over the fuel. -/
def rbGo (f : Nat → Nat) (w h : Int) : Nat → List IPt → Int → Int → Maze → GenM Maze
  | 0, _, _, _, _ => GenM.throw "fuel exhausted"
  | Nat.succ _, [], _, _, m => GenM.pure m
  | Nat.succ fuel, d :: ds, x, y, m => do
      let newX := x + d.x
      let newY := y + d.y
      if isValidPosition w h newX newY ∧ m.get newX newY = some WALL then do
        let wallX := x + d.x.fdiv 2
        let wallY := y + d.y.fdiv 2
        let m1 ← GenM.ofExcept (m.set? newX newY PATH)
        let m2 ← GenM.ofExcept (m1.set? wallX wallY PATH)
        let dirs ← shuffleArray f mazeDirections
        let m3 ← rbGo f w h fuel dirs newX newY m2
        rbGo f w h fuel ds x y m3
      else
        rbGo f w h fuel ds x y m

/-- `MazeGenerator.recursiveBacktrack`. -/
def recursiveBacktrack (f : Nat → Nat) (w h : Int) (fuel : Nat) (x y : Int)
    (m : Maze) : GenM Maze := do
  let dirs ← shuffleArray f mazeDirections
  rbGo f w h fuel dirs x y m

/-- `MazeGenerator.getPathNeighbors`. -/
def getPathNeighbors (w h : Int) (m : Maze) (x y : Int) : List IPt :=
  neighborDirs.filterMap (fun d =>
    let nx := x + d.x
    let ny := y + d.y
    if isInBounds w h nx ny ∧ m.get nx ny = some PATH then some ⟨nx, ny⟩ else none)

/-- `MazeGenerator.hasNearbyPaths`: the JavaScript loop returns `true` exactly
when at least one cell within the Chebyshev `radius` is an in-bounds path cell
(the `pathCount >= 2` early exit only short-circuits the scan). -/
def hasNearbyPaths (w h : Int) (m : Maze) (x y radius : Int) : Bool :=
  (intRange (-radius) (radius + 1)).any (fun dx =>
    (intRange (-radius) (radius + 1)).any (fun dy =>
      decide (isInBounds w h (x + dx) (y + dy) ∧ m.get (x + dx) (y + dy) = some PATH)))

/-- Loop of `addRandomLoops` (`loopCount` iterations). -/
def addRandomLoopsGo (f : Nat → Nat) (w h : Int) : Nat → Maze → GenM Maze
  | 0, m => GenM.pure m
  | Nat.succ k, m => do
      let rx ← randFloorMul f (w - 4)
      let ry ← randFloorMul f (h - 4)
      let x := 2 + rx
      let y := 2 + ry
      if m.get x y = some WALL ∧ 2 ≤ (getPathNeighbors w h m x y).length then do
        let m' ← GenM.ofExcept (m.set? x y PATH)
        addRandomLoopsGo f w h k m'
      else
        addRandomLoopsGo f w h k m

/-- `MazeGenerator.addRandomLoops`. -/
def addRandomLoops (f : Nat → Nat) (w h : Int) (m : Maze) : GenM Maze :=
  addRandomLoopsGo f w h ((w * h).fdiv 200).toNat m

/-- The conditional cell writes of one `createWiderCorridors` iteration:
`maze[y+dy][x+dx] = PATH` for `dx < 3`, `dy < 2` whenever
`x+dx < width-1 ∧ y+dy < height-1`. -/
def widerCorridorWrites (w h : Int) (x y : Int) (m : Maze) : Except String Maze :=
  ([(0, 0), (0, 1), (1, 0), (1, 1), (2, 0), (2, 1)] : List (Int × Int)).foldlM
    (fun mz p =>
      if x + p.1 < w - 1 ∧ y + p.2 < h - 1 then mz.set? (x + p.1) (y + p.2) PATH else .ok mz)
    m

/-- Loop of `createWiderCorridors` (`corridorCount` iterations). -/
def createWiderCorridorsGo (f : Nat → Nat) (w h : Int) : Nat → Maze → GenM Maze
  | 0, m => GenM.pure m
  | Nat.succ k, m => do
      let rx ← randFloorMul f (w - 6)
      let ry ← randFloorMul f (h - 6)
      let x := 2 + rx
      let y := 2 + ry
      if hasNearbyPaths w h m x y 2 then do
        let m' ← GenM.ofExcept (widerCorridorWrites w h x y m)
        createWiderCorridorsGo f w h k m'
      else
        createWiderCorridorsGo f w h k m

/-- `MazeGenerator.createWiderCorridors`. -/
def createWiderCorridors (f : Nat → Nat) (w h : Int) (m : Maze) : GenM Maze :=
  createWiderCorridorsGo f w h ((w * h).fdiv 300).toNat m

/-- The guarded cell writes of one `createOpenAreas` iteration: the square of
half-width `size/2` around the center, restricted to non-border cells. -/
def openAreaWrites (w h : Int) (cx cy half : Int) (m : Maze) : Except String Maze :=
  ((intRange (-half) (half + 1)).flatMap (fun dx =>
      (intRange (-half) (half + 1)).map (fun dy => (dx, dy)))).foldlM
    (fun mz p =>
      if 0 < cx + p.1 ∧ cx + p.1 < w - 1 ∧ 0 < cy + p.2 ∧ cy + p.2 < h - 1 then
        mz.set? (cx + p.1) (cy + p.2) PATH
      else .ok mz)
    m

/-- Loop of `createOpenAreas` (`areaCount` iterations). -/
def createOpenAreasGo (f : Nat → Nat) (w h : Int) : Nat → Maze → GenM Maze
  | 0, m => GenM.pure m
  | Nat.succ k, m => do
      let rx ← randFloorMul f (w - 8)
      let ry ← randFloorMul f (h - 8)
      let centerX := 3 + rx
      let centerY := 3 + ry
      let rs ← randFloorMul f 2
      let size := 3 + rs
      if hasNearbyPaths w h m centerX centerY 3 then do
        let m' ← GenM.ofExcept (openAreaWrites w h centerX centerY (size.fdiv 2) m)
        createOpenAreasGo f w h k m'
      else
        createOpenAreasGo f w h k m

/-- `MazeGenerator.createOpenAreas`. -/
def createOpenAreas (f : Nat → Nat) (w h : Int) (m : Maze) : GenM Maze :=
  createOpenAreasGo f w h ((w * h).fdiv 400).toNat m

/-- `MazeGenerator.createEdgeTunnels`. -/
def createEdgeTunnels (w h : Int) (m : Maze) : Except String Maze := do
  let midY := h.fdiv 2
  if 1 < midY ∧ midY < h - 2 then do
    let m ← m.set? 1 midY PATH
    let m ← m.set? 2 midY PATH
    let m ← m.set? (w - 2) midY PATH
    let m ← m.set? (w - 3) midY PATH
    Except.ok m
  else
    Except.ok m

/-- `MazeGenerator.getAccessiblePositions`: the row-major list of path cells.
`validateMaze` builds its `pathCells` list with the identical loop. -/
def getAccessiblePositions (w h : Int) (m : Maze) : List IPt :=
  (intRange 0 h).flatMap (fun y =>
    (intRange 0 w).filterMap (fun x =>
      if m.get x y = some PATH then some ⟨x, y⟩ else none))

/-- `MazeGenerator.tryConnectToExistingPaths`, as a loop over the scan offsets
`(dx, dy) ∈ [-3,3]²` in source order with its early `return` after the first
connection. -/
def tryConnectGo (w h : Int) (x y : Int) : List (Int × Int) → Maze → Except String Maze
  | [], m => .ok m
  | (dx, dy) :: rest, m =>
    if dx = 0 ∧ dy = 0 then tryConnectGo w h x y rest m
    else
      if isInBounds w h (x + dx) (y + dy) ∧ m.get (x + dx) (y + dy) = some PATH then
        if isInBounds w h (x + dx.fdiv 2) (y + dy.fdiv 2) then
          m.set? (x + dx.fdiv 2) (y + dy.fdiv 2) PATH
        else
          tryConnectGo w h x y rest m
      else
        tryConnectGo w h x y rest m

def tryConnectToExistingPaths (w h : Int) (m : Maze) (x y : Int) : Except String Maze :=
  tryConnectGo w h x y
    ((intRange (-3) 4).flatMap (fun dx => (intRange (-3) 4).map (fun dy => (dx, dy)))) m

/-- Loop of `createCorridor` over `i = 1..length`, with the `break` when the
next cell would touch the border. -/
def createCorridorGo (w h : Int) (sx sy : Int) (d : IPt) (len : Int) :
    List Int → Maze → Except String Maze
  | [], m => .ok m
  | i :: rest, m =>
    let nx := sx + d.x * i
    let ny := sy + d.y * i
    if 0 < nx ∧ nx < w - 1 ∧ 0 < ny ∧ ny < h - 1 then do
      let m ← m.set? nx ny PATH
      let m ← if i = len then tryConnectToExistingPaths w h m nx ny else .ok m
      createCorridorGo w h sx sy d len rest m
    else
      .ok m

/-- `MazeGenerator.createCorridor`. -/
def createCorridor (w h : Int) (m : Maze) (sx sy : Int) (d : IPt) (len : Nat) :
    Except String Maze :=
  createCorridorGo w h sx sy d (len : Int) (intRange 1 ((len : Int) + 1)) m

/-- Loop of `createStartingPaths` over the shuffled unit directions, with the
`pathsCreated >= targetPaths` break. -/
def cspGo (w h : Int) (sx sy : Int) : List IPt → Nat → Maze → Except String Maze
  | [], _, m => .ok m
  | d :: ds, created, m =>
    if 2 ≤ created then .ok m
    else
      if isInBounds w h (sx + d.x) (sy + d.y) ∧ m.get (sx + d.x) (sy + d.y) = some WALL then do
        let m ← createCorridor w h m sx sy d 3
        cspGo w h sx sy ds (created + 1) m
      else
        cspGo w h sx sy ds created m

/-- `MazeGenerator.createStartingPaths`. -/
def createStartingPaths (f : Nat → Nat) (w h : Int) (m : Maze) (sx sy : Int) :
    GenM Maze := do
  let dirs ← shuffleArray f neighborDirs
  GenM.ofExcept (cspGo w h sx sy dirs 0 m)

/-- The two-cell direction list of `createStartingArea` (left, right, up, down
in source order). -/
def startingAreaDirs : List IPt := [⟨-2, 0⟩, ⟨2, 0⟩, ⟨0, -2⟩, ⟨0, 2⟩]

/-- `MazeGenerator.createStartingArea`. -/
def createStartingArea (w h : Int) (m : Maze) (sx sy : Int) : Except String Maze := do
  let m ← (([(-1, -1), (-1, 0), (-1, 1), (0, -1), (0, 0), (0, 1), (1, -1), (1, 0), (1, 1)] :
      List (Int × Int)).foldlM
    (fun mz p =>
      if 1 < sx + p.1 ∧ sx + p.1 < w - 2 ∧ 1 < sy + p.2 ∧ sy + p.2 < h - 2 then
        mz.set? (sx + p.1) (sy + p.2) PATH
      else .ok mz)
    m)
  startingAreaDirs.foldlM
    (fun mz d =>
      if 1 < sx + d.x ∧ sx + d.x < w - 2 ∧ 1 < sy + d.y ∧ sy + d.y < h - 2 then do
        let mz ← mz.set? (sx + d.x) (sy + d.y) PATH
        let mz ← mz.set? (sx + d.x.fdiv 2) (sy + d.y.fdiv 2) PATH
        createCorridor w h mz (sx + d.x) (sy + d.y) d 2
      else .ok mz)
    m

/-- `MazeGenerator.ensureStartingChoices`. -/
def ensureStartingChoices (f : Nat → Nat) (w h : Int) (m : Maze) : GenM Maze :=
  match getAccessiblePositions w h m with
  | [] => GenM.pure m
  | startPos :: _ => do
      let m ←
        if (getPathNeighbors w h m startPos.x startPos.y).length < 2 then
          createStartingPaths f w h m startPos.x startPos.y
        else
          GenM.pure m
      GenM.ofExcept (createStartingArea w h m startPos.x startPos.y)

/-- `MazeGenerator.addPacManFeatures`. -/
def addPacManFeatures (f : Nat → Nat) (w h : Int) (m : Maze) : GenM Maze := do
  let m ← addRandomLoops f w h m
  let m ← createWiderCorridors f w h m
  let m ← createOpenAreas f w h m
  GenM.ofExcept (createEdgeTunnels w h m)

/-- The flood-fill loop of `validateMaze`.  The stack is a list whose head is
the array's top (`push`/`pop` operate on the JavaScript array's end); the
visited set is a list kept duplicate-free by the `has` guard. -/
def floodFill (w h : Int) (m : Maze) : Nat → List IPt → List IPt → Except String (List IPt)
  | _, [], visited => .ok visited
  | 0, _ :: _, _ => .error "flood fill fuel exhausted"
  | Nat.succ fuel, current :: stack, visited =>
    if current ∈ visited then floodFill w h m fuel stack visited
    else
      let visited' := current :: visited
      let toPush := (neighborDirs.map (fun d => (⟨current.x + d.x, current.y + d.y⟩ : IPt))).filter
        (fun nb => decide (isInBounds w h nb.x nb.y ∧ m.get nb.x nb.y = some PATH ∧
          nb ∉ visited'))
      floodFill w h m fuel (toPush.reverse ++ stack) visited'

/-- `MazeGenerator.validateMaze`. -/
def validateMaze (w h : Int) (fuel : Nat) (m : Maze) : Except String Unit :=
  match getAccessiblePositions w h m with
  | [] => .error "Maze generation failed: No path cells found"
  | c :: rest => do
      let visited ← floodFill w h m fuel [c] []
      if visited.length = (c :: rest).length then .ok ()
      else .error "Maze generation failed: Not all areas are reachable"

/-- `MazeGenerator.generate` for a generator constructed with dimensions
`(w0, h0)`; `f` is the random stream and `fuel` bounds the recursions. -/
def generate (w0 h0 : Int) (f : Nat → Nat) (fuel : Nat) : GenM Maze :=
  let w := oddNorm w0
  let h := oddNorm h0
  do
    let m0 := initMaze w h
    let m1 ← GenM.ofExcept (m0.set? 1 1 PATH)
    let m2 ← recursiveBacktrack f w h fuel 1 1 m1
    let m3 ← addPacManFeatures f w h m2
    let m4 ← ensureStartingChoices f w h m3
    let _ ← GenM.ofExcept (validateMaze w h fuel m4)
    GenM.pure m4


/-- Every cell of the outer border (row 0, last row, column 0, last column)
is a wall. -/
def BorderWall (w h : Int) (m : Maze) : Prop :=
  ∀ x y : Int, 0 ≤ x → x < w → 0 ≤ y → y < h →
    (x = 0 ∨ x = w - 1 ∨ y = 0 ∨ y = h - 1) → m.get x y = some WALL

/-- An in-bounds path cell: the membership test behind `validateMaze`'s
path-cell scan. -/
def PathCell (w h : Int) (m : Maze) (p : IPt) : Prop :=
  isInBounds w h p.x p.y ∧ m.get p.x p.y = some PATH

instance (w h : Int) (m : Maze) (p : IPt) : Decidable (PathCell w h m p) := by
  unfold PathCell
  infer_instance

/-- One 4-adjacency step onto a path cell (the neighbor relation the flood
fill explores). -/
def PathStep (w h : Int) (m : Maze) (a b : IPt) : Prop :=
  PathCell w h m b ∧ ∃ d ∈ neighborDirs, b = ⟨a.x + d.x, a.y + d.y⟩

/-- 4-connectivity through path cells. -/
def Reach (w h : Int) (m : Maze) : IPt → IPt → Prop :=
  Relation.ReflTransGen (PathStep w h m)

end MazeGenerator

/-! Embedding of `MazeRenderer` (the `NavigableGrid` query surface): wall
lookup and world/grid coordinate conversion over exact rationals. -/

/-- `MazeRenderer` state: the cell size and the maze set by `setMaze`
(`none` before any `setMaze`).  `mazeWidth`/`mazeHeight` of the source equal
the stored rectangle's dimensions. -/
structure MazeRenderer where
  cellSize : ℚ
  maze : Option Maze

def MazeRenderer.mazeWidth (r : MazeRenderer) : Int :=
  match r.maze with
  | some m => m.width
  | none => 0

def MazeRenderer.mazeHeight (r : MazeRenderer) : Int :=
  match r.maze with
  | some m => m.height
  | none => 0

/-- `MazeRenderer.worldToGrid`. -/
def MazeRenderer.worldToGrid (r : MazeRenderer) (x y : ℚ) : Int × Int :=
  (⌊x / r.cellSize⌋, ⌊y / r.cellSize⌋)

/-- `MazeRenderer.gridToWorld` (center of the cell). -/
def MazeRenderer.gridToWorld (r : MazeRenderer) (gx gy : Int) : ℚ × ℚ :=
  ((gx : ℚ) * r.cellSize + r.cellSize / 2, (gy : ℚ) * r.cellSize + r.cellSize / 2)

/-- `MazeRenderer.getMazeDimensions` (pixel width/height). -/
def MazeRenderer.getMazeDimensions (r : MazeRenderer) : ℚ × ℚ :=
  ((r.mazeWidth : ℚ) * r.cellSize, (r.mazeHeight : ℚ) * r.cellSize)

/-- `MazeRenderer.isWallAtPosition`: out-of-bounds counts as wall; without a
maze everything is free. -/
def MazeRenderer.isWallAtPosition (r : MazeRenderer) (x y : ℚ) : Bool :=
  match r.maze with
  | none => false
  | some m =>
    let g := r.worldToGrid x y
    if g.1 < 0 ∨ m.width ≤ g.1 ∨ g.2 < 0 ∨ m.height ≤ g.2 then true
    else decide (m.get g.1 g.2 = some 1)

/-- The four-corner bounding-box collision test, duplicated verbatim as
`Player.canMoveToPosition` and `Enemy.canMoveToPosition` in the sources
(corner order: top-left, top-right, bottom-left, bottom-right). -/
def canMoveToPosition (r : MazeRenderer) (size x y : ℚ) : Bool :=
  let halfSize := size / 2
  !(r.isWallAtPosition (x - halfSize) (y - halfSize)) &&
  !(r.isWallAtPosition (x + halfSize) (y - halfSize)) &&
  !(r.isWallAtPosition (x - halfSize) (y + halfSize)) &&
  !(r.isWallAtPosition (x + halfSize) (y + halfSize))

/-- The JavaScript comparison `Math.sqrt d2 <= t`, in square-free form. -/
def jsSqrtLe (d2 t : ℚ) : Bool := decide (0 ≤ t ∧ d2 ≤ t ^ 2)

/-- The JavaScript comparison `Math.sqrt d2 < t`, in square-free form. -/
def jsSqrtLt (d2 t : ℚ) : Bool := decide (0 < t ∧ d2 < t ^ 2)

/-! Embedding of `Player` (movement-relevant state; the animation fields
`animationTime`/`mouthAngle` and rendering are omitted as draw-only). -/

structure Player where
  x : ℚ
  y : ℚ
  size : ℚ
  speed : ℚ
  direction : ℚ × ℚ
  nextDirection : ℚ × ℚ
  targetGridX : Int
  targetGridY : Int
  isAtIntersection : Bool
  intersectionThreshold : ℚ
  lives : Int
  score : Int
  isMoving : Bool
deriving DecidableEq

/-- `new Player(x, y, mazeRenderer)` (before the trailing
`updateGridPosition`, which the constructor then applies). -/
def Player.init (x y : ℚ) : Player :=
  { x := x, y := y, size := 16, speed := 2, direction := (0, 0),
    nextDirection := (0, 0), targetGridX := 0, targetGridY := 0,
    isAtIntersection := true, intersectionThreshold := 5,
    lives := 3, score := 0, isMoving := false }

/-- `Player.updateGridPosition`. -/
def Player.updateGridPosition (r : MazeRenderer) (p : Player) : Player :=
  let g := r.worldToGrid p.x p.y
  let c := r.gridToWorld g.1 g.2
  { p with
    targetGridX := g.1,
    targetGridY := g.2,
    isAtIntersection :=
      jsSqrtLe ((p.x - c.1) ^ 2 + (p.y - c.2) ^ 2) p.intersectionThreshold }

/-- `Player.snapToNearestGridCenter`. -/
def Player.snapToNearestGridCenter (r : MazeRenderer) (p : Player) : Player :=
  let gx := ⌊p.x / r.cellSize⌋
  let gy := ⌊p.y / r.cellSize⌋
  { p with
    x := (gx : ℚ) * r.cellSize + r.cellSize / 2,
    y := (gy : ℚ) * r.cellSize + r.cellSize / 2,
    isAtIntersection := true }

/-- `Player.canMoveInDirection`. -/
def Player.canMoveInDirection (r : MazeRenderer) (p : Player) (d : ℚ × ℚ) : Bool :=
  canMoveToPosition r p.size (p.x + d.1 * p.speed) (p.y + d.2 * p.speed)

/-- `Player.handleMovement`. -/
def Player.handleMovement (r : MazeRenderer) (p : Player) : Player :=
  let p := p.updateGridPosition r
  let p :=
    if p.nextDirection ≠ (0, 0) then
      if p.canMoveInDirection r p.nextDirection then
        { p with direction := p.nextDirection, nextDirection := (0, 0) }
      else
        { p with nextDirection := (0, 0) }
    else p
  if p.direction ≠ (0, 0) then
    let newX := p.x + p.direction.1 * p.speed
    let newY := p.y + p.direction.2 * p.speed
    if canMoveToPosition r p.size newX newY then
      { p with x := newX, y := newY, isMoving := true }
    else
      { p.snapToNearestGridCenter r with direction := (0, 0), isMoving := false }
  else
    { p with isMoving := false }

/-- The horizontal block of `Player.handleEdgeWrapping` (also repeated
verbatim inside the corner block): position after the attempt, and the
`wrapped` flag it sets. -/
def Player.wrapHorizontal (r : MazeRenderer) (p : Player) : Player × Bool :=
  let dims := r.getMazeDimensions
  let cs := r.cellSize
  if p.x < cs / 2 then
    if canMoveToPosition r p.size (dims.1 - cs / 2) p.y then
      ({ p with x := dims.1 - cs / 2 }, true)
    else (p, false)
  else if p.x > dims.1 - cs / 2 then
    if canMoveToPosition r p.size (cs / 2) p.y then ({ p with x := cs / 2 }, true)
    else (p, false)
  else (p, false)

/-- The vertical block of `Player.handleEdgeWrapping` (also repeated,
flag discarded, inside the corner block). -/
def Player.wrapVertical (r : MazeRenderer) (p : Player) : Player × Bool :=
  let dims := r.getMazeDimensions
  let cs := r.cellSize
  if p.y < cs / 2 then
    if canMoveToPosition r p.size p.x (dims.2 - cs / 2) then
      ({ p with y := dims.2 - cs / 2 }, true)
    else (p, false)
  else if p.y > dims.2 - cs / 2 then
    if canMoveToPosition r p.size p.x (cs / 2) then ({ p with y := cs / 2 }, true)
    else (p, false)
  else (p, false)

/-- `Player.handleEdgeWrapping`: horizontal block, vertical block when no
horizontal wrap happened, then the corner block (the same horizontal and
vertical attempts again) when still unwrapped. -/
def Player.handleEdgeWrapping (r : MazeRenderer) (p : Player) : Player :=
  let dims := r.getMazeDimensions
  let cs := r.cellSize
  let a := p.wrapHorizontal r
  let b := if ¬a.2 then a.1.wrapVertical r else a
  if ¬b.2 then
    let p := b.1
    if (p.x < cs / 2 ∨ p.x > dims.1 - cs / 2) ∧ (p.y < cs / 2 ∨ p.y > dims.2 - cs / 2) then
      let c := p.wrapHorizontal r
      if ¬c.2 then (c.1.wrapVertical r).1 else c.1
    else p
  else b.1

/-- `Player.update` (movement part; `updateAnimation` touches draw-only
fields). -/
def Player.update (r : MazeRenderer) (p : Player) : Player :=
  (p.handleMovement r).handleEdgeWrapping r

/-- `Player.setDirection`. -/
def Player.setDirection (r : MazeRenderer) (p : Player) (dir : String) : Player :=
  let tryDir (d : ℚ × ℚ) : Player :=
    let p := { p with nextDirection := d }
    if p.canMoveInDirection r p.nextDirection then
      { p with direction := p.nextDirection, nextDirection := (0, 0) }
    else p
  if dir == "up" then tryDir (0, -1)
  else if dir == "down" then tryDir (0, 1)
  else if dir == "left" then tryDir (-1, 0)
  else if dir == "right" then tryDir (1, 0)
  else p

/-- One simulation step of the player: an optional input intent routed through
`setDirection`, then `update`. -/
def Player.step (r : MazeRenderer) (input : Option String) (p : Player) : Player :=
  Player.update r (match input with
    | some d => p.setDirection r d
    | none => p)

/-- Iterated player steps. -/
def Player.steps (r : MazeRenderer) : List (Option String) → Player → Player
  | [], p => p
  | i :: is, p => Player.steps r is (Player.step r i p)

/-! Embedding of `Enemy` (movement and vulnerability state; rendering and the
animation timer are omitted as draw-only). -/

structure Enemy where
  x : ℚ
  y : ℚ
  size : ℚ
  speed : ℚ
  direction : ℚ × ℚ
  targetDirection : ℚ × ℚ
  gridX : Int
  gridY : Int
  isAtIntersection : Bool
  intersectionThreshold : ℚ
  type : String
  state : String
  path : List IPt
  pathIndex : Nat
  lastPathUpdate : ℚ
  pathUpdateInterval : ℚ
  isVulnerable : Bool
  vulnerabilityTimer : ℚ
  vulnerabilityDuration : ℚ
  originalSpeed : Option ℚ
  color : String
  originalColor : String
deriving DecidableEq

/-- JavaScript truthiness of the (possibly undefined) number field
`originalSpeed`: `undefined` and `0` are falsy. -/
def jsTruthy : Option ℚ → Bool
  | none => false
  | some q => decide (q ≠ 0)

/-- `Enemy.setBehaviorByType`: the per-type speed, color and replan interval. -/
def behaviorByType (t : String) : ℚ × String × ℚ :=
  if t == "chaser" then (9 / 5, "#FF0000", 300)
  else if t == "ambusher" then (8 / 5, "#FFB6C1", 600)
  else if t == "patrol" then (7 / 5, "#00FFFF", 800)
  else if t == "random" then (13 / 10, "#FFA500", 1000)
  else (3 / 2, "#FF69B4", 500)

/-- `Enemy.updateGridPosition`. -/
def Enemy.updateGridPosition (r : MazeRenderer) (e : Enemy) : Enemy :=
  let g := r.worldToGrid e.x e.y
  let c := r.gridToWorld g.1 g.2
  { e with
    gridX := g.1,
    gridY := g.2,
    isAtIntersection :=
      jsSqrtLe ((e.x - c.1) ^ 2 + (e.y - c.2) ^ 2) e.intersectionThreshold }

/-- `new Enemy(x, y, mazeRenderer, type)` (before the trailing
`updateGridPosition`, which the constructor then applies). -/
def Enemy.init (x y : ℚ) (t : String) : Enemy :=
  let b := behaviorByType t
  { x := x, y := y, size := 16, speed := b.1, direction := (0, 0),
    targetDirection := (0, 0), gridX := 0, gridY := 0, isAtIntersection := true,
    intersectionThreshold := 5, type := t, state := "chase", path := [],
    pathIndex := 0, lastPathUpdate := 0, pathUpdateInterval := b.2.2,
    isVulnerable := false, vulnerabilityTimer := 0,
    vulnerabilityDuration := 10000, originalSpeed := none,
    color := b.2.1, originalColor := b.2.1 }

/-- `Enemy.handleWallCollision`: try turn-left, turn-right, turn-around; the
first alternative that passes the collision test becomes the direction.  The
position is never changed. -/
def Enemy.handleWallCollision (r : MazeRenderer) (e : Enemy) : Enemy :=
  let alternatives : List (ℚ × ℚ) :=
    [(-e.direction.2, e.direction.1), (e.direction.2, -e.direction.1),
     (-e.direction.1, -e.direction.2)]
  match alternatives.find? (fun alt =>
      canMoveToPosition r e.size (e.x + alt.1 * e.speed) (e.y + alt.2 * e.speed)) with
  | some alt => { e with direction := alt }
  | none => e

/-- `Enemy.handleMovement`: smooth the direction toward `targetDirection`,
move if the collision test passes, otherwise `handleWallCollision`. -/
def Enemy.handleMovement (r : MazeRenderer) (e : Enemy) : Enemy :=
  let e := e.updateGridPosition r
  let e := { e with direction :=
    (e.direction.1 + (e.targetDirection.1 - e.direction.1) * (1 / 10),
     e.direction.2 + (e.targetDirection.2 - e.direction.2) * (1 / 10)) }
  let newX := e.x + e.direction.1 * e.speed
  let newY := e.y + e.direction.2 * e.speed
  if canMoveToPosition r e.size newX newY then
    { e with x := newX, y := newY }
  else
    e.handleWallCollision r

/-- The horizontal block of `Enemy.handleEdgeWrapping`. -/
def Enemy.wrapHorizontal (r : MazeRenderer) (e : Enemy) : Enemy :=
  let dims := r.getMazeDimensions
  let cs := r.cellSize
  if e.x < cs / 2 then
    if canMoveToPosition r e.size (dims.1 - cs / 2) e.y then
      { e with x := dims.1 - cs / 2 }
    else e
  else if e.x > dims.1 - cs / 2 then
    if canMoveToPosition r e.size (cs / 2) e.y then { e with x := cs / 2 } else e
  else e

/-- The vertical block of `Enemy.handleEdgeWrapping`. -/
def Enemy.wrapVertical (r : MazeRenderer) (e : Enemy) : Enemy :=
  let dims := r.getMazeDimensions
  let cs := r.cellSize
  if e.y < cs / 2 then
    if canMoveToPosition r e.size e.x (dims.2 - cs / 2) then
      { e with y := dims.2 - cs / 2 }
    else e
  else if e.y > dims.2 - cs / 2 then
    if canMoveToPosition r e.size e.x (cs / 2) then { e with y := cs / 2 } else e
  else e

/-- `Enemy.handleEdgeWrapping`: unlike the player's version, the vertical
block is not gated on whether a horizontal wrap happened. -/
def Enemy.handleEdgeWrapping (r : MazeRenderer) (e : Enemy) : Enemy :=
  (e.wrapHorizontal r).wrapVertical r

/-- One movement step of an enemy: the AI pass (`updateAI`/`followPath`) only
selects `targetDirection`, so a step is parameterized by an arbitrary target
direction, followed by `handleMovement` and `handleEdgeWrapping` as in
`Enemy.update`. -/
def Enemy.moveStep (r : MazeRenderer) (td : ℚ × ℚ) (e : Enemy) : Enemy :=
  (Enemy.handleMovement r { e with targetDirection := td }).handleEdgeWrapping r

/-- Iterated enemy movement steps under arbitrary target directions. -/
def Enemy.moveSteps (r : MazeRenderer) : List (ℚ × ℚ) → Enemy → Enemy
  | [], e => e
  | td :: tds, e => Enemy.moveSteps r tds (Enemy.moveStep r td e)

/-- `Enemy.setVulnerable`.  The JavaScript optional `duration` argument
defaults to `this.vulnerabilityDuration`; callers pass it explicitly here. -/
def Enemy.setVulnerable (e : Enemy) (vulnerable : Bool) (duration : ℚ) : Enemy :=
  let wasVulnerable := e.isVulnerable
  let e := { e with isVulnerable := vulnerable }
  if vulnerable then
    let e := { e with vulnerabilityTimer := duration, state := "vulnerable" }
    let e :=
      if ¬wasVulnerable then
        { e with originalSpeed := some e.speed, speed := e.speed * (1 / 2) }
      else e
    { e with path := [], pathIndex := 0 }
  else
    let e := { e with vulnerabilityTimer := 0, state := "chase", color := e.originalColor }
    let e :=
      if wasVulnerable ∧ jsTruthy e.originalSpeed then
        { e with speed := e.originalSpeed.getD 0 }
      else e
    { e with path := [], pathIndex := 0 }

/-- `Enemy.updateVulnerabilityState`. -/
def Enemy.updateVulnerabilityState (dt : ℚ) (e : Enemy) : Enemy :=
  if e.isVulnerable then
    let e := { e with vulnerabilityTimer := e.vulnerabilityTimer - dt }
    if e.vulnerabilityTimer ≤ 0 then
      e.setVulnerable false e.vulnerabilityDuration
    else if 3000 < e.vulnerabilityTimer then
      { e with color := "#0000FF" }
    else if 1000 < e.vulnerabilityTimer then
      { e with color := if ⌊e.vulnerabilityTimer / 300⌋ % 2 = 0 then "#0000FF" else "#FFFFFF" }
    else
      { e with color :=
        if ⌊e.vulnerabilityTimer / 100⌋ % 2 = 0 then "#0000FF" else e.originalColor }
  else e

/-! Embedding of the A* pathfinder (`Enemy.findPathAStar` and helpers).
JavaScript `Map`s keyed by the `"x,y"` string (injective in the pair) are
association lists keyed by `IPt`, where `set` prepends (lookup sees the newest
binding, matching overwrite semantics); map values carry `Option Int`, with
`none` standing for `NaN`; a lookup of an absent key is `undefined`.  Both
`undefined` and `NaN` make every JavaScript `<`/`>=` comparison false, which
`optLtB`/`optGeB` reproduce. -/

def alistGet (m : List (IPt × α)) (k : IPt) : Option α :=
  (m.find? (fun p => p.1 == k)).map Prod.snd

def alistSet (m : List (IPt × α)) (k : IPt) (v : α) : List (IPt × α) := (k, v) :: m

/-- JavaScript `a < b` where either side may be `undefined`/`NaN`. -/
def optLtB : Option Int → Option Int → Bool
  | some a, some b => a < b
  | _, _ => false

/-- JavaScript `a >= b` where either side may be `undefined`/`NaN`. -/
def optGeB : Option Int → Option Int → Bool
  | some a, some b => b ≤ a
  | _, _ => false

/-- `Enemy.heuristic` (Manhattan distance). -/
def Enemy.heuristic (a b : IPt) : Int := |a.x - b.x| + |a.y - b.y|

/-- `Enemy.getNeighbors`: the four neighbors whose cell centers are not walls
(`gridToWorld` then `isWallAtPosition`). -/
def Enemy.getNeighbors (r : MazeRenderer) (node : IPt) : List IPt :=
  MazeGenerator.neighborDirs.filterMap (fun d =>
    let nb : IPt := ⟨node.x + d.x, node.y + d.y⟩
    let wp := r.gridToWorld nb.x nb.y
    if r.isWallAtPosition wp.1 wp.2 then none else some nb)

/-- State of the A* main loop. -/
structure AStarState where
  openSet : List IPt
  closedSet : List IPt
  cameFrom : List (IPt × IPt)
  gScore : List (IPt × Option Int)
  fScore : List (IPt × Option Int)

/-- The lowest-fScore scan of `findPathAStar` (`current`/`currentIndex`
tracking with a strict `<`, so the first minimum wins). -/
def findMinGo (fS : List (IPt × Option Int)) :
    List IPt → IPt → Nat → Nat → IPt × Nat
  | [], cur, curIdx, _ => (cur, curIdx)
  | c :: rest, cur, curIdx, i =>
      if optLtB ((alistGet fS c).join) ((alistGet fS cur).join) then
        findMinGo fS rest c i (i + 1)
      else
        findMinGo fS rest cur curIdx (i + 1)

/-- Select and remove the frontier node with the lowest fScore
(`openSet[0]` scan followed by `splice(currentIndex, 1)`). -/
def selectCurrent (fS : List (IPt × Option Int)) (openSet : List IPt) :
    Option (IPt × List IPt) :=
  match openSet with
  | [] => none
  | c :: rest =>
      let m := findMinGo fS rest c 0 1
      some (m.1, openSet.eraseIdx m.2)

/-- The neighbor loop of `findPathAStar`. -/
def processNeighbors (goal : IPt) : List IPt → IPt → AStarState → AStarState
  | [], _, st => st
  | nb :: rest, current, st =>
    if nb ∈ st.closedSet then processNeighbors goal rest current st
    else
      let tentative : Option Int := ((alistGet st.gScore current).join).map (· + 1)
      let inOpen := st.openSet.any (fun node => node == nb)
      if inOpen ∧ optGeB tentative ((alistGet st.gScore nb).join) then
        processNeighbors goal rest current st
      else
        let st :=
          { st with
            openSet := if inOpen then st.openSet else st.openSet ++ [nb],
            cameFrom := alistSet st.cameFrom nb current,
            gScore := alistSet st.gScore nb tentative,
            fScore := alistSet st.fScore nb (tentative.map (· + Enemy.heuristic nb goal)) }
        processNeighbors goal rest current st

/-- The `while cameFrom.has(key)` loop of `reconstructPath`, accumulating by
`unshift`; the fuel guards against a cyclic map (never produced, as proved
below) where JavaScript would not terminate. -/
def reconstructGo (cameFrom : List (IPt × IPt)) : Nat → IPt → List IPt → Option (List IPt)
  | 0, _, _ => none
  | Nat.succ fuel, current, acc =>
    match alistGet cameFrom current with
    | some prev => reconstructGo cameFrom fuel prev (prev :: acc)
    | none => some acc

/-- `Enemy.reconstructPath`. -/
def Enemy.reconstructPath (cameFrom : List (IPt × IPt)) (fuel : Nat) (current : IPt) :
    Option (List IPt) :=
  reconstructGo cameFrom fuel current [current]

/-- The main loop of `findPathAStar`; `none` is fuel exhaustion (the
JavaScript loop always terminates, see the bound proved below), `some []` is
the "no path found" result. -/
def astarGo (r : MazeRenderer) (goal : IPt) : Nat → AStarState → Option (List IPt)
  | 0, _ => none
  | Nat.succ fuel, st =>
    match selectCurrent st.fScore st.openSet with
    | none => some []
    | some (current, openRest) =>
      let st' := { st with openSet := openRest, closedSet := current :: st.closedSet }
      if current = goal then
        Enemy.reconstructPath st'.cameFrom (Nat.succ fuel) current
      else
        astarGo r goal fuel
          (processNeighbors goal (Enemy.getNeighbors r current) current st')

/-- `Enemy.findPathAStar`. -/
def Enemy.findPathAStar (r : MazeRenderer) (start goal : IPt) (fuel : Nat) :
    Option (List IPt) :=
  astarGo r goal fuel
    { openSet := [start], closedSet := [], cameFrom := [],
      gScore := [(start, some 0)],
      fScore := [(start, some (Enemy.heuristic start goal))] }

/-! Property-layer vocabulary for the A* claim: single steps and walks
along `Enemy.getNeighbors` edges, and accessors for the three score maps. -/

def AdjStep (r : MazeRenderer) (a b : IPt) : Prop := b ∈ Enemy.getNeighbors r a

instance (r : MazeRenderer) (a b : IPt) : Decidable (AdjStep r a b) := by
  unfold AdjStep
  infer_instance

inductive Walk (r : MazeRenderer) : IPt → IPt → Nat → Prop where
  | refl (n : IPt) : Walk r n n 0
  | cons {a b c : IPt} {k : Nat} : AdjStep r a b → Walk r b c k → Walk r a c (k + 1)

def gval (st : AStarState) (n : IPt) : Option Int := (alistGet st.gScore n).join

def fval (st : AStarState) (n : IPt) : Option Int := (alistGet st.fScore n).join

def cfget (st : AStarState) (n : IPt) : Option IPt := alistGet st.cameFrom n

structure AInv (r : MazeRenderer) (start goal : IPt) (st : AStarState) : Prop where
  nodupO : st.openSet.Nodup
  disj : ∀ n ∈ st.openSet, n ∉ st.closedSet
  startIn : start ∈ st.openSet ∨ start ∈ st.closedSet
  gStart : gval st start = some 0
  cfStart : cfget st start = none
  gOpen : ∀ n ∈ st.openSet, ∃ k : Nat, gval st n = some (k : Int)
  gClosed : ∀ n ∈ st.closedSet, ∃ k : Nat, gval st n = some (k : Int)
  fSync : ∀ n, fval st n = (gval st n).map (fun v => v + Enemy.heuristic n goal)
  gVals : ∀ n v, gval st n = some v → ∃ k : Nat, v = (k : Int) ∧ Walk r start n k
  closedOpt : ∀ c ∈ st.closedSet, ∀ v, gval st c = some v →
    ∀ k : Nat, Walk r start c k → v ≤ (k : Int)
  closedExp : ∀ c ∈ st.closedSet, ∀ v ∈ Enemy.getNeighbors r c,
    v ∈ st.closedSet ∨ (v ∈ st.openSet ∧
      ∀ gv gc : Int, gval st v = some gv → gval st c = some gc → gv ≤ gc + 1)
  cfGood : ∀ n p, cfget st n = some p → AdjStep r p n ∧ p ∈ st.closedSet ∧
    ∃ gp : Int, gval st p = some gp ∧ gval st n = some (gp + 1)
  cfSome : ∀ n, n ≠ start → ∀ v, gval st n = some v → ∃ p, cfget st n = some p

def inGrid (m : Maze) (n : IPt) : Prop :=
  0 ≤ n.x ∧ n.x < m.width ∧ 0 ≤ n.y ∧ n.y < m.height

/-! Embedding of `Pellet` and `PelletManager` (collision and collection; the
placement and rendering passes are not touched by the claims below). -/

structure Pellet where
  x : ℚ
  y : ℚ
  type : String
  collected : Bool
  size : ℚ
  color : String
  points : Int
  glowEffect : Bool
deriving DecidableEq

/-- `new Pellet(x, y, type)`. -/
def Pellet.init (x y : ℚ) (t : String) : Pellet :=
  if t == "power" then
    { x := x, y := y, type := t, collected := false, size := 8,
      color := "#ffff00", points := 50, glowEffect := true }
  else
    { x := x, y := y, type := t, collected := false, size := 3,
      color := "#ffff00", points := 10, glowEffect := false }

/-- `Pellet.checkCollision`. -/
def Pellet.checkCollision (p : Pellet) (x y radius : ℚ) : Bool :=
  if p.collected then false
  else jsSqrtLt ((p.x - x) ^ 2 + (p.y - y) ^ 2) (p.size / 2 + radius)

/-- `Pellet.collect`: the updated pellet and the awarded points. -/
def Pellet.collect (p : Pellet) : Pellet × Int :=
  if p.collected then (p, 0) else ({ p with collected := true }, p.points)

instance : Inhabited Pellet := ⟨Pellet.init 0 0 "normal"⟩

/-- One pellet's share of `PelletManager.checkCollisions`: the updated pellet
and the points its `collect()` returned (`0` when no collision fired). -/
def pelletStep (x y radius : ℚ) (p : Pellet) : Pellet × Int :=
  if p.checkCollision x y radius then p.collect else (p, 0)

/-- `PelletManager.checkCollisions`: the list of pellets pushed to
`collectedPellets` (those whose `collect()` returned positive points, in
roster order), the updated roster, and the `collectedPellets` counter
increment. -/
def PelletManager.checkCollisions (x y radius : ℚ) (pellets : List Pellet) :
    List Pellet × List Pellet × Nat :=
  let stepped := pellets.map (pelletStep x y radius)
  ((stepped.filter (fun pr => decide (0 < pr.2))).map Prod.fst,
   stepped.map Prod.fst,
   (stepped.filter (fun pr => decide (0 < pr.2))).length)

/-- Iterated collision checks against one pellet: the final pellet and the
total points it ever contributed. -/
def Pellet.applyCalls : List (ℚ × ℚ × ℚ) → Pellet → Pellet × Int
  | [], p => (p, 0)
  | (cx, cy, rad) :: cs, p =>
      let st := pelletStep cx cy rad p
      let rest := Pellet.applyCalls cs st.1
      (rest.1, st.2 + rest.2)

/-! Embedding of `AIController` (spawning, roster, collision query) and of the
collision-arbitration slice of `GameEngine`. -/

/-- `AIController.checkPlayerCollisions`: roster-order list of enemies whose
center distance to the player is below the sum of the radii. -/
def checkPlayerCollisions (playerPos : ℚ × ℚ) (playerSize : ℚ)
    (enemies : List Enemy) : List Enemy :=
  enemies.filter (fun en =>
    jsSqrtLt ((playerPos.1 - en.x) ^ 2 + (playerPos.2 - en.y) ^ 2)
      ((playerSize + en.size) / 2))

/-- `GameEngine.getEnemyPoints` (the `pointValues[enemyType] || 200` table). -/
def getEnemyPoints (t : String) : Int :=
  if t == "chaser" then 200
  else if t == "ambusher" then 400
  else if t == "patrol" then 300
  else if t == "random" then 100
  else if t == "ghost" then 200
  else 200

/-- The direction-zeroing applied to every enemy by
`AIController.setActive(false)` during `gameOver`. -/
def zeroDirs (en : Enemy) : Enemy :=
  { en with direction := (0, 0), targetDirection := (0, 0) }

/-- The `GameEngine` fields read or written by the collision subsystem. -/
structure Engine where
  invulnerabilityTime : ℚ
  invulnerabilityDuration : ℚ
  isRespawning : Bool
  isRunning : Bool
  aiActive : Bool
  player : Player
  enemies : List Enemy
  score : Int
  lives : Int
deriving DecidableEq

/-- `GameEngine.loseLife` (and the synchronous parts of
`gameOver`/`respawnPlayer`; the deferred `setTimeout` reposition runs outside
the tick and is not part of this step). -/
def Engine.loseLife (g : Engine) : Engine :=
  let g := { g with lives := g.lives - 1 }
  if g.lives ≤ 0 then
    { g with
      isRunning := false,
      aiActive := false,
      enemies := g.enemies.map zeroDirs }
  else
    { g with
      isRespawning := true,
      invulnerabilityTime := g.invulnerabilityDuration,
      player := { g.player with
        direction := (0, 0), nextDirection := (0, 0), isMoving := false } }

/-- `GameEngine.handleVulnerableEnemyCollision`: credit the archetype's points
and remove the enemy (`AIController.removeEnemy` splices the first matching
roster entry). -/
def Engine.handleVulnerableEnemyCollision (g : Engine) (en : Enemy) : Engine :=
  { g with score := g.score + getEnemyPoints en.type, enemies := g.enemies.erase en }

/-- The `for ... of collidingEnemies` loop of `handleEnemyCollisions`, with
its `break` after the first non-vulnerable hit. -/
def Engine.processCollisions : List Enemy → Engine → Engine
  | [], g => g
  | en :: rest, g =>
      if en.isVulnerable then
        Engine.processCollisions rest (g.handleVulnerableEnemyCollision en)
      else
        g.loseLife

/-- `GameEngine.handleEnemyCollisions`. -/
def Engine.handleEnemyCollisions (g : Engine) : Engine :=
  if 0 < g.invulnerabilityTime then g
  else
    Engine.processCollisions
      (checkPlayerCollisions (g.player.x, g.player.y) g.player.size g.enemies) g

/-- The `AIController` fields driving spawning and the roster.  `randIdx` is
the cursor into the ambient `Math.random` stream `gs : Nat → ℚ` used by
`selectEnemyType`. -/
structure AIController where
  enemies : List Enemy
  maxEnemies : Int
  spawnDelay : ℚ
  lastSpawnTime : ℚ
  enemiesSpawned : Int
  difficultyLevel : Int
  baseEnemySpeed : ℚ
  speedIncreasePerLevel : ℚ
  spawnPositions : List (ℚ × ℚ)
  isActive : Bool
  randIdx : Nat

/-- `new AIController(mazeRenderer)`. -/
def AIController.mk0 : AIController :=
  { enemies := [], maxEnemies := 4, spawnDelay := 2000, lastSpawnTime := 0,
    enemiesSpawned := 0, difficultyLevel := 1, baseEnemySpeed := 3 / 2,
    speedIncreasePerLevel := 1 / 10, spawnPositions := [], isActive := true,
    randIdx := 0 }

/-- `AIController.calculateSpawnPositions`.  In the empty-filter fallback the
ring angles are the multiples of `π/2`, whose cosine/sine pairs are embedded
exactly as the four unit vectors (the float fuzz of `Math.cos` at those angles
only perturbs positions negligibly and is immaterial to the claims). -/
def calculateSpawnPositions (r : MazeRenderer) : List (ℚ × ℚ) :=
  let dims := r.getMazeDimensions
  let cs := r.cellSize
  let potential : List (ℚ × ℚ) :=
    [(cs * 2, cs * 2), (dims.1 - cs * 2, cs * 2), (cs * 2, dims.2 - cs * 2),
     (dims.1 - cs * 2, dims.2 - cs * 2),
     (dims.1 / 2, cs * 2), (dims.1 / 2, dims.2 - cs * 2),
     (cs * 2, dims.2 / 2), (dims.1 - cs * 2, dims.2 / 2)]
  let filtered := potential.filter (fun pos => !(r.isWallAtPosition pos.1 pos.2))
  if filtered.isEmpty then
    let radius := min dims.1 dims.2 / 4
    ([(1, 0), (0, 1), (-1, 0), (0, -1)] : List (ℚ × ℚ)).filterMap (fun u =>
      let x := dims.1 / 2 + u.1 * radius
      let y := dims.2 / 2 + u.2 * radius
      if r.isWallAtPosition x y then none else some (x, y))
  else
    filtered

/-- `AIController.selectEnemyType` (cumulative probabilities 0.3, 0.55, 0.8,
1.0 against one `Math.random()` draw; the unreachable fallback is the first
type). -/
def selectEnemyType (random : ℚ) : String :=
  if random ≤ 3 / 10 then "chaser"
  else if random ≤ 55 / 100 then "ambusher"
  else if random ≤ 8 / 10 then "patrol"
  else if random ≤ 1 then "random"
  else "chaser"

/-- `AIController.applyDifficultyScaling` (via `Enemy.setSpeed`, which clamps
at zero). -/
def applyDifficultyScaling (c : AIController) (e : Enemy) : Enemy :=
  let scaled := c.baseEnemySpeed + ((c.difficultyLevel - 1 : Int) : ℚ) * c.speedIncreasePerLevel
  let e := { e with speed := max 0 scaled }
  if 3 < c.difficultyLevel then
    { e with pathUpdateInterval := max 200 (e.pathUpdateInterval - 50) }
  else e

/-- `AIController.spawnEnemy`. -/
def AIController.spawnEnemy (r : MazeRenderer) (gs : Nat → ℚ) (c : AIController) :
    AIController :=
  let c :=
    if c.spawnPositions.isEmpty then
      { c with spawnPositions := calculateSpawnPositions r }
    else c
  if c.spawnPositions.isEmpty then c
  else
    let idx := (c.enemiesSpawned % (c.spawnPositions.length : Int)).toNat
    let spawnPos := c.spawnPositions.getD idx (0, 0)
    let t := selectEnemyType (gs c.randIdx)
    let enemy := applyDifficultyScaling c
      (Enemy.updateGridPosition r (Enemy.init spawnPos.1 spawnPos.2 t))
    { c with
      enemies := c.enemies ++ [enemy],
      enemiesSpawned := c.enemiesSpawned + 1,
      randIdx := c.randIdx + 1 }

/-- `AIController.updateEnemySpawning`. -/
def AIController.updateEnemySpawning (r : MazeRenderer) (gs : Nat → ℚ) (dt : ℚ)
    (c : AIController) : AIController :=
  let c := { c with lastSpawnTime := c.lastSpawnTime + dt }
  if (c.enemies.length : Int) < c.maxEnemies ∧ c.spawnDelay ≤ c.lastSpawnTime ∧
      c.enemiesSpawned < c.maxEnemies then
    { c.spawnEnemy r gs with lastSpawnTime := 0 }
  else c

/-- `AIController.isEnemyOutOfBounds`. -/
def isEnemyOutOfBounds (r : MazeRenderer) (en : Enemy) : Bool :=
  let dims := r.getMazeDimensions
  decide (en.x < -100 ∨ dims.1 + 100 < en.x ∨ en.y < -100 ∨ dims.2 + 100 < en.y)

/-- `AIController.removeEnemy` (splice of the first matching entry). -/
def AIController.removeEnemy (c : AIController) (en : Enemy) : AIController :=
  { c with enemies := c.enemies.erase en }

/-- The out-of-bounds cleanup pass of `AIController.update` (the backward
splice loop keeps exactly the in-bounds enemies, in order). -/
def AIController.prune (r : MazeRenderer) (c : AIController) : AIController :=
  { c with enemies := c.enemies.filter (fun en => !(isEnemyOutOfBounds r en)) }

/-- The roster-affecting events of one `AIController` lifetime between resets:
the spawning step of `update` (with its tick delta), the cleanup prune, and
external removal of an eaten enemy.  (`reset` starts a fresh lifetime.) -/
inductive AIEvent where
  | tickSpawn (dt : ℚ)
  | prune
  | remove (en : Enemy)

def AIController.applyEvent (r : MazeRenderer) (gs : Nat → ℚ) (c : AIController) :
    AIEvent → AIController
  | .tickSpawn dt => c.updateEnemySpawning r gs dt
  | .prune => c.prune r
  | .remove en => c.removeEnemy en

def AIController.applyEvents (r : MazeRenderer) (gs : Nat → ℚ)
    (c : AIController) : List AIEvent → AIController
  | [] => c
  | ev :: evs => (c.applyEvent r gs ev).applyEvents r gs evs

/-! Event alphabets and invariants used by the claims. -/

/-- The operations that drive an enemy's vulnerability state: the external
power-pellet broadcast `setVulnerable(true, d)`, external clearing
`setVulnerable(false)` (eaten/reset), and the per-tick
`updateVulnerabilityState` countdown (which clears on expiry). -/
inductive VulEvent where
  | makeVulnerable (d : ℚ)
  | clearVulnerable
  | tick (dt : ℚ)

def Enemy.applyVulEvent (e : Enemy) : VulEvent → Enemy
  | .makeVulnerable d => e.setVulnerable true d
  | .clearVulnerable => e.setVulnerable false e.vulnerabilityDuration
  | .tick dt => e.updateVulnerabilityState dt

def Enemy.applyVulEvents (e : Enemy) : List VulEvent → Enemy
  | [] => e
  | ev :: evs => (e.applyVulEvent ev).applyVulEvents evs

/-- Speed bookkeeping relative to the pre-vulnerability speed `s`: halved
while vulnerable (with `s` stowed in `originalSpeed`), restored otherwise. -/
def VulSpeedInv (s : ℚ) (e : Enemy) : Prop :=
  (e.isVulnerable = false → e.speed = s) ∧
  (e.isVulnerable = true → e.speed = s / 2 ∧ e.originalSpeed = some s)

/-! Concrete fixtures used by witnesses and counterexamples. -/

/-- A 5x5 grid: wall border, open interior. -/
def boxMaze : Maze :=
  { width := 5, height := 5,
    cells := fun x y =>
      if 0 ≤ x ∧ x < 5 ∧ 0 ≤ y ∧ y < 5 then
        if x = 0 ∨ x = 4 ∨ y = 0 ∨ y = 4 then some 1 else some 0
      else none }

def boxR : MazeRenderer := { cellSize := 20, maze := some boxMaze }

/-- A 3x3 grid that is entirely path, so that every edge is a tunnel mouth. -/
def openMaze : Maze :=
  { width := 3, height := 3,
    cells := fun x y => if 0 ≤ x ∧ x < 3 ∧ 0 ≤ y ∧ y < 3 then some 0 else none }

def openR : MazeRenderer := { cellSize := 20, maze := some openMaze }

/-- A 3x3 grid whose only path cell is the center: a one-cell pocket. -/
def pocketMaze : Maze :=
  { width := 3, height := 3,
    cells := fun x y =>
      if 0 ≤ x ∧ x < 3 ∧ 0 ≤ y ∧ y < 3 then
        if x = 1 ∧ y = 1 then some 0 else some 1
      else none }

def pocketR : MazeRenderer := { cellSize := 20, maze := some pocketMaze }

/-- Invariant of the spawn bookkeeping: the roster never exceeds the running
spawn counter, which never exceeds the cap. -/
def RosterInv (c : AIController) : Prop :=
  (c.enemies.length : Int) ≤ c.enemiesSpawned ∧ c.enemiesSpawned ≤ c.maxEnemies

/-- The tick's list of enemies overlapping the player. -/
def collsOf (g : Engine) : List Enemy :=
  checkPlayerCollisions (g.player.x, g.player.y) g.player.size g.enemies

/-- The overlapping enemies processed as "eaten" in a tick: the vulnerable
ones before the first non-vulnerable overlap. -/
def eatenPre (g : Engine) : List Enemy :=
  (collsOf g).takeWhile (fun en => en.isVulnerable)

/-- Engine fixture for the collision claims: a non-vulnerable chaser exactly
on the player, followed in roster order by a vulnerable ambusher 5 units
away (both overlap: distances 0 and 5 are below the radius sum 16). -/
def cexNonVulEnemy : Enemy := Enemy.init 50 50 "chaser"

def cexVulEnemy : Enemy := { Enemy.init 55 50 "ambusher" with isVulnerable := true }

def cexEngine : Engine :=
  { invulnerabilityTime := 0, invulnerabilityDuration := 2000,
    isRespawning := false, isRunning := true, aiActive := true,
    player := Player.init 50 50, enemies := [cexNonVulEnemy, cexVulEnemy],
    score := 0, lives := 3 }

/-- An enemy in the top-left corner cell of the all-path maze, inside both
tunnel boundaries. -/
def cexCornerEnemy : Enemy := Enemy.init 9 9 "ghost"

/-- A player at the same corner position. -/
def cexCornerPlayer : Player := Player.init 9 9

/-- An enemy parked off-center in the pocket cell, headed into the wall. -/
def cexPocketEnemy : Enemy :=
  { Enemy.init 31 30 "ghost" with direction := (1, 0), targetDirection := (1, 0) }

/-- A player parked off-center in the pocket cell, headed into the wall. -/
def cexPocketPlayer : Player := { Player.init 31 30 with direction := (1, 0) }

/-- The constant-zero random stream: every `Math.random()` draw is `0`. -/
def f0 : Nat → Nat := fun _ => 0

/-- A concrete full generator run on a 5×5 grid with the zero stream. -/
def gen5 : Except String (Maze × Nat) := MazeGenerator.generate 5 5 f0 300 0

/-- The maze produced by `gen5`. -/
def m5 : Maze :=
  match gen5 with
  | .ok (mz, _) => mz
  | .error _ => default

/-- The final draw counter of `gen5`. -/
def s5v : Nat :=
  match gen5 with
  | .ok (_, sv) => sv
  | .error _ => 0

/-- A concrete full generator run on a (normalized) 3×7 grid with the zero
stream. -/
def gen37 : Except String (Maze × Nat) := MazeGenerator.generate 3 7 f0 300 0

/-- The maze produced by `gen37`. -/
def m37 : Maze :=
  match gen37 with
  | .ok (mz, _) => mz
  | .error _ => default

/-- The final draw counter of `gen37`. -/
def s37v : Nat :=
  match gen37 with
  | .ok (_, sv) => sv
  | .error _ => 0

/-! ### Theorems -/

section VulnerabilityProofs

theorem setVul_isVul (e : Enemy) (vul : Bool) (d : ℚ) :
    (e.setVulnerable vul d).isVulnerable = vul := by
  unfold Enemy.setVulnerable
  cases vul <;> simp <;> split <;> rfl

theorem setVul_true_speed (e : Enemy) (d : ℚ) (h : e.isVulnerable = false) :
    (e.setVulnerable true d).speed = e.speed * (1 / 2) := by
  simp [Enemy.setVulnerable, h]

theorem setVul_true_orig (e : Enemy) (d : ℚ) (h : e.isVulnerable = false) :
    (e.setVulnerable true d).originalSpeed = some e.speed := by
  simp [Enemy.setVulnerable, h]

theorem setVul_true_speed_already (e : Enemy) (d : ℚ) (h : e.isVulnerable = true) :
    (e.setVulnerable true d).speed = e.speed := by
  simp [Enemy.setVulnerable, h]

theorem setVul_true_orig_already (e : Enemy) (d : ℚ) (h : e.isVulnerable = true) :
    (e.setVulnerable true d).originalSpeed = e.originalSpeed := by
  simp [Enemy.setVulnerable, h]

theorem setVul_false_speed_restore (e : Enemy) (d : ℚ) (h : e.isVulnerable = true)
    (v : ℚ) (ho : e.originalSpeed = some v) (hv : v ≠ 0) :
    (e.setVulnerable false d).speed = v := by
  simp [Enemy.setVulnerable, h, ho, jsTruthy, hv]

theorem setVul_false_speed_zero (e : Enemy) (d : ℚ) (h : e.isVulnerable = true)
    (ho : e.originalSpeed = some 0) :
    (e.setVulnerable false d).speed = e.speed := by
  simp [Enemy.setVulnerable, h, ho, jsTruthy]

theorem setVul_false_speed_not (e : Enemy) (d : ℚ) (h : e.isVulnerable = false) :
    (e.setVulnerable false d).speed = e.speed := by
  simp [Enemy.setVulnerable, h, jsTruthy]

theorem updateVuln_timer_dec (e : Enemy) (dt : ℚ) (h : e.isVulnerable = true)
    (hle : e.vulnerabilityTimer - dt ≤ 0) :
    e.updateVulnerabilityState dt =
      Enemy.setVulnerable { e with vulnerabilityTimer := e.vulnerabilityTimer - dt }
        false e.vulnerabilityDuration := by
  simp [Enemy.updateVulnerabilityState, h, hle]

theorem updateVuln_speed (e : Enemy) (dt : ℚ) (h : e.isVulnerable = true)
    (hgt : ¬(e.vulnerabilityTimer - dt ≤ 0)) :
    (e.updateVulnerabilityState dt).speed = e.speed ∧
    (e.updateVulnerabilityState dt).isVulnerable = true ∧
    (e.updateVulnerabilityState dt).originalSpeed = e.originalSpeed := by
  simp only [Enemy.updateVulnerabilityState, h, if_pos]
  refine ⟨?_, ?_, ?_⟩ <;>
  · split
    · exfalso; apply hgt; linarith
    · split
      · rfl
      · split <;> rfl

theorem updateVuln_not_vulnerable (e : Enemy) (dt : ℚ) (h : e.isVulnerable = false) :
    e.updateVulnerabilityState dt = e := by
  simp [Enemy.updateVulnerabilityState, h]

theorem setVulnerable_true_inv {s : ℚ} {e : Enemy} (h : VulSpeedInv s e) (d : ℚ) :
    VulSpeedInv s (e.setVulnerable true d) := by
  obtain ⟨hf, ht⟩ := h
  cases hv : e.isVulnerable with
  | false =>
      have hs := hf hv
      refine ⟨fun hcc => ?_, fun _ => ⟨?_, ?_⟩⟩
      · rw [setVul_isVul] at hcc; cases hcc
      · rw [setVul_true_speed e d hv, hs]; ring
      · rw [setVul_true_orig e d hv, hs]
  | true =>
      obtain ⟨hsp, hor⟩ := ht hv
      refine ⟨fun hcc => ?_, fun _ => ⟨?_, ?_⟩⟩
      · rw [setVul_isVul] at hcc; cases hcc
      · rw [setVul_true_speed_already e d hv, hsp]
      · rw [setVul_true_orig_already e d hv, hor]

theorem setVulnerable_false_inv {s : ℚ} {e : Enemy} (h : VulSpeedInv s e) (d : ℚ) :
    VulSpeedInv s (e.setVulnerable false d) := by
  obtain ⟨hf, ht⟩ := h
  refine ⟨fun _ => ?_, fun hcc => ?_⟩
  · cases hv : e.isVulnerable with
    | false => rw [setVul_false_speed_not e d hv]; exact hf hv
    | true =>
        obtain ⟨hsp, hor⟩ := ht hv
        by_cases hz : s = 0
        · rw [setVul_false_speed_zero e d hv (hz ▸ hor), hsp, hz]
          norm_num
        · exact setVul_false_speed_restore e d hv s hor hz
  · rw [setVul_isVul] at hcc; cases hcc

theorem updateVulnerabilityState_inv {s : ℚ} {e : Enemy} (h : VulSpeedInv s e) (dt : ℚ) :
    VulSpeedInv s (e.updateVulnerabilityState dt) := by
  cases hv : e.isVulnerable with
  | false => rw [updateVuln_not_vulnerable e dt hv]; exact h
  | true =>
      obtain ⟨hf, ht⟩ := h
      obtain ⟨hsp, hor⟩ := ht hv
      by_cases hle : e.vulnerabilityTimer - dt ≤ 0
      · rw [updateVuln_timer_dec e dt hv hle]
        apply setVulnerable_false_inv
        constructor
        · intro hcc
          exact absurd hcc (by simp [hv])
        · intro _
          exact ⟨hsp, hor⟩
      · obtain ⟨h1, h2, h3⟩ := updateVuln_speed e dt hv hle
        constructor
        · intro hcc
          rw [h2] at hcc; cases hcc
        · intro _
          exact ⟨h1.trans hsp, h3.trans hor⟩

theorem applyVulEvents_inv {s : ℚ} {e : Enemy} (h : VulSpeedInv s e) :
    ∀ evs : List VulEvent, VulSpeedInv s (e.applyVulEvents evs) := by
  intro evs
  induction evs generalizing e with
  | nil => exact h
  | cons ev evs ih =>
      refine ih ?_
      cases ev with
      | makeVulnerable d => exact setVulnerable_true_inv h d
      | clearVulnerable => exact setVulnerable_false_inv h e.vulnerabilityDuration
      | tick dt => exact updateVulnerabilityState_inv h dt

/-- Claim C8: starting from a non-vulnerable enemy with speed `s`, along any
sequence of `setVulnerable(true, d)` calls (also while already vulnerable),
`setVulnerable(false)` calls (external removal) and `updateVulnerabilityState`
ticks (timer expiry), the enemy's speed is exactly `s/2` whenever it is
vulnerable and exactly `s` again whenever it is not — in particular after the
closing `setVulnerable(false)`. -/
theorem vulnerability_speed_symmetry (s : ℚ) (e : Enemy)
    (hv : e.isVulnerable = false) (hs : e.speed = s) (evs : List VulEvent) :
    ((e.applyVulEvents evs).isVulnerable = false → (e.applyVulEvents evs).speed = s) ∧
    ((e.applyVulEvents evs).isVulnerable = true → (e.applyVulEvents evs).speed = s / 2) := by
  have h : VulSpeedInv s (e.applyVulEvents evs) :=
    applyVulEvents_inv ⟨fun _ => hs, fun ht => absurd ht (by simp [hv])⟩ evs
  exact ⟨h.1, fun ht => (h.2 ht).1⟩

/-- Witness for C8: a chaser (speed 9/5) made vulnerable twice, ticked, and
cleared ends with speed 9/5 again. -/
theorem vulnerability_speed_symmetry_witness :
    (Enemy.init 0 0 "chaser").isVulnerable = false ∧
    (Enemy.init 0 0 "chaser").speed = 9 / 5 ∧
    ((Enemy.init 0 0 "chaser").applyVulEvents
      [.makeVulnerable 5000, .tick 1000, .makeVulnerable 3000, .clearVulnerable]).speed
      = 9 / 5 := by
  refine ⟨by rfl, by norm_num [Enemy.init, behaviorByType], ?_⟩
  have h := vulnerability_speed_symmetry (9 / 5) (Enemy.init 0 0 "chaser")
    (by rfl) (by norm_num [Enemy.init, behaviorByType])
    [.makeVulnerable 5000, .tick 1000, .makeVulnerable 3000, .clearVulnerable]
  exact h.1 (by
    norm_num [Enemy.applyVulEvents, Enemy.applyVulEvent, Enemy.setVulnerable,
      Enemy.updateVulnerabilityState, Enemy.init, behaviorByType, jsTruthy])

end VulnerabilityProofs

section PelletProofs

theorem pellet_init_not_collected (px py : ℚ) (t : String) :
    (Pellet.init px py t).collected = false := by
  unfold Pellet.init
  split <;> rfl

theorem pellet_init_pos (px py : ℚ) (t : String) :
    (Pellet.init px py t).x = px ∧ (Pellet.init px py t).y = py := by
  unfold Pellet.init
  split <;> exact ⟨rfl, rfl⟩

theorem pellet_init_size_pos (px py : ℚ) (t : String) :
    0 < (Pellet.init px py t).size := by
  unfold Pellet.init
  split <;> norm_num

/-- A collision check of an uncollected pellet at the pellet's own coordinates
with any nonnegative radius fires. -/
theorem pellet_checkCollision_self (px py rad : ℚ) (t : String) (hrad : 0 ≤ rad) :
    (Pellet.init px py t).checkCollision px py rad = true := by
  have hs := pellet_init_size_pos px py t
  obtain ⟨hx, hy⟩ := pellet_init_pos px py t
  unfold Pellet.checkCollision
  rw [if_neg (by rw [pellet_init_not_collected]; exact Bool.false_ne_true)]
  rw [hx, hy]
  unfold jsSqrtLt
  have hpos : 0 < (Pellet.init px py t).size / 2 + rad := by positivity
  simp only [decide_eq_true_eq]
  constructor
  · exact hpos
  · have : (px - px) ^ 2 + (py - py) ^ 2 = 0 := by ring
    rw [this]
    positivity

theorem pellet_collected_checkCollision (q : Pellet) (hq : q.collected = true)
    (x y rad : ℚ) : q.checkCollision x y rad = false := by
  unfold Pellet.checkCollision
  rw [if_pos hq]

theorem pellet_collected_collect (q : Pellet) (hq : q.collected = true) :
    q.collect = (q, 0) := by
  unfold Pellet.collect
  rw [if_pos hq]

theorem pelletStep_collected (q : Pellet) (hq : q.collected = true) (x y rad : ℚ) :
    pelletStep x y rad q = (q, 0) := by
  unfold pelletStep
  rw [pellet_collected_checkCollision q hq, if_neg Bool.false_ne_true]

theorem applyCalls_collected (q : Pellet) (hq : q.collected = true) :
    ∀ calls : List (ℚ × ℚ × ℚ), Pellet.applyCalls calls q = (q, 0) := by
  intro calls
  induction calls with
  | nil => rfl
  | cons c cs ih =>
      obtain ⟨cx, cy, rad⟩ := c
      unfold Pellet.applyCalls
      simp [pelletStep_collected q hq, ih]

theorem pelletStep_fresh (px py rad : ℚ) (t : String) (hrad : 0 ≤ rad) :
    pelletStep px py rad (Pellet.init px py t) =
      ({ Pellet.init px py t with collected := true }, (Pellet.init px py t).points) := by
  unfold pelletStep
  rw [pellet_checkCollision_self px py rad t hrad, if_pos rfl]
  unfold Pellet.collect
  rw [if_neg (by rw [pellet_init_not_collected]; exact Bool.false_ne_true)]

/-- Claim C9: a pellet whose world coordinates equal the player's position is
collected by the collision pass whenever the collision radius is nonnegative,
and its declared point value (10 normal / 50 power) is contributed exactly
once over any number of subsequent checks: a second `collect` returns 0, a
collected pellet never tests positive for collision again, never contributes
again, and survives the manager pass unchanged. -/
theorem pellet_collects_exactly_once (px py rad : ℚ) (t : String) (hrad : 0 ≤ rad)
    (calls : List (ℚ × ℚ × ℚ)) (q : Pellet) (hq : q.collected = true)
    (x y rr : ℚ) (ps : List Pellet) (i : Nat)
    (hi : (ps.getD i default).collected = true) :
    (pelletStep px py rad (Pellet.init px py t)).1.collected = true ∧
    (pelletStep px py rad (Pellet.init px py t)).2 = (Pellet.init px py t).points ∧
    (Pellet.init px py "normal").points = 10 ∧
    (Pellet.init px py "power").points = 50 ∧
    (Pellet.applyCalls ((px, py, rad) :: calls) (Pellet.init px py t)).2 =
      (Pellet.init px py t).points ∧
    q.collect = (q, 0) ∧
    q.checkCollision x y rr = false ∧
    Pellet.applyCalls calls q = (q, 0) ∧
    (PelletManager.checkCollisions x y rr ps).2.1.getD i default = ps.getD i default := by
  refine ⟨?_, ?_, by rfl, by rfl, ?_, ?_, ?_, ?_, ?_⟩
  · rw [pelletStep_fresh px py rad t hrad]
  · rw [pelletStep_fresh px py rad t hrad]
  · have hc : ({ Pellet.init px py t with collected := true } : Pellet).collected = true := rfl
    unfold Pellet.applyCalls
    rw [pelletStep_fresh px py rad t hrad]
    simp [applyCalls_collected _ hc calls]
  · exact pellet_collected_collect q hq
  · exact pellet_collected_checkCollision q hq x y rr
  · exact applyCalls_collected q hq calls
  · unfold PelletManager.checkCollisions
    simp only [List.getD_eq_getElem?_getD, List.getElem?_map]
    cases hcell : ps[i]? with
    | none => rfl
    | some p =>
        have hp : p.collected = true := by
          rw [List.getD_eq_getElem?_getD, hcell] at hi
          exact hi
        simp [pelletStep_collected p hp]

/-- Witness for C9: a power pellet at (50, 30) collected by a player exactly
there with radius 8, followed by one more tick. -/
theorem pellet_collects_exactly_once_witness :
    (Pellet.applyCalls [(50, 30, 8), (0, 0, 0)] (Pellet.init 50 30 "power")).2 = 50 := by
  have h := pellet_collects_exactly_once 50 30 8 "power" (by norm_num) [(0, 0, 0)]
    ((Pellet.init 1 2 "normal").collect.1) (by rfl)
    0 0 0 [(Pellet.init 1 2 "normal").collect.1] 0 (by rfl)
  rw [h.2.2.2.2.1, h.2.2.2.1]

end PelletProofs

section RosterProofs

theorem spawnEnemy_bound (r : MazeRenderer) (gs : Nat → ℚ) (c : AIController)
    (h : RosterInv c) (hlt : c.enemiesSpawned < c.maxEnemies) :
    RosterInv (c.spawnEnemy r gs) ∧
    (c.spawnEnemy r gs).maxEnemies = c.maxEnemies ∧
    c.enemiesSpawned ≤ (c.spawnEnemy r gs).enemiesSpawned := by
  obtain ⟨h1, h2⟩ := h
  unfold AIController.spawnEnemy
  split <;> dsimp only <;> split
  · exact ⟨⟨h1, h2⟩, rfl, le_refl _⟩
  · refine ⟨⟨?_, by dsimp only; omega⟩, rfl, by dsimp only; omega⟩
    dsimp only
    simp only [List.length_append, List.length_cons, List.length_nil]
    push_cast
    omega
  · exact ⟨⟨h1, h2⟩, rfl, le_refl _⟩
  · refine ⟨⟨?_, by dsimp only; omega⟩, rfl, by dsimp only; omega⟩
    dsimp only
    simp only [List.length_append, List.length_cons, List.length_nil]
    push_cast
    omega

theorem applyEvent_inv (r : MazeRenderer) (gs : Nat → ℚ) (c : AIController)
    (ev : AIEvent) (h : RosterInv c) :
    RosterInv (c.applyEvent r gs ev) ∧
    (c.applyEvent r gs ev).maxEnemies = c.maxEnemies ∧
    c.enemiesSpawned ≤ (c.applyEvent r gs ev).enemiesSpawned := by
  obtain ⟨h1, h2⟩ := h
  cases ev with
  | tickSpawn dt =>
      show RosterInv (c.updateEnemySpawning r gs dt) ∧
        (c.updateEnemySpawning r gs dt).maxEnemies = c.maxEnemies ∧
        c.enemiesSpawned ≤ (c.updateEnemySpawning r gs dt).enemiesSpawned
      unfold AIController.updateEnemySpawning
      dsimp only
      split
      · rename_i hguard
        have hs := spawnEnemy_bound r gs
          { c with lastSpawnTime := c.lastSpawnTime + dt } ⟨h1, h2⟩ hguard.2.2
        exact ⟨⟨hs.1.1, hs.1.2⟩, hs.2.1, hs.2.2⟩
      · exact ⟨⟨h1, h2⟩, rfl, le_refl _⟩
  | prune =>
      refine ⟨⟨?_, h2⟩, rfl, le_refl _⟩
      calc ((c.enemies.filter _).length : Int)
          ≤ (c.enemies.length : Int) := by exact_mod_cast List.length_filter_le _ _
        _ ≤ c.enemiesSpawned := h1
  | remove en =>
      refine ⟨⟨?_, h2⟩, rfl, le_refl _⟩
      calc (((c.enemies.erase en).length : Int))
          ≤ (c.enemies.length : Int) := by exact_mod_cast List.length_erase_le en c.enemies
        _ ≤ c.enemiesSpawned := h1

theorem applyEvents_inv (r : MazeRenderer) (gs : Nat → ℚ) (c : AIController)
    (evs : List AIEvent) (h : RosterInv c) :
    RosterInv (c.applyEvents r gs evs) ∧
    (c.applyEvents r gs evs).maxEnemies = c.maxEnemies ∧
    c.enemiesSpawned ≤ (c.applyEvents r gs evs).enemiesSpawned := by
  induction evs generalizing c with
  | nil => exact ⟨h, rfl, le_refl _⟩
  | cons ev evs ih =>
      obtain ⟨hi, hmax, hmono⟩ := applyEvent_inv r gs c ev h
      obtain ⟨ri, rmax, rmono⟩ := ih (c.applyEvent r gs ev) hi
      exact ⟨ri, rmax.trans hmax, hmono.trans rmono⟩

/-- Claim C10 (implicit): along any sequence of spawning ticks, out-of-bounds
prunes and removals of eaten enemies, a controller whose roster/counter
satisfy the spawn bookkeeping invariant keeps a roster of at most `maxEnemies`
enemies; the monotone `enemiesSpawned` counter never exceeds `maxEnemies`
(with `maxEnemies` untouched by these events), so at most `maxEnemies`
enemies are ever created until a reset, and a removed enemy is not
replaced. -/
theorem enemy_roster_bounded (r : MazeRenderer) (gs : Nat → ℚ) (c : AIController)
    (h : RosterInv c) (evs : List AIEvent) :
    ((c.applyEvents r gs evs).enemies.length : Int) ≤ c.maxEnemies ∧
    (c.applyEvents r gs evs).enemiesSpawned ≤ c.maxEnemies ∧
    c.enemiesSpawned ≤ (c.applyEvents r gs evs).enemiesSpawned ∧
    (c.applyEvents r gs evs).maxEnemies = c.maxEnemies := by
  obtain ⟨⟨i1, i2⟩, hmax, hmono⟩ := applyEvents_inv r gs c evs h
  exact ⟨hmax ▸ (i1.trans i2), hmax ▸ i2, hmono, hmax⟩

/-- Witness for C10: a fresh controller over the open 3x3 maze, ticked
through three spawn windows and one removal. -/
theorem enemy_roster_bounded_witness :
    ((AIController.mk0.applyEvents openR (fun _ => 0)
        [.tickSpawn 2500, .tickSpawn 2500, .prune, .tickSpawn 2500]).enemies.length : Int)
      ≤ AIController.mk0.maxEnemies ∧
    (AIController.mk0.applyEvents openR (fun _ => 0)
        [.tickSpawn 2500, .tickSpawn 2500, .prune, .tickSpawn 2500]).enemiesSpawned
      ≤ AIController.mk0.maxEnemies := by
  have h := enemy_roster_bounded openR (fun _ => 0) AIController.mk0
    (by constructor <;> decide)
    [.tickSpawn 2500, .tickSpawn 2500, .prune, .tickSpawn 2500]
  exact ⟨h.1, h.2.1⟩

end RosterProofs

section CollisionProofs

theorem loseLife_char (g : Engine) :
    g.loseLife.lives = g.lives - 1 ∧ g.loseLife.score = g.score ∧
    g.loseLife.enemies =
      (if g.lives - 1 ≤ 0 then g.enemies.map zeroDirs else g.enemies) := by
  unfold Engine.loseLife
  dsimp only
  split
  · exact ⟨rfl, rfl, rfl⟩
  · exact ⟨rfl, rfl, rfl⟩

theorem processCollisions_spec : ∀ (colls : List Enemy) (g : Engine),
    (Engine.processCollisions colls g).score =
      g.score + ((colls.takeWhile (fun en => en.isVulnerable)).map
        (fun en => getEnemyPoints en.type)).sum ∧
    (Engine.processCollisions colls g).lives =
      g.lives - (if ∃ en ∈ colls, en.isVulnerable = false then 1 else 0) ∧
    (Engine.processCollisions colls g).enemies =
      (if (∃ en ∈ colls, en.isVulnerable = false) ∧ g.lives - 1 ≤ 0 then
        ((colls.takeWhile (fun en => en.isVulnerable)).foldl
          (fun l en => l.erase en) g.enemies).map zeroDirs
      else
        (colls.takeWhile (fun en => en.isVulnerable)).foldl
          (fun l en => l.erase en) g.enemies) := by
  intro colls
  induction colls with
  | nil =>
      intro g
      simp [Engine.processCollisions, List.takeWhile]
  | cons en rest ih =>
      intro g
      by_cases hv : en.isVulnerable = true
      · have heat : Engine.processCollisions (en :: rest) g =
            Engine.processCollisions rest (g.handleVulnerableEnemyCollision en) := by
          simp [Engine.processCollisions, hv]
        obtain ⟨s1, l1, e1⟩ := ih (g.handleVulnerableEnemyCollision en)
        rw [heat]
        refine ⟨?_, ?_, ?_⟩
        · rw [s1]
          show g.score + getEnemyPoints en.type + _ = _
          rw [List.takeWhile_cons_of_pos hv]
          simp [add_assoc]
        · rw [l1]
          show g.lives - _ = g.lives - _
          congr 1
          simp [hv]
        · rw [e1]
          show (if (∃ x ∈ rest, x.isVulnerable = false) ∧ g.lives - 1 ≤ 0 then _ else _) = _
          rw [List.takeWhile_cons_of_pos hv]
          simp only [List.foldl_cons]
          have hcond : (∃ x ∈ rest, x.isVulnerable = false) ↔
              (∃ x ∈ en :: rest, x.isVulnerable = false) := by
            simp [hv]
          by_cases hex : (∃ x ∈ rest, x.isVulnerable = false) ∧ g.lives - 1 ≤ 0
          · rw [if_pos hex, if_pos ⟨hcond.mp hex.1, hex.2⟩]
            rfl
          · rw [if_neg hex, if_neg (fun hc => hex ⟨hcond.mpr hc.1, hc.2⟩)]
            rfl
      · have hv' : en.isVulnerable = false := by
          cases hb : en.isVulnerable with
          | false => rfl
          | true => exact absurd hb hv
        have hstop : Engine.processCollisions (en :: rest) g = g.loseLife := by
          simp [Engine.processCollisions, hv']
        obtain ⟨l1, s1, e1⟩ := loseLife_char g
        rw [hstop]
        refine ⟨?_, ?_, ?_⟩
        · rw [s1, List.takeWhile_cons_of_neg (by simp [hv'])]
          simp
        · rw [l1, if_pos ⟨en, List.mem_cons_self en rest, hv'⟩]
        · rw [e1, List.takeWhile_cons_of_neg (by simp [hv'])]
          simp only [List.foldl_nil]
          have hcond : ((∃ x ∈ en :: rest, x.isVulnerable = false) ∧ g.lives - 1 ≤ 0) ↔
              g.lives - 1 ≤ 0 :=
            ⟨fun hc => hc.2, fun hc => ⟨⟨en, List.mem_cons_self en rest, hv'⟩, hc⟩⟩
          by_cases hle : g.lives - 1 ≤ 0
          · rw [if_pos hle, if_pos (hcond.mpr hle)]
          · rw [if_neg hle, if_neg (fun hc => hle (hcond.mp hc))]

/-- Claim C4 (amended): with the post-hit invulnerability window inactive, the
tick's overlapping enemies are processed in roster order up to and including
the first non-vulnerable one: every vulnerable enemy before that point is
removed from the roster and credited its archetype's points with the life
count untouched; the first non-vulnerable overlap decrements the life count
by exactly 1 (and only then) and stops processing, so at most one life is
lost per tick and later overlapping enemies — vulnerable ones included — are
not processed.  While the invulnerability window is active nothing is
processed at all. -/
theorem collision_arbitration (g : Engine) (hinv : g.invulnerabilityTime ≤ 0) :
    (Engine.handleEnemyCollisions g).lives =
      g.lives - (if ∃ en ∈ collsOf g, en.isVulnerable = false then 1 else 0) ∧
    (Engine.handleEnemyCollisions g).score =
      g.score + ((eatenPre g).map (fun en => getEnemyPoints en.type)).sum ∧
    (Engine.handleEnemyCollisions g).enemies =
      (if (∃ en ∈ collsOf g, en.isVulnerable = false) ∧ g.lives - 1 ≤ 0 then
        ((eatenPre g).foldl (fun l en => l.erase en) g.enemies).map zeroDirs
      else (eatenPre g).foldl (fun l en => l.erase en) g.enemies) ∧
    (∀ g2 : Engine, 0 < g2.invulnerabilityTime → g2.handleEnemyCollisions = g2) := by
  have hne : ¬(0 < g.invulnerabilityTime) := not_lt.mpr hinv
  have hrw : Engine.handleEnemyCollisions g = Engine.processCollisions (collsOf g) g := by
    unfold Engine.handleEnemyCollisions collsOf
    rw [if_neg hne]
  obtain ⟨s, l, e⟩ := processCollisions_spec (collsOf g) g
  refine ⟨hrw ▸ l, hrw ▸ s, hrw ▸ e, fun g2 h2 => ?_⟩
  unfold Engine.handleEnemyCollisions
  rw [if_pos h2]

/-- Witness for C4 (amended): the fixture engine loses exactly one life. -/
theorem collision_arbitration_witness :
    (Engine.handleEnemyCollisions cexEngine).lives =
      cexEngine.lives - (if ∃ en ∈ collsOf cexEngine, en.isVulnerable = false then 1 else 0) :=
  (collision_arbitration cexEngine (by norm_num [cexEngine])).1

/-- Counterexample to C4 as stated: in the fixture engine the vulnerable
ambusher overlaps the player, yet after the tick's arbitration it is still on
the roster and its points were not credited, because the non-vulnerable
chaser earlier in roster order stopped the loop. -/
theorem collision_arbitration_counterexample :
    cexVulEnemy.isVulnerable = true ∧
    cexVulEnemy ∈ collsOf cexEngine ∧
    cexVulEnemy ∈ (Engine.handleEnemyCollisions cexEngine).enemies ∧
    (Engine.handleEnemyCollisions cexEngine).score = cexEngine.score := by
  refine ⟨rfl, ?_, ?_, ?_⟩ <;>
    norm_num [collsOf, cexEngine, cexVulEnemy, cexNonVulEnemy, checkPlayerCollisions,
      Engine.handleEnemyCollisions, Engine.processCollisions, Engine.loseLife,
      jsSqrtLt, Player.init, Enemy.init, behaviorByType]

end CollisionProofs

section SnapProofs

theorem behaviorByType_ghost : behaviorByType "ghost" = (3 / 2, "#FF69B4", 500) := rfl

theorem player_handleMovement_snap (r : MazeRenderer) (p : Player)
    (hq : p.nextDirection = (0, 0)) (hd : p.direction ≠ (0, 0))
    (hrej : canMoveToPosition r p.size (p.x + p.direction.1 * p.speed)
      (p.y + p.direction.2 * p.speed) = false) :
    (p.handleMovement r).x = (⌊p.x / r.cellSize⌋ : ℚ) * r.cellSize + r.cellSize / 2 ∧
    (p.handleMovement r).y = (⌊p.y / r.cellSize⌋ : ℚ) * r.cellSize + r.cellSize / 2 ∧
    (p.handleMovement r).direction = (0, 0) := by
  obtain ⟨px, py, psize, pspeed, pdir, pnext, ptgx, ptgy, pint, pthr, plives, pscore, pmov⟩ := p
  simp only at hq hd hrej
  subst hq
  simp [Player.handleMovement, Player.updateGridPosition, Player.snapToNearestGridCenter,
    Player.canMoveInDirection, hrej, hd]
  rw [if_neg (fun hcc => hd (by simpa using hcc))]
  exact ⟨rfl, rfl, rfl⟩

theorem enemy_handleMovement_no_move (r : MazeRenderer) (e : Enemy)
    (hrej : canMoveToPosition r e.size
      (e.x + (e.direction.1 + (e.targetDirection.1 - e.direction.1) * (1 / 10)) * e.speed)
      (e.y + (e.direction.2 + (e.targetDirection.2 - e.direction.2) * (1 / 10)) * e.speed)
      = false) :
    (e.handleMovement r).x = e.x ∧ (e.handleMovement r).y = e.y := by
  obtain ⟨ex, ey, esize, espeed, edir, etd, egx, egy, eint, ethr, ety, est, epath, epidx,
    elpu, epui, eiv, evt, evd, eos, ecol, eocol⟩ := e
  simp only [one_div] at hrej
  simp [Enemy.handleMovement, Enemy.updateGridPosition, Enemy.handleWallCollision, hrej]
  constructor <;> split <;> rfl

/-- Claim C5 (amended): when the player's forward move (with no queued turn)
is rejected by the collision test, the player is snapped to the exact center
of its current grid cell and its direction is zeroed; the enemy, by contrast,
keeps its position unchanged on a rejected forward move — `handleWallCollision`
only redirects it — so the snap-and-zero resolution holds for the player
only. -/
theorem wall_hit_resolution (r : MazeRenderer) (p : Player) (e : Enemy)
    (hq : p.nextDirection = (0, 0)) (hd : p.direction ≠ (0, 0))
    (hrejP : canMoveToPosition r p.size (p.x + p.direction.1 * p.speed)
      (p.y + p.direction.2 * p.speed) = false)
    (hrejE : canMoveToPosition r e.size
      (e.x + (e.direction.1 + (e.targetDirection.1 - e.direction.1) * (1 / 10)) * e.speed)
      (e.y + (e.direction.2 + (e.targetDirection.2 - e.direction.2) * (1 / 10)) * e.speed)
      = false) :
    (p.handleMovement r).x = (⌊p.x / r.cellSize⌋ : ℚ) * r.cellSize + r.cellSize / 2 ∧
    (p.handleMovement r).y = (⌊p.y / r.cellSize⌋ : ℚ) * r.cellSize + r.cellSize / 2 ∧
    (p.handleMovement r).direction = (0, 0) ∧
    (e.handleMovement r).x = e.x ∧ (e.handleMovement r).y = e.y := by
  obtain ⟨h1, h2, h3⟩ := player_handleMovement_snap r p hq hd hrejP
  obtain ⟨h4, h5⟩ := enemy_handleMovement_no_move r e hrejE
  exact ⟨h1, h2, h3, h4, h5⟩

/-- Witness for C5 (amended): in the pocket maze, the blocked player ends
direction-zeroed while the blocked enemy keeps its off-center position. -/
theorem wall_hit_resolution_witness :
    (cexPocketPlayer.handleMovement pocketR).direction = (0, 0) ∧
    (cexPocketEnemy.handleMovement pocketR).x = cexPocketEnemy.x := by
  have h := wall_hit_resolution pocketR cexPocketPlayer cexPocketEnemy
    (by rfl)
    (by norm_num [cexPocketPlayer, Player.init])
    (by norm_num [canMoveToPosition, MazeRenderer.isWallAtPosition, MazeRenderer.worldToGrid,
      pocketR, pocketMaze, cexPocketPlayer, Player.init, Maze.get])
    (by norm_num [canMoveToPosition, MazeRenderer.isWallAtPosition, MazeRenderer.worldToGrid,
      pocketR, pocketMaze, cexPocketEnemy, Enemy.init, behaviorByType_ghost, Maze.get])
  exact ⟨h.2.2.1, h.2.2.2.1⟩

/-- Counterexample to C5 as stated: the pocket enemy's forward move is
rejected by the collision test, yet after `handleMovement` its position is
not the center of its grid cell and its direction is not (0,0) — the agent
was neither snapped nor stopped. -/
theorem wall_hit_resolution_counterexample :
    canMoveToPosition pocketR cexPocketEnemy.size
      (cexPocketEnemy.x + (cexPocketEnemy.direction.1 +
        (cexPocketEnemy.targetDirection.1 - cexPocketEnemy.direction.1) * (1 / 10)) *
        cexPocketEnemy.speed)
      (cexPocketEnemy.y + (cexPocketEnemy.direction.2 +
        (cexPocketEnemy.targetDirection.2 - cexPocketEnemy.direction.2) * (1 / 10)) *
        cexPocketEnemy.speed) = false ∧
    (cexPocketEnemy.handleMovement pocketR).x ≠
      (⌊cexPocketEnemy.x / pocketR.cellSize⌋ : ℚ) * pocketR.cellSize + pocketR.cellSize / 2 ∧
    (cexPocketEnemy.handleMovement pocketR).direction ≠ (0, 0) := by
  refine ⟨?_, ?_, ?_⟩ <;>
    norm_num [Enemy.handleMovement, Enemy.updateGridPosition, Enemy.handleWallCollision,
      canMoveToPosition, MazeRenderer.isWallAtPosition, MazeRenderer.worldToGrid,
      MazeRenderer.gridToWorld, jsSqrtLe, pocketR, pocketMaze, cexPocketEnemy,
      Enemy.init, behaviorByType_ghost, Maze.get, List.find?]

end SnapProofs

section WrapProofs

theorem player_wrapH_spec (r : MazeRenderer) (p : Player) :
    p.wrapHorizontal r = (p, false) ∨
    ((p.wrapHorizontal r).2 = true ∧
      canMoveToPosition r p.size (p.wrapHorizontal r).1.x (p.wrapHorizontal r).1.y = true ∧
      (p.wrapHorizontal r).1.y = p.y ∧ (p.wrapHorizontal r).1.size = p.size) := by
  unfold Player.wrapHorizontal
  dsimp only
  split_ifs with h1 h2 h3 h4 <;> simp_all

theorem player_wrapV_spec (r : MazeRenderer) (p : Player) :
    p.wrapVertical r = (p, false) ∨
    ((p.wrapVertical r).2 = true ∧
      canMoveToPosition r p.size (p.wrapVertical r).1.x (p.wrapVertical r).1.y = true ∧
      (p.wrapVertical r).1.x = p.x ∧ (p.wrapVertical r).1.size = p.size) := by
  unfold Player.wrapVertical
  dsimp only
  split_ifs with h1 h2 h3 h4 <;> simp_all

theorem enemy_wrapH_spec (r : MazeRenderer) (e : Enemy) :
    e.wrapHorizontal r = e ∨
    (canMoveToPosition r e.size (e.wrapHorizontal r).x (e.wrapHorizontal r).y = true ∧
      (e.wrapHorizontal r).y = e.y ∧ (e.wrapHorizontal r).size = e.size) := by
  unfold Enemy.wrapHorizontal
  dsimp only
  split_ifs with h1 h2 h3 h4 <;> simp_all

theorem enemy_wrapV_spec (r : MazeRenderer) (e : Enemy) :
    e.wrapVertical r = e ∨
    (canMoveToPosition r e.size (e.wrapVertical r).x (e.wrapVertical r).y = true ∧
      (e.wrapVertical r).x = e.x ∧ (e.wrapVertical r).size = e.size) := by
  unfold Enemy.wrapVertical
  dsimp only
  split_ifs with h1 h2 h3 h4 <;> simp_all

theorem enemy_wrapH_size (r : MazeRenderer) (e : Enemy) :
    (e.wrapHorizontal r).size = e.size := by
  unfold Enemy.wrapHorizontal
  dsimp only
  split_ifs <;> rfl

theorem player_wrapH_left (r : MazeRenderer) (p : Player)
    (hx : p.x < r.cellSize / 2)
    (hcan : canMoveToPosition r p.size (r.getMazeDimensions.1 - r.cellSize / 2) p.y = true) :
    p.wrapHorizontal r = ({ p with x := r.getMazeDimensions.1 - r.cellSize / 2 }, true) := by
  unfold Player.wrapHorizontal
  dsimp only
  rw [if_pos hx, if_pos hcan]

theorem enemy_wrapH_left (r : MazeRenderer) (e : Enemy)
    (hx : e.x < r.cellSize / 2)
    (hcan : canMoveToPosition r e.size (r.getMazeDimensions.1 - r.cellSize / 2) e.y = true) :
    e.wrapHorizontal r = { e with x := r.getMazeDimensions.1 - r.cellSize / 2 } := by
  unfold Enemy.wrapHorizontal
  dsimp only
  rw [if_pos hx, if_pos hcan]


theorem player_hew_of_H (r : MazeRenderer) (p : Player)
    (hA2 : (p.wrapHorizontal r).2 = true) :
    p.handleEdgeWrapping r = (p.wrapHorizontal r).1 := by
  unfold Player.handleEdgeWrapping
  dsimp only
  simp [hA2]

theorem player_hew_of_noH_V (r : MazeRenderer) (p : Player)
    (hA : p.wrapHorizontal r = (p, false))
    (hB2 : (p.wrapVertical r).2 = true) :
    p.handleEdgeWrapping r = (p.wrapVertical r).1 := by
  unfold Player.handleEdgeWrapping
  dsimp only
  simp [hA, hB2]

theorem player_hew_of_noH_noV (r : MazeRenderer) (p : Player)
    (hA : p.wrapHorizontal r = (p, false))
    (hB : p.wrapVertical r = (p, false)) :
    p.handleEdgeWrapping r = p := by
  unfold Player.handleEdgeWrapping
  dsimp only
  simp [hA, hB]

theorem player_handleEdgeWrapping_valid (r : MazeRenderer) (p : Player) :
    ((p.handleEdgeWrapping r).x = p.x ∧ (p.handleEdgeWrapping r).y = p.y) ∨
    canMoveToPosition r p.size (p.handleEdgeWrapping r).x (p.handleEdgeWrapping r).y
      = true := by
  rcases player_wrapH_spec r p with hA | ⟨hA2, hAcan, hAy, hAsz⟩
  · rcases player_wrapV_spec r p with hB | ⟨hB2, hBcan, hBx, hBsz⟩
    · rw [player_hew_of_noH_noV r p hA hB]
      exact Or.inl ⟨rfl, rfl⟩
    · rw [player_hew_of_noH_V r p hA hB2]
      exact Or.inr hBcan
  · rw [player_hew_of_H r p hA2]
    exact Or.inr hAcan

theorem enemy_handleEdgeWrapping_valid (r : MazeRenderer) (e : Enemy) :
    ((e.handleEdgeWrapping r).x = e.x ∧ (e.handleEdgeWrapping r).y = e.y) ∨
    canMoveToPosition r e.size (e.handleEdgeWrapping r).x (e.handleEdgeWrapping r).y
      = true := by
  unfold Enemy.handleEdgeWrapping
  rcases enemy_wrapV_spec r (e.wrapHorizontal r) with hB | ⟨hBcan, hBx, hBsz⟩
  · rw [hB]
    rcases enemy_wrapH_spec r e with hA | ⟨hAcan, hAy, hAsz⟩
    · rw [hA]
      exact Or.inl ⟨rfl, rfl⟩
    · exact Or.inr hAcan
  · refine Or.inr ?_
    rw [enemy_wrapH_size r e] at hBcan
    exact hBcan

theorem player_handleEdgeWrapping_left (r : MazeRenderer) (p : Player)
    (hx : p.x < r.cellSize / 2)
    (hcan : canMoveToPosition r p.size (r.getMazeDimensions.1 - r.cellSize / 2) p.y = true) :
    (p.handleEdgeWrapping r).x = r.getMazeDimensions.1 - r.cellSize / 2 ∧
    (p.handleEdgeWrapping r).y = p.y := by
  have h := player_wrapH_left r p hx hcan
  rw [player_hew_of_H r p (by rw [h]), h]
  exact ⟨rfl, rfl⟩

theorem enemy_handleEdgeWrapping_left (r : MazeRenderer) (e : Enemy)
    (hx : e.x < r.cellSize / 2)
    (hcan : canMoveToPosition r e.size (r.getMazeDimensions.1 - r.cellSize / 2) e.y = true) :
    (e.handleEdgeWrapping r).x = r.getMazeDimensions.1 - r.cellSize / 2 := by
  unfold Enemy.handleEdgeWrapping
  rw [enemy_wrapH_left r e hx hcan]
  rcases enemy_wrapV_spec r { e with x := r.getMazeDimensions.1 - r.cellSize / 2 } with
    hB | ⟨hBc, hBx, hBs⟩
  · rw [hB]
  · rw [hBx]


/-- Claim C7 (amended): edge wraparound only ever teleports an agent to a
position passing the four-corner collision test (never through a wall), and
the horizontal boundary is evaluated before the vertical one.  For the
player, a successful horizontal wrap from the left boundary sets
`x = mazeWidth - cellSize/2` and leaves `y` unchanged (the vertical block is
skipped once wrapped).  For the enemy the vertical block still runs after a
successful horizontal wrap, so `x` becomes `mazeWidth - cellSize/2` but `y`
may additionally wrap at a corner. -/
theorem edge_wrap_correctness (r : MazeRenderer) (p : Player) (e : Enemy) :
    (((p.handleEdgeWrapping r).x = p.x ∧ (p.handleEdgeWrapping r).y = p.y) ∨
      canMoveToPosition r p.size (p.handleEdgeWrapping r).x (p.handleEdgeWrapping r).y
        = true) ∧
    (((e.handleEdgeWrapping r).x = e.x ∧ (e.handleEdgeWrapping r).y = e.y) ∨
      canMoveToPosition r e.size (e.handleEdgeWrapping r).x (e.handleEdgeWrapping r).y
        = true) ∧
    (p.x < r.cellSize / 2 →
      canMoveToPosition r p.size (r.getMazeDimensions.1 - r.cellSize / 2) p.y = true →
      (p.handleEdgeWrapping r).x = r.getMazeDimensions.1 - r.cellSize / 2 ∧
      (p.handleEdgeWrapping r).y = p.y) ∧
    (e.x < r.cellSize / 2 →
      canMoveToPosition r e.size (r.getMazeDimensions.1 - r.cellSize / 2) e.y = true →
      (e.handleEdgeWrapping r).x = r.getMazeDimensions.1 - r.cellSize / 2) :=
  ⟨player_handleEdgeWrapping_valid r p, enemy_handleEdgeWrapping_valid r e,
    fun hx hcan => player_handleEdgeWrapping_left r p hx hcan,
    fun hx hcan => enemy_handleEdgeWrapping_left r e hx hcan⟩

/-- Witness for C7 (amended): the corner player in the all-path maze wraps
horizontally to the right tunnel mouth with `y` unchanged. -/
theorem edge_wrap_correctness_witness :
    (cexCornerPlayer.handleEdgeWrapping openR).x =
      openR.getMazeDimensions.1 - openR.cellSize / 2 ∧
    (cexCornerPlayer.handleEdgeWrapping openR).y = cexCornerPlayer.y :=
  (edge_wrap_correctness openR cexCornerPlayer cexCornerEnemy).2.2.1
    (by norm_num [cexCornerPlayer, Player.init, openR])
    (by norm_num [canMoveToPosition, MazeRenderer.isWallAtPosition, MazeRenderer.worldToGrid,
      MazeRenderer.getMazeDimensions, MazeRenderer.mazeWidth, MazeRenderer.mazeHeight,
      openR, openMaze, cexCornerPlayer, Player.init, Maze.get])

/-- Counterexample to C7 as stated: the corner enemy in the all-path maze
sits inside the left tunnel boundary with a free mirrored position, wraps
horizontally — and then its `y` changes as well, because the enemy's vertical
block is not skipped after a successful horizontal wrap. -/
theorem edge_wrap_correctness_counterexample :
    cexCornerEnemy.x < openR.cellSize / 2 ∧
    canMoveToPosition openR cexCornerEnemy.size
      (openR.getMazeDimensions.1 - openR.cellSize / 2) cexCornerEnemy.y = true ∧
    (cexCornerEnemy.handleEdgeWrapping openR).y ≠ cexCornerEnemy.y := by
  refine ⟨?_, ?_, ?_⟩ <;>
    norm_num [Enemy.handleEdgeWrapping, Enemy.wrapHorizontal, Enemy.wrapVertical,
      canMoveToPosition, MazeRenderer.isWallAtPosition, MazeRenderer.worldToGrid,
      MazeRenderer.getMazeDimensions, MazeRenderer.mazeWidth, MazeRenderer.mazeHeight,
      openR, openMaze, cexCornerEnemy, Enemy.init, behaviorByType_ghost, Maze.get]

end WrapProofs

section NoPenetrationProofs

theorem floor_div_mono (cs a b : ℚ) (hcs : 0 < cs) (hab : a ≤ b) :
    ⌊a / cs⌋ ≤ ⌊b / cs⌋ :=
  Int.floor_le_floor (by gcongr)

theorem floor_div_sandwich (cs a b c : ℚ) (hcs : 0 < cs) (hab : a ≤ b)
    (hbc : b ≤ c) (hca : c - a < cs) :
    ⌊b / cs⌋ = ⌊a / cs⌋ ∨ ⌊b / cs⌋ = ⌊c / cs⌋ := by
  have h1 := floor_div_mono cs a b hcs hab
  have h2 := floor_div_mono cs b c hcs hbc
  have h3 : ⌊c / cs⌋ ≤ ⌊a / cs⌋ + 1 := by
    have hle : c / cs ≤ a / cs + 1 := by
      rw [div_add_one (ne_of_gt hcs)]
      gcongr
      linarith
    calc ⌊c / cs⌋ ≤ ⌊a / cs + 1⌋ := Int.floor_le_floor hle
      _ = ⌊a / cs⌋ + 1 := by rw [Int.floor_add_one]
  omega

theorem floor_center_sub (cs s : ℚ) (g : ℤ) (hcs : 0 < cs) (hs0 : 0 ≤ s)
    (hscs : s < cs) : ⌊((g : ℚ) * cs + cs / 2 - s / 2) / cs⌋ = g := by
  rw [Int.floor_eq_iff]
  constructor
  · rw [le_div_iff₀ hcs]
    nlinarith
  · rw [div_lt_iff₀ hcs]
    nlinarith

theorem floor_center_add (cs s : ℚ) (g : ℤ) (hcs : 0 < cs) (hs0 : 0 ≤ s)
    (hscs : s < cs) : ⌊((g : ℚ) * cs + cs / 2 + s / 2) / cs⌋ = g := by
  rw [Int.floor_eq_iff]
  constructor
  · rw [le_div_iff₀ hcs]
    nlinarith
  · rw [div_lt_iff₀ hcs]
    nlinarith

theorem isWall_floor_congr (r : MazeRenderer) (X Y x' y' : ℚ)
    (hx : ⌊X / r.cellSize⌋ = ⌊x' / r.cellSize⌋)
    (hy : ⌊Y / r.cellSize⌋ = ⌊y' / r.cellSize⌋) :
    r.isWallAtPosition X Y = r.isWallAtPosition x' y' := by
  unfold MazeRenderer.isWallAtPosition MazeRenderer.worldToGrid
  cases r.maze <;> simp [hx, hy]

theorem isWall_congr_false (r : MazeRenderer) (X Y x' y' : ℚ)
    (hx : ⌊X / r.cellSize⌋ = ⌊x' / r.cellSize⌋)
    (hy : ⌊Y / r.cellSize⌋ = ⌊y' / r.cellSize⌋)
    (h : r.isWallAtPosition x' y' = false) : r.isWallAtPosition X Y = false := by
  rw [isWall_floor_congr r X Y x' y' hx hy]
  exact h

theorem canMove_center (r : MazeRenderer) (size x y : ℚ) (hcs : 0 < r.cellSize)
    (hs0 : 0 ≤ size) (hscs : size < r.cellSize)
    (h : canMoveToPosition r size x y = true) :
    canMoveToPosition r size ((⌊x / r.cellSize⌋ : ℚ) * r.cellSize + r.cellSize / 2)
      ((⌊y / r.cellSize⌋ : ℚ) * r.cellSize + r.cellSize / 2) = true := by
  simp only [canMoveToPosition, Bool.and_eq_true, Bool.not_eq_true'] at h ⊢
  obtain ⟨⟨⟨h1, h2⟩, h3⟩, h4⟩ := h
  have hxlo := floor_center_sub r.cellSize size ⌊x / r.cellSize⌋ hcs hs0 hscs
  have hxhi := floor_center_add r.cellSize size ⌊x / r.cellSize⌋ hcs hs0 hscs
  have hylo := floor_center_sub r.cellSize size ⌊y / r.cellSize⌋ hcs hs0 hscs
  have hyhi := floor_center_add r.cellSize size ⌊y / r.cellSize⌋ hcs hs0 hscs
  have hsx : ⌊x / r.cellSize⌋ = ⌊(x - size / 2) / r.cellSize⌋ ∨
      ⌊x / r.cellSize⌋ = ⌊(x + size / 2) / r.cellSize⌋ :=
    floor_div_sandwich r.cellSize (x - size / 2) x (x + size / 2) hcs
      (by linarith) (by linarith) (by linarith)
  have hsy : ⌊y / r.cellSize⌋ = ⌊(y - size / 2) / r.cellSize⌋ ∨
      ⌊y / r.cellSize⌋ = ⌊(y + size / 2) / r.cellSize⌋ :=
    floor_div_sandwich r.cellSize (y - size / 2) y (y + size / 2) hcs
      (by linarith) (by linarith) (by linarith)
  rcases hsx with hgx | hgx <;> rcases hsy with hgy | hgy
  · exact ⟨⟨⟨isWall_congr_false r _ _ _ _ (hxlo.trans hgx) (hylo.trans hgy) h1,
        isWall_congr_false r _ _ _ _ (hxhi.trans hgx) (hylo.trans hgy) h1⟩,
      isWall_congr_false r _ _ _ _ (hxlo.trans hgx) (hyhi.trans hgy) h1⟩,
      isWall_congr_false r _ _ _ _ (hxhi.trans hgx) (hyhi.trans hgy) h1⟩
  · exact ⟨⟨⟨isWall_congr_false r _ _ _ _ (hxlo.trans hgx) (hylo.trans hgy) h3,
        isWall_congr_false r _ _ _ _ (hxhi.trans hgx) (hylo.trans hgy) h3⟩,
      isWall_congr_false r _ _ _ _ (hxlo.trans hgx) (hyhi.trans hgy) h3⟩,
      isWall_congr_false r _ _ _ _ (hxhi.trans hgx) (hyhi.trans hgy) h3⟩
  · exact ⟨⟨⟨isWall_congr_false r _ _ _ _ (hxlo.trans hgx) (hylo.trans hgy) h2,
        isWall_congr_false r _ _ _ _ (hxhi.trans hgx) (hylo.trans hgy) h2⟩,
      isWall_congr_false r _ _ _ _ (hxlo.trans hgx) (hyhi.trans hgy) h2⟩,
      isWall_congr_false r _ _ _ _ (hxhi.trans hgx) (hyhi.trans hgy) h2⟩
  · exact ⟨⟨⟨isWall_congr_false r _ _ _ _ (hxlo.trans hgx) (hylo.trans hgy) h4,
        isWall_congr_false r _ _ _ _ (hxhi.trans hgx) (hylo.trans hgy) h4⟩,
      isWall_congr_false r _ _ _ _ (hxlo.trans hgx) (hyhi.trans hgy) h4⟩,
      isWall_congr_false r _ _ _ _ (hxhi.trans hgx) (hyhi.trans hgy) h4⟩

theorem player_handleMovement_valid (r : MazeRenderer) (p : Player)
    (hcs : 0 < r.cellSize) (hs0 : 0 ≤ p.size) (hscs : p.size < r.cellSize)
    (h : canMoveToPosition r p.size p.x p.y = true) :
    canMoveToPosition r p.size (p.handleMovement r).x (p.handleMovement r).y
      = true := by
  unfold Player.handleMovement Player.updateGridPosition Player.canMoveInDirection
    Player.snapToNearestGridCenter
  dsimp only
  split_ifs <;>
    first
      | assumption
      | exact canMove_center r p.size p.x p.y hcs hs0 hscs h

theorem player_handleMovement_size (r : MazeRenderer) (p : Player) :
    (p.handleMovement r).size = p.size := by
  unfold Player.handleMovement Player.updateGridPosition Player.canMoveInDirection
    Player.snapToNearestGridCenter
  dsimp only
  split_ifs <;> rfl

theorem player_setDirection_pos (r : MazeRenderer) (p : Player) (d : String) :
    (p.setDirection r d).x = p.x ∧ (p.setDirection r d).y = p.y ∧
    (p.setDirection r d).size = p.size := by
  unfold Player.setDirection Player.canMoveInDirection
  dsimp only
  split_ifs <;> exact ⟨rfl, rfl, rfl⟩

theorem player_handleEdgeWrapping_size (r : MazeRenderer) (p : Player) :
    (p.handleEdgeWrapping r).size = p.size := by
  rcases player_wrapH_spec r p with hA | ⟨hA2, _, _, hAsz⟩
  · rcases player_wrapV_spec r p with hB | ⟨hB2, _, _, hBsz⟩
    · rw [player_hew_of_noH_noV r p hA hB]
    · rw [player_hew_of_noH_V r p hA hB2]
      exact hBsz
  · rw [player_hew_of_H r p hA2]
    exact hAsz

theorem player_update_invariant (r : MazeRenderer) (p : Player)
    (hcs : 0 < r.cellSize) (hs0 : 0 ≤ p.size) (hscs : p.size < r.cellSize)
    (h : canMoveToPosition r p.size p.x p.y = true) :
    canMoveToPosition r p.size (p.update r).x (p.update r).y = true := by
  unfold Player.update
  have hm := player_handleMovement_valid r p hcs hs0 hscs h
  have hmsz := player_handleMovement_size r p
  rcases player_handleEdgeWrapping_valid r (p.handleMovement r) with ⟨hx, hy⟩ | hcan
  · rw [hx, hy]
    exact hm
  · rw [hmsz] at hcan
    exact hcan

theorem player_step_invariant (r : MazeRenderer) (input : Option String) (p : Player)
    (hcs : 0 < r.cellSize) (hs0 : 0 ≤ p.size) (hscs : p.size < r.cellSize)
    (h : canMoveToPosition r p.size p.x p.y = true) :
    canMoveToPosition r p.size (Player.step r input p).x (Player.step r input p).y
      = true := by
  unfold Player.step
  cases input with
  | none => exact player_update_invariant r p hcs hs0 hscs h
  | some d =>
    obtain ⟨hx, hy, hsz⟩ := player_setDirection_pos r p d
    have h' : canMoveToPosition r (p.setDirection r d).size (p.setDirection r d).x
        (p.setDirection r d).y = true := by
      rw [hx, hy, hsz]
      exact h
    have hv := player_update_invariant r (p.setDirection r d) hcs
      (by rw [hsz]; exact hs0) (by rw [hsz]; exact hscs) h'
    rw [hsz] at hv
    exact hv

theorem player_step_size (r : MazeRenderer) (input : Option String) (p : Player) :
    (Player.step r input p).size = p.size := by
  unfold Player.step Player.update
  cases input with
  | none => rw [player_handleEdgeWrapping_size, player_handleMovement_size]
  | some d =>
    rw [player_handleEdgeWrapping_size, player_handleMovement_size,
      (player_setDirection_pos r p d).2.2]

theorem player_steps_invariant (r : MazeRenderer) (inputs : List (Option String)) :
    ∀ p : Player, 0 < r.cellSize → 0 ≤ p.size → p.size < r.cellSize →
    canMoveToPosition r p.size p.x p.y = true →
    canMoveToPosition r (Player.steps r inputs p).size (Player.steps r inputs p).x
      (Player.steps r inputs p).y = true := by
  induction inputs with
  | nil => intro p _ _ _ h; exact h
  | cons i is ih =>
    intro p hcs hs0 hscs h
    have hsz := player_step_size r i p
    exact ih (Player.step r i p) hcs (by rw [hsz]; exact hs0)
      (by rw [hsz]; exact hscs)
      (by rw [hsz]; exact player_step_invariant r i p hcs hs0 hscs h)

theorem enemy_handleWallCollision_pos (r : MazeRenderer) (e : Enemy) :
    (e.handleWallCollision r).x = e.x ∧ (e.handleWallCollision r).y = e.y ∧
    (e.handleWallCollision r).size = e.size := by
  unfold Enemy.handleWallCollision
  dsimp only
  split <;> exact ⟨rfl, rfl, rfl⟩

theorem enemy_handleMovement_valid (r : MazeRenderer) (e : Enemy)
    (h : canMoveToPosition r e.size e.x e.y = true) :
    canMoveToPosition r e.size (e.handleMovement r).x (e.handleMovement r).y
      = true := by
  unfold Enemy.handleMovement Enemy.updateGridPosition
  dsimp only
  split_ifs with h1
  · exact h1
  · obtain ⟨hx, hy, _⟩ := enemy_handleWallCollision_pos r _
    rw [hx, hy]
    exact h

theorem enemy_handleMovement_size (r : MazeRenderer) (e : Enemy) :
    (e.handleMovement r).size = e.size := by
  unfold Enemy.handleMovement Enemy.updateGridPosition
  dsimp only
  split_ifs with h1
  · rfl
  · exact (enemy_handleWallCollision_pos r _).2.2

theorem enemy_wrapV_size (r : MazeRenderer) (e : Enemy) :
    (e.wrapVertical r).size = e.size := by
  unfold Enemy.wrapVertical
  dsimp only
  split_ifs <;> rfl

theorem enemy_handleEdgeWrapping_size (r : MazeRenderer) (e : Enemy) :
    (e.handleEdgeWrapping r).size = e.size := by
  unfold Enemy.handleEdgeWrapping
  rw [enemy_wrapV_size, enemy_wrapH_size]

theorem enemy_moveStep_invariant (r : MazeRenderer) (td : ℚ × ℚ) (e : Enemy)
    (h : canMoveToPosition r e.size e.x e.y = true) :
    canMoveToPosition r e.size (Enemy.moveStep r td e).x (Enemy.moveStep r td e).y
      = true := by
  unfold Enemy.moveStep
  have h' : canMoveToPosition r ({ e with targetDirection := td } : Enemy).size
      ({ e with targetDirection := td } : Enemy).x
      ({ e with targetDirection := td } : Enemy).y = true := h
  have hm := enemy_handleMovement_valid r { e with targetDirection := td } h'
  have hmsz := enemy_handleMovement_size r ({ e with targetDirection := td } : Enemy)
  rcases enemy_handleEdgeWrapping_valid r
      (Enemy.handleMovement r { e with targetDirection := td }) with ⟨hx, hy⟩ | hcan
  · rw [hx, hy]
    exact hm
  · rw [hmsz] at hcan
    exact hcan

theorem enemy_moveStep_size (r : MazeRenderer) (td : ℚ × ℚ) (e : Enemy) :
    (Enemy.moveStep r td e).size = e.size := by
  unfold Enemy.moveStep
  rw [enemy_handleEdgeWrapping_size, enemy_handleMovement_size]

theorem enemy_moveSteps_invariant (r : MazeRenderer) (tds : List (ℚ × ℚ)) :
    ∀ e : Enemy, canMoveToPosition r e.size e.x e.y = true →
    canMoveToPosition r (Enemy.moveSteps r tds e).size (Enemy.moveSteps r tds e).x
      (Enemy.moveSteps r tds e).y = true := by
  induction tds with
  | nil => intro e h; exact h
  | cons td tds ih =>
    intro e h
    have hsz := enemy_moveStep_size r td e
    exact ih (Enemy.moveStep r td e)
      (by rw [hsz]; exact enemy_moveStep_invariant r td e h)

/-- Claim C2: starting from a position where the four-corner bounding-box
collision test passes, any sequence of player update steps (input routed
through `setDirection`, then `handleMovement` and `handleEdgeWrapping`) and
any sequence of enemy movement steps keeps the test passing: ordinary moves
are guarded by the test itself, a rejected player move snaps to the center of
the current cell (which the floor-sandwich argument shows is one of the
already-tested corner cells), a rejected enemy move leaves the position
unchanged, and edge wraps are guarded by the test at the mirrored position.
The agent's box must fit in a cell (`0 ≤ size < cellSize`, true of the game's
16-pixel agents in 20-pixel cells); `0 < cellSize` rules out a degenerate
renderer. -/
theorem no_wall_penetration (r : MazeRenderer) (p : Player) (e : Enemy)
    (inputs : List (Option String)) (tds : List (ℚ × ℚ))
    (hcs : 0 < r.cellSize) (hp0 : 0 ≤ p.size) (hpcs : p.size < r.cellSize)
    (hp : canMoveToPosition r p.size p.x p.y = true)
    (he : canMoveToPosition r e.size e.x e.y = true) :
    canMoveToPosition r (Player.steps r inputs p).size (Player.steps r inputs p).x
      (Player.steps r inputs p).y = true ∧
    canMoveToPosition r (Enemy.moveSteps r tds e).size (Enemy.moveSteps r tds e).x
      (Enemy.moveSteps r tds e).y = true :=
  ⟨player_steps_invariant r inputs p hcs hp0 hpcs hp,
    enemy_moveSteps_invariant r tds e he⟩

/-- Witness for C2: a player and a ghost starting at the center of cell
(1,1) of the all-path maze, the player stepping right then coasting, the
enemy targeting right. -/
theorem no_wall_penetration_witness :
    canMoveToPosition openR
      (Player.steps openR [some "right", none] (Player.init 30 30)).size
      (Player.steps openR [some "right", none] (Player.init 30 30)).x
      (Player.steps openR [some "right", none] (Player.init 30 30)).y = true ∧
    canMoveToPosition openR
      (Enemy.moveSteps openR [(1, 0)] (Enemy.init 30 30 "ghost")).size
      (Enemy.moveSteps openR [(1, 0)] (Enemy.init 30 30 "ghost")).x
      (Enemy.moveSteps openR [(1, 0)] (Enemy.init 30 30 "ghost")).y = true :=
  no_wall_penetration openR (Player.init 30 30) (Enemy.init 30 30 "ghost")
    [some "right", none] [(1, 0)]
    (by norm_num [openR])
    (by norm_num [Player.init])
    (by norm_num [Player.init, openR])
    (by norm_num [canMoveToPosition, MazeRenderer.isWallAtPosition,
      MazeRenderer.worldToGrid, openR, openMaze, Player.init, Maze.get])
    (by norm_num [canMoveToPosition, MazeRenderer.isWallAtPosition,
      MazeRenderer.worldToGrid, openR, openMaze, Enemy.init, behaviorByType_ghost,
      Maze.get])

end NoPenetrationProofs

section ConnectivityProofs

namespace MazeGenerator

theorem GenM.bind_ok {α β : Type} (ma : GenM α) (g : α → GenM β) (s : Nat) (b : β)
    (s2 : Nat) (h : (ma >>= g) s = .ok (b, s2)) :
    ∃ a s1, ma s = .ok (a, s1) ∧ g a s1 = .ok (b, s2) := by
  have h' : GenM.bind ma g s = .ok (b, s2) := h
  unfold GenM.bind at h'
  cases hma : ma s with
  | error e => rw [hma] at h'; cases h'
  | ok p =>
    obtain ⟨a, s1⟩ := p
    rw [hma] at h'
    exact ⟨a, s1, rfl, h'⟩

theorem GenM.ofExcept_ok {α : Type} (e : Except String α) (s : Nat) (a : α) (s2 : Nat)
    (h : GenM.ofExcept e s = .ok (a, s2)) : e = .ok a ∧ s2 = s := by
  unfold GenM.ofExcept at h
  cases e with
  | error msg => cases h
  | ok b =>
    cases h
    exact ⟨rfl, rfl⟩

theorem GenM.pure_ok {α : Type} (a b : α) (s s2 : Nat)
    (h : (GenM.pure a : GenM α) s = .ok (b, s2)) : b = a ∧ s2 = s := by
  unfold GenM.pure at h
  cases h
  exact ⟨rfl, rfl⟩

theorem exceptBind_ok {ε α β : Type} (ma : Except ε α) (g : α → Except ε β) (b : β)
    (h : (ma >>= g) = .ok b) : ∃ a, ma = .ok a ∧ g a = .ok b := by
  cases ma with
  | error e => exact absurd h (by simp [Bind.bind, Except.bind])
  | ok a => exact ⟨a, rfl, by simpa [Bind.bind, Except.bind] using h⟩

theorem generate_ok_validate (w0 h0 : Int) (f : Nat → Nat) (fuel s : Nat) (m : Maze)
    (s' : Nat) (h : generate w0 h0 f fuel s = .ok (m, s')) :
    validateMaze (oddNorm w0) (oddNorm h0) fuel m = .ok () := by
  unfold generate at h
  obtain ⟨m1, s1, h1, h⟩ := GenM.bind_ok _ _ _ _ _ h
  obtain ⟨m2, s2, h2, h⟩ := GenM.bind_ok _ _ _ _ _ h
  obtain ⟨m3, s3, h3, h⟩ := GenM.bind_ok _ _ _ _ _ h
  obtain ⟨m4, s4, h4, h⟩ := GenM.bind_ok _ _ _ _ _ h
  obtain ⟨u, s5, h5, h⟩ := GenM.bind_ok _ _ _ _ _ h
  obtain ⟨hb, _⟩ := GenM.pure_ok _ _ _ _ h
  obtain ⟨hv, _⟩ := GenM.ofExcept_ok _ _ _ _ h5
  cases u
  rw [hb]
  exact hv

theorem intRange_mem {a b x : Int} : x ∈ intRange a b ↔ a ≤ x ∧ x < b := by
  unfold intRange
  rw [List.mem_map]
  constructor
  · rintro ⟨i, hi, rfl⟩
    rw [List.mem_range] at hi
    omega
  · intro hx
    refine ⟨(x - a).toNat, ?_, ?_⟩
    · rw [List.mem_range]
      omega
    · omega

theorem accessible_mem (w h : Int) (m : Maze) (q : IPt) :
    q ∈ getAccessiblePositions w h m ↔ PathCell w h m q := by
  unfold getAccessiblePositions PathCell isInBounds
  rw [List.mem_flatMap]
  constructor
  · rintro ⟨y, hy, hq⟩
    rw [List.mem_filterMap] at hq
    obtain ⟨x, hx, hq⟩ := hq
    split_ifs at hq with hget
    · cases hq
      obtain ⟨hy1, hy2⟩ := intRange_mem.mp hy
      obtain ⟨hx1, hx2⟩ := intRange_mem.mp hx
      exact ⟨⟨hx1, hx2, hy1, hy2⟩, hget⟩
  · rintro ⟨⟨hx1, hx2, hy1, hy2⟩, hget⟩
    refine ⟨q.y, intRange_mem.mpr ⟨hy1, hy2⟩, ?_⟩
    rw [List.mem_filterMap]
    exact ⟨q.x, intRange_mem.mpr ⟨hx1, hx2⟩, by rw [if_pos hget]⟩

theorem neighborDirs_neg : ∀ d ∈ neighborDirs, (⟨-d.x, -d.y⟩ : IPt) ∈ neighborDirs := by
  decide

theorem reach_pathCell (w h : Int) (m : Maze) {a b : IPt} (hr : Reach w h m a b)
    (ha : PathCell w h m a) : PathCell w h m b := by
  induction hr with
  | refl => exact ha
  | tail _ hstep _ => exact hstep.1

theorem reach_symm (w h : Int) (m : Maze) {a b : IPt} (ha : PathCell w h m a)
    (hr : Reach w h m a b) : Reach w h m b a := by
  induction hr with
  | refl => exact Relation.ReflTransGen.refl
  | tail hab hstep ih =>
    refine Relation.ReflTransGen.trans (Relation.ReflTransGen.single ?_) ih
    obtain ⟨hc, d, hd, rfl⟩ := hstep
    refine ⟨reach_pathCell w h m hab ha, ⟨⟨-d.x, -d.y⟩, neighborDirs_neg d hd, ?_⟩⟩
    dsimp only
    rw [add_neg_cancel_right, add_neg_cancel_right]

theorem floodFill_sound (w h : Int) (m : Maze) (c : IPt) :
    ∀ (fuel : Nat) (stack visited vis : List IPt),
    floodFill w h m fuel stack visited = .ok vis →
    (∀ v ∈ visited, PathCell w h m v ∧ Reach w h m c v) →
    (∀ v ∈ stack, PathCell w h m v ∧ Reach w h m c v) →
    ∀ v ∈ vis, PathCell w h m v ∧ Reach w h m c v := by
  intro fuel
  induction fuel with
  | zero =>
    intro stack visited vis hf hv hs
    cases stack with
    | nil =>
      simp only [floodFill] at hf
      cases hf
      exact hv
    | cons a rest => simp [floodFill] at hf
  | succ fuel ih =>
    intro stack visited vis hf hv hs
    cases stack with
    | nil =>
      simp only [floodFill] at hf
      cases hf
      exact hv
    | cons cur rest =>
      rw [floodFill] at hf
      split_ifs at hf with hmem
      · exact ih rest visited vis hf hv (fun v hvm => hs v (List.mem_cons_of_mem _ hvm))
      · dsimp only at hf
        refine ih _ _ _ hf ?_ ?_
        · intro v hvm
          rcases List.mem_cons.mp hvm with rfl | hvm
          · exact hs v (List.mem_cons_self _ _)
          · exact hv v hvm
        · intro v hvm
          rcases List.mem_append.mp hvm with hvm | hvm
          · rw [List.mem_reverse, List.mem_filter] at hvm
            obtain ⟨hmap, hdec⟩ := hvm
            rw [List.mem_map] at hmap
            obtain ⟨d, hd, rfl⟩ := hmap
            obtain ⟨hb, hp, _⟩ := of_decide_eq_true hdec
            exact ⟨⟨hb, hp⟩,
              Relation.ReflTransGen.tail (hs cur (List.mem_cons_self _ _)).2
                ⟨⟨hb, hp⟩, d, hd, rfl⟩⟩
          · exact hs v (List.mem_cons_of_mem _ hvm)

theorem floodFill_nodup (w h : Int) (m : Maze) :
    ∀ (fuel : Nat) (stack visited vis : List IPt),
    floodFill w h m fuel stack visited = .ok vis →
    visited.Nodup → vis.Nodup := by
  intro fuel
  induction fuel with
  | zero =>
    intro stack visited vis hf hnd
    cases stack with
    | nil =>
      simp only [floodFill] at hf
      cases hf
      exact hnd
    | cons a rest => simp [floodFill] at hf
  | succ fuel ih =>
    intro stack visited vis hf hnd
    cases stack with
    | nil =>
      simp only [floodFill] at hf
      cases hf
      exact hnd
    | cons cur rest =>
      rw [floodFill] at hf
      split_ifs at hf with hmem
      · exact ih rest visited vis hf hnd
      · dsimp only at hf
        exact ih _ _ _ hf (List.nodup_cons.mpr ⟨hmem, hnd⟩)

theorem subset_length_mem {l₁ l₂ : List IPt} (hsub : ∀ x ∈ l₁, x ∈ l₂)
    (hnd : l₁.Nodup) (hlen : l₁.length = l₂.length) : ∀ x ∈ l₂, x ∈ l₁ := by
  have h1 : l₁.toFinset ⊆ l₂.toFinset := by
    intro x hx
    rw [List.mem_toFinset] at hx ⊢
    exact hsub x hx
  have hc1 : l₁.toFinset.card = l₁.length := List.toFinset_card_of_nodup hnd
  have hc2 : l₂.toFinset.card ≤ l₂.length := l₂.toFinset_card_le
  have heq : l₁.toFinset = l₂.toFinset :=
    Finset.eq_of_subset_of_card_le h1 (by omega)
  intro x hx
  have hx' : x ∈ l₂.toFinset := List.mem_toFinset.mpr hx
  rw [← heq, List.mem_toFinset] at hx'
  exact hx'

theorem validateMaze_ok_parts (w h : Int) (fuel : Nat) (m : Maze)
    (hv : validateMaze w h fuel m = .ok ()) :
    ∃ c rest vis, getAccessiblePositions w h m = c :: rest ∧
      floodFill w h m fuel [c] [] = .ok vis ∧
      vis.length = (c :: rest).length := by
  unfold validateMaze at hv
  cases hacc : getAccessiblePositions w h m with
  | nil => rw [hacc] at hv; cases hv
  | cons c rest =>
    rw [hacc] at hv
    obtain ⟨vis, hff, hrest⟩ := exceptBind_ok _ _ _ hv
    split_ifs at hrest with hlen
    · exact ⟨c, rest, vis, rfl, hff, hlen⟩

theorem validate_connected (w h : Int) (fuel : Nat) (m : Maze)
    (hv : validateMaze w h fuel m = .ok ()) :
    ∀ p ∈ getAccessiblePositions w h m, ∀ q ∈ getAccessiblePositions w h m,
    Reach w h m p q := by
  obtain ⟨c, rest, vis, hacc, hff, hlen⟩ := validateMaze_ok_parts w h fuel m hv
  have hcmem : c ∈ getAccessiblePositions w h m := by
    rw [hacc]
    exact List.mem_cons_self _ _
  have hcpath : PathCell w h m c := (accessible_mem w h m c).mp hcmem
  have hsound := floodFill_sound w h m c fuel [c] [] vis hff
    (fun v hv' => absurd hv' (List.not_mem_nil v))
    (by
      intro v hv'
      rcases List.mem_cons.mp hv' with rfl | hv''
      · exact ⟨hcpath, Relation.ReflTransGen.refl⟩
      · exact absurd hv'' (List.not_mem_nil v))
  have hnd := floodFill_nodup w h m fuel [c] [] vis hff List.nodup_nil
  have hmemvis : ∀ x ∈ getAccessiblePositions w h m, x ∈ vis := by
    rw [hacc]
    refine subset_length_mem ?_ hnd hlen
    intro x hx
    rw [← hacc]
    exact (accessible_mem w h m x).mpr (hsound x hx).1
  intro p hp q hq
  exact Relation.ReflTransGen.trans
    (reach_symm w h m hcpath (hsound p (hmemvis p hp)).2)
    (hsound q (hmemvis q hq)).2

end MazeGenerator

/-- Claim C1: whenever `MazeGenerator.generate` returns a grid (rather than
throwing), the flood-fill validation has succeeded on it, so its path cells
form a single 4-connected component: any two path cells are joined by a chain
of 4-adjacent path cells.  A disconnected grid fails `validateMaze` and is
rejected with an error, never returned or repaired. -/
theorem maze_connectivity (w0 h0 : Int) (f : Nat → Nat) (fuel s s' : Nat) (m : Maze)
    (h : MazeGenerator.generate w0 h0 f fuel s = Except.ok (m, s')) :
    ∀ p ∈ MazeGenerator.getAccessiblePositions (MazeGenerator.oddNorm w0)
        (MazeGenerator.oddNorm h0) m,
    ∀ q ∈ MazeGenerator.getAccessiblePositions (MazeGenerator.oddNorm w0)
        (MazeGenerator.oddNorm h0) m,
    MazeGenerator.Reach (MazeGenerator.oddNorm w0) (MazeGenerator.oddNorm h0) m p q :=
  MazeGenerator.validate_connected _ _ fuel m
    (MazeGenerator.generate_ok_validate w0 h0 f fuel s m s' h)

/-- Witness for C1: the concrete 5×5 run `gen5` succeeds, and the theorem
connects the corner path cells (1,1) and (3,3) of its maze. -/
theorem maze_connectivity_witness :
    MazeGenerator.generate 5 5 f0 300 0 = Except.ok (m5, s5v) ∧
    MazeGenerator.Reach (MazeGenerator.oddNorm 5) (MazeGenerator.oddNorm 5) m5
      ⟨1, 1⟩ ⟨3, 3⟩ := by
  have hgen : MazeGenerator.generate 5 5 f0 300 0 = Except.ok (m5, s5v) := by rfl
  refine ⟨hgen, ?_⟩
  exact maze_connectivity 5 5 f0 300 0 s5v m5 hgen ⟨1, 1⟩ (by decide) ⟨3, 3⟩ (by decide)

end ConnectivityProofs

section BorderProofs

namespace MazeGenerator

theorem set?_get {m m' : Maze} {x y v : Int} (h : m.set? x y v = .ok m') (a b : Int) :
    m'.get a b = if a = x ∧ b = y then some v else m.get a b := by
  unfold Maze.set? at h
  split_ifs at h
  cases h
  rfl

theorem set?_borderWall {w h x y v : Int} {m m' : Maze} (hb : BorderWall w h m)
    (hx : 0 < x) (hx2 : x < w - 1) (hy : 0 < y) (hy2 : y < h - 1)
    (hs : m.set? x y v = .ok m') : BorderWall w h m' := by
  intro a b ha1 ha2 hb1 hb2 hedge
  rw [set?_get hs]
  rw [if_neg ?_]
  · exact hb a b ha1 ha2 hb1 hb2 hedge
  · rintro ⟨rfl, rfl⟩
    rcases hedge with rfl | rfl | rfl | rfl <;> omega

theorem path_interior {w h : Int} {m : Maze} (hb : BorderWall w h m) {x y : Int}
    (hx1 : 0 ≤ x) (hx2 : x < w) (hy1 : 0 ≤ y) (hy2 : y < h)
    (hp : m.get x y = some PATH) :
    0 < x ∧ x < w - 1 ∧ 0 < y ∧ y < h - 1 := by
  by_contra hc
  have hedge : x = 0 ∨ x = w - 1 ∨ y = 0 ∨ y = h - 1 := by omega
  have hwall := hb x y hx1 hx2 hy1 hy2 hedge
  rw [hp] at hwall
  simp [PATH, WALL] at hwall

theorem initMaze_borderWall (w h : Int) : BorderWall w h (initMaze w h) := by
  intro x y hx1 hx2 hy1 hy2 hedge
  unfold initMaze Maze.get
  dsimp only
  rw [if_pos ⟨hx1, hx2, hy1, hy2⟩]

theorem foldlM_borderWall {w h : Int} {β : Type} (step : Maze → β → Except String Maze)
    (l : List β)
    (hstep : ∀ mz p mz', p ∈ l → BorderWall w h mz → step mz p = .ok mz' →
      BorderWall w h mz') :
    ∀ m m', l.foldlM step m = .ok m' → BorderWall w h m → BorderWall w h m' := by
  induction l with
  | nil =>
    intro m m' hf hb
    have hf' : Except.ok m = Except.ok m' := hf
    cases hf'
    exact hb
  | cons p rest ih =>
    intro m m' hf hb
    rw [List.foldlM_cons] at hf
    obtain ⟨m1, h1, h2⟩ := exceptBind_ok _ _ _ hf
    exact ih (fun mz q mz' hq => hstep mz q mz' (List.mem_cons_of_mem _ hq)) m1 m' h2
      (hstep m p m1 (List.mem_cons_self _ _) hb h1)

theorem jsFloorMul_bounds (r : Nat) (n : Int) (hn : 0 < n) :
    0 ≤ jsFloorMul r n ∧ jsFloorMul r n < n := by
  unfold jsFloorMul
  rw [if_pos hn]
  exact ⟨Int.emod_nonneg _ (by omega), Int.emod_lt_of_pos _ hn⟩

theorem jsFloorMul_lb (r : Nat) (n : Int) (hn : -1 ≤ n) : -1 ≤ jsFloorMul r n := by
  unfold jsFloorMul
  split_ifs with h1 h2
  · have := Int.emod_nonneg (r : Int) (by omega : n ≠ 0)
    omega
  · omega
  · have h2' : n = -1 := by omega
    subst h2'
    rw [show (1 : Int) - -1 = 2 from by decide]
    omega

theorem randFloorMul_ok {f : Nat → Nat} {n : Int} {s s2 : Nat} {v : Int}
    (h : randFloorMul f n s = .ok (v, s2)) :
    v = jsFloorMul (f s) n ∧ s2 = s + 1 := by
  unfold randFloorMul at h
  obtain ⟨r, s1, hr, hp⟩ := GenM.bind_ok _ _ _ _ _ h
  have hr' : Except.ok (f s, s + 1) = Except.ok (r, s1) := hr
  cases hr'
  obtain ⟨hv, hs⟩ := GenM.pure_ok _ _ _ _ hp
  exact ⟨hv, hs⟩

theorem listSwap_mem {α : Type} {l : List α} {i j : Nat} {x : α}
    (hx : x ∈ listSwap l i j) : x ∈ l := by
  unfold listSwap at hx
  split at hx
  · rename_i a b hi hj
    rcases List.mem_or_eq_of_mem_set hx with hx' | rfl
    · rcases List.mem_or_eq_of_mem_set hx' with hx'' | rfl
      · exact hx''
      · exact List.getElem?_mem hj
    · exact List.getElem?_mem hi
  · exact hx

theorem shuffleGo_mem {α : Type} (f : Nat → Nat) :
    ∀ (k : Nat) (l l' : List α) (s s2 : Nat),
    shuffleGo f k l s = .ok (l', s2) → ∀ x ∈ l', x ∈ l := by
  intro k
  induction k with
  | zero =>
    intro l l' s s2 hs
    have hs' : (GenM.pure l : GenM (List α)) s = .ok (l', s2) := hs
    obtain ⟨hb, _⟩ := GenM.pure_ok _ _ _ _ hs'
    subst hb
    exact fun x hx => hx
  | succ k ih =>
    intro l l' s s2 hs
    rw [shuffleGo] at hs
    obtain ⟨j, s1, hj, hs⟩ := GenM.bind_ok _ _ _ _ _ hs
    intro x hx
    exact listSwap_mem (ih _ _ _ _ hs x hx)

theorem shuffleArray_mem {α : Type} (f : Nat → Nat) (l l' : List α) (s s2 : Nat)
    (hs : shuffleArray f l s = .ok (l', s2)) : ∀ x ∈ l', x ∈ l := by
  unfold shuffleArray at hs
  exact shuffleGo_mem f _ l l' s s2 hs

theorem mazeDirections_wall_interior {w h x y : Int} {d : IPt} (hd : d ∈ mazeDirections)
    (hxy : isValidPosition w h x y) (hnew : isValidPosition w h (x + d.x) (y + d.y)) :
    isValidPosition w h (x + d.x.fdiv 2) (y + d.y.fdiv 2) := by
  have hf : ∀ a : Int, a.fdiv 2 = a / 2 := fun a => Int.fdiv_eq_ediv a (by decide)
  unfold isValidPosition at *
  fin_cases hd <;> dsimp only at * <;> simp only [hf] <;> omega

theorem rbGo_borderWall {w h : Int} (f : Nat → Nat) :
    ∀ (fuel : Nat) (ds : List IPt) (x y : Int) (m m' : Maze) (s s2 : Nat),
    rbGo f w h fuel ds x y m s = .ok (m', s2) →
    BorderWall w h m → isValidPosition w h x y →
    (∀ d ∈ ds, d ∈ mazeDirections) → BorderWall w h m' := by
  intro fuel
  induction fuel with
  | zero =>
    intro ds x y m m' s s2 hr hb hxy hds
    have hr' : (GenM.throw "fuel exhausted" : GenM Maze) s = .ok (m', s2) := hr
    simp [GenM.throw] at hr'
  | succ fuel ih =>
    intro ds x y m m' s s2 hr hb hxy hds
    cases ds with
    | nil =>
      have hr' : (GenM.pure m : GenM Maze) s = .ok (m', s2) := hr
      obtain ⟨hb', _⟩ := GenM.pure_ok _ _ _ _ hr'
      subst hb'
      exact hb
    | cons d ds =>
      rw [rbGo] at hr
      dsimp only at hr
      split_ifs at hr with hcond
      · obtain ⟨m1, s1, h1, hr⟩ := GenM.bind_ok _ _ _ _ _ hr
        obtain ⟨m2, s2a, h2, hr⟩ := GenM.bind_ok _ _ _ _ _ hr
        obtain ⟨dirs, s3, h3, hr⟩ := GenM.bind_ok _ _ _ _ _ hr
        obtain ⟨m3, s4, h4, hr⟩ := GenM.bind_ok _ _ _ _ _ hr
        obtain ⟨hset1, _⟩ := GenM.ofExcept_ok _ _ _ _ h1
        obtain ⟨hset2, _⟩ := GenM.ofExcept_ok _ _ _ _ h2
        have hvalid : isValidPosition w h (x + d.x) (y + d.y) := hcond.1
        have hbm1 : BorderWall w h m1 := by
          obtain ⟨q1, q2, q3, q4⟩ := hvalid
          exact set?_borderWall hb q1 q2 q3 q4 hset1
        have hwall := mazeDirections_wall_interior (hds d (List.mem_cons_self _ _)) hxy hvalid
        have hbm2 : BorderWall w h m2 := by
          obtain ⟨q1, q2, q3, q4⟩ := hwall
          exact set?_borderWall hbm1 q1 q2 q3 q4 hset2
        have hdirs := shuffleArray_mem f mazeDirections dirs s2a s3 h3
        have hbm3 : BorderWall w h m3 :=
          ih dirs (x + d.x) (y + d.y) m2 m3 s3 s4 h4 hbm2 hvalid hdirs
        exact ih ds x y m3 m' s4 s2 hr hbm3 hxy
          (fun q hq => hds q (List.mem_cons_of_mem _ hq))
      · exact ih ds x y m m' s s2 hr hb hxy
          (fun q hq => hds q (List.mem_cons_of_mem _ hq))

theorem recursiveBacktrack_borderWall {w h : Int} (f : Nat → Nat) (fuel : Nat)
    {x y : Int} {m m' : Maze} {s s2 : Nat}
    (hr : recursiveBacktrack f w h fuel x y m s = .ok (m', s2))
    (hb : BorderWall w h m) (hxy : isValidPosition w h x y) : BorderWall w h m' := by
  unfold recursiveBacktrack at hr
  obtain ⟨dirs, s1, h1, hr⟩ := GenM.bind_ok _ _ _ _ _ hr
  exact rbGo_borderWall f fuel dirs x y m m' s1 s2 hr hb hxy
    (shuffleArray_mem f mazeDirections dirs s s1 h1)

theorem addRandomLoopsGo_borderWall {w h : Int} (f : Nat → Nat)
    (hw : 5 ≤ w) (hh : 5 ≤ h) :
    ∀ (k : Nat) (m m' : Maze) (s s2 : Nat),
    addRandomLoopsGo f w h k m s = .ok (m', s2) →
    BorderWall w h m → BorderWall w h m' := by
  intro k
  induction k with
  | zero =>
    intro m m' s s2 ha hb
    have ha' : (GenM.pure m : GenM Maze) s = .ok (m', s2) := ha
    obtain ⟨hb', _⟩ := GenM.pure_ok _ _ _ _ ha'
    subst hb'
    exact hb
  | succ k ih =>
    intro m m' s s2 ha hb
    rw [addRandomLoopsGo] at ha
    obtain ⟨rx, s1, hrx, ha⟩ := GenM.bind_ok _ _ _ _ _ ha
    obtain ⟨ry, s2a, hry, ha⟩ := GenM.bind_ok _ _ _ _ _ ha
    try dsimp only at ha
    split_ifs at ha with hcond
    · obtain ⟨m1, s3, h1, ha⟩ := GenM.bind_ok _ _ _ _ _ ha
      obtain ⟨hset, _⟩ := GenM.ofExcept_ok _ _ _ _ h1
      obtain ⟨hrx', _⟩ := randFloorMul_ok hrx
      obtain ⟨hry', _⟩ := randFloorMul_ok hry
      have hbx : 0 ≤ rx ∧ rx < w - 4 := by
        rw [hrx']
        exact jsFloorMul_bounds _ _ (by omega)
      have hby : 0 ≤ ry ∧ ry < h - 4 := by
        rw [hry']
        exact jsFloorMul_bounds _ _ (by omega)
      exact ih m1 m' s3 s2 ha
        (set?_borderWall hb (by omega) (by omega) (by omega) (by omega) hset)
    · exact ih m m' s2a s2 ha hb

theorem addRandomLoops_borderWall {w h : Int} (f : Nat → Nat)
    (hw : 5 ≤ w) (hh : 5 ≤ h) {m m' : Maze} {s s2 : Nat}
    (ha : addRandomLoops f w h m s = .ok (m', s2)) (hb : BorderWall w h m) :
    BorderWall w h m' := by
  unfold addRandomLoops at ha
  exact addRandomLoopsGo_borderWall f hw hh _ m m' s s2 ha hb

theorem widerCorridorWrites_borderWall {w h x y : Int} {m m' : Maze}
    (hx : 1 ≤ x) (hy : 1 ≤ y)
    (hc : widerCorridorWrites w h x y m = .ok m') (hb : BorderWall w h m) :
    BorderWall w h m' := by
  unfold widerCorridorWrites at hc
  refine foldlM_borderWall _ _ ?_ m m' hc hb
  intro mz p mz' hp hbz hs
  fin_cases hp <;>
    dsimp only at hs <;>
    split_ifs at hs with hg <;>
    first
      | exact set?_borderWall hbz (by omega) (by omega) (by omega) (by omega) hs
      | (have hs' : Except.ok mz = Except.ok mz' := hs
         cases hs'
         exact hbz)

theorem createWiderCorridorsGo_borderWall {w h : Int} (f : Nat → Nat)
    (hw : 5 ≤ w) (hh : 5 ≤ h) :
    ∀ (k : Nat) (m m' : Maze) (s s2 : Nat),
    createWiderCorridorsGo f w h k m s = .ok (m', s2) →
    BorderWall w h m → BorderWall w h m' := by
  intro k
  induction k with
  | zero =>
    intro m m' s s2 hc hb
    have hc' : (GenM.pure m : GenM Maze) s = .ok (m', s2) := hc
    obtain ⟨hb', _⟩ := GenM.pure_ok _ _ _ _ hc'
    subst hb'
    exact hb
  | succ k ih =>
    intro m m' s s2 hc hb
    rw [createWiderCorridorsGo] at hc
    obtain ⟨rx, s1, hrx, hc⟩ := GenM.bind_ok _ _ _ _ _ hc
    obtain ⟨ry, s2a, hry, hc⟩ := GenM.bind_ok _ _ _ _ _ hc
    dsimp only at hc
    split_ifs at hc with hcond
    · obtain ⟨m1, s3, h1, hc⟩ := GenM.bind_ok _ _ _ _ _ hc
      obtain ⟨hwr, _⟩ := GenM.ofExcept_ok _ _ _ _ h1
      obtain ⟨hrx', _⟩ := randFloorMul_ok hrx
      obtain ⟨hry', _⟩ := randFloorMul_ok hry
      have hbx : -1 ≤ rx := by
        rw [hrx']
        exact jsFloorMul_lb _ _ (by omega)
      have hby : -1 ≤ ry := by
        rw [hry']
        exact jsFloorMul_lb _ _ (by omega)
      exact ih m1 m' s3 s2 hc
        (widerCorridorWrites_borderWall (by omega) (by omega) hwr hb)
    · exact ih m m' s2a s2 hc hb

theorem createWiderCorridors_borderWall {w h : Int} (f : Nat → Nat)
    (hw : 5 ≤ w) (hh : 5 ≤ h) {m m' : Maze} {s s2 : Nat}
    (hc : createWiderCorridors f w h m s = .ok (m', s2)) (hb : BorderWall w h m) :
    BorderWall w h m' := by
  unfold createWiderCorridors at hc
  exact createWiderCorridorsGo_borderWall f hw hh _ m m' s s2 hc hb

theorem openAreaWrites_borderWall {w h cx cy half : Int} {m m' : Maze}
    (hc : openAreaWrites w h cx cy half m = .ok m') (hb : BorderWall w h m) :
    BorderWall w h m' := by
  unfold openAreaWrites at hc
  refine foldlM_borderWall _ _ ?_ m m' hc hb
  intro mz p mz' hp hbz hs
  split_ifs at hs with hg
  · exact set?_borderWall hbz hg.1 hg.2.1 hg.2.2.1 hg.2.2.2 hs
  · have hs' : Except.ok mz = Except.ok mz' := hs
    cases hs'
    exact hbz

theorem createOpenAreasGo_borderWall {w h : Int} (f : Nat → Nat) :
    ∀ (k : Nat) (m m' : Maze) (s s2 : Nat),
    createOpenAreasGo f w h k m s = .ok (m', s2) →
    BorderWall w h m → BorderWall w h m' := by
  intro k
  induction k with
  | zero =>
    intro m m' s s2 hc hb
    have hc' : (GenM.pure m : GenM Maze) s = .ok (m', s2) := hc
    obtain ⟨hb', _⟩ := GenM.pure_ok _ _ _ _ hc'
    subst hb'
    exact hb
  | succ k ih =>
    intro m m' s s2 hc hb
    rw [createOpenAreasGo] at hc
    obtain ⟨rx, s1, hrx, hc⟩ := GenM.bind_ok _ _ _ _ _ hc
    obtain ⟨ry, s2a, hry, hc⟩ := GenM.bind_ok _ _ _ _ _ hc
    try dsimp only at hc
    obtain ⟨rs, s3, hrs, hc⟩ := GenM.bind_ok _ _ _ _ _ hc
    try dsimp only at hc
    split_ifs at hc with hcond
    · obtain ⟨m1, s4, h1, hc⟩ := GenM.bind_ok _ _ _ _ _ hc
      obtain ⟨hwr, _⟩ := GenM.ofExcept_ok _ _ _ _ h1
      exact ih m1 m' s4 s2 hc (openAreaWrites_borderWall hwr hb)
    · exact ih m m' s3 s2 hc hb

theorem createOpenAreas_borderWall {w h : Int} (f : Nat → Nat) {m m' : Maze}
    {s s2 : Nat} (hc : createOpenAreas f w h m s = .ok (m', s2))
    (hb : BorderWall w h m) : BorderWall w h m' := by
  unfold createOpenAreas at hc
  exact createOpenAreasGo_borderWall f _ m m' s s2 hc hb

theorem createEdgeTunnels_borderWall {w h : Int} {m m' : Maze}
    (hw : 5 ≤ w) (hb : BorderWall w h m)
    (hc : createEdgeTunnels w h m = .ok m') : BorderWall w h m' := by
  unfold createEdgeTunnels at hc
  dsimp only at hc
  split_ifs at hc with hmid
  · obtain ⟨m1, h1, hc⟩ := exceptBind_ok _ _ _ hc
    obtain ⟨m2, h2, hc⟩ := exceptBind_ok _ _ _ hc
    obtain ⟨m3, h3, hc⟩ := exceptBind_ok _ _ _ hc
    obtain ⟨m4, h4, hc⟩ := exceptBind_ok _ _ _ hc
    have hc' : Except.ok m4 = Except.ok m' := hc
    cases hc'
    have hb1 := set?_borderWall hb (by omega) (by omega) (by omega) (by omega) h1
    have hb2 := set?_borderWall hb1 (by omega) (by omega) (by omega) (by omega) h2
    have hb3 := set?_borderWall hb2 (by omega) (by omega) (by omega) (by omega) h3
    exact set?_borderWall hb3 (by omega) (by omega) (by omega) (by omega) h4
  · have hc' : Except.ok m = Except.ok m' := hc
    cases hc'
    exact hb

theorem tryConnectGo_borderWall {w h x y : Int}
    (hxy : 0 < x ∧ x < w - 1 ∧ 0 < y ∧ y < h - 1) :
    ∀ (ps : List (Int × Int)) (m m' : Maze),
    tryConnectGo w h x y ps m = .ok m' → BorderWall w h m → BorderWall w h m' := by
  have hf : ∀ a : Int, a.fdiv 2 = a / 2 := fun a => Int.fdiv_eq_ediv a (by decide)
  intro ps
  induction ps with
  | nil =>
    intro m m' ht hb
    have ht' : Except.ok m = Except.ok m' := ht
    cases ht'
    exact hb
  | cons p rest ih =>
    intro m m' ht hb
    obtain ⟨dx, dy⟩ := p
    rw [tryConnectGo] at ht
    split_ifs at ht with h0 hpath hmid
    · exact ih m m' ht hb
    · obtain ⟨⟨hb1, hb2, hb3, hb4⟩, hget⟩ := hpath
      obtain ⟨q1, q2, q3, q4⟩ := path_interior hb hb1 hb2 hb3 hb4 hget
      refine set?_borderWall hb ?_ ?_ ?_ ?_ ht <;> rw [hf] <;> omega
    · exact ih m m' ht hb
    · exact ih m m' ht hb

theorem tryConnect_borderWall {w h x y : Int}
    (hxy : 0 < x ∧ x < w - 1 ∧ 0 < y ∧ y < h - 1) {m m' : Maze}
    (ht : tryConnectToExistingPaths w h m x y = .ok m') (hb : BorderWall w h m) :
    BorderWall w h m' := by
  unfold tryConnectToExistingPaths at ht
  exact tryConnectGo_borderWall hxy _ m m' ht hb

theorem createCorridorGo_borderWall {w h sx sy : Int} {d : IPt} {len : Int} :
    ∀ (is : List Int) (m m' : Maze),
    createCorridorGo w h sx sy d len is m = .ok m' →
    BorderWall w h m → BorderWall w h m' := by
  intro is
  induction is with
  | nil =>
    intro m m' hc hb
    have hc' : Except.ok m = Except.ok m' := hc
    cases hc'
    exact hb
  | cons i rest ih =>
    intro m m' hc hb
    rw [createCorridorGo] at hc
    dsimp only at hc
    split_ifs at hc with hpos hlen
    · obtain ⟨m1, h1, hc⟩ := exceptBind_ok _ _ _ hc
      obtain ⟨m2, h2, hc⟩ := exceptBind_ok _ _ _ hc
      have hbm1 := set?_borderWall hb hpos.1 hpos.2.1 hpos.2.2.1 hpos.2.2.2 h1
      exact ih m2 m' hc (tryConnect_borderWall hpos h2 hbm1)
    · obtain ⟨m1, h1, hc⟩ := exceptBind_ok _ _ _ hc
      obtain ⟨m2, h2, hc⟩ := exceptBind_ok _ _ _ hc
      have h2' : Except.ok m1 = Except.ok m2 := h2
      cases h2'
      have hbm1 := set?_borderWall hb hpos.1 hpos.2.1 hpos.2.2.1 hpos.2.2.2 h1
      exact ih m1 m' hc hbm1
    · have hc' : Except.ok m = Except.ok m' := hc
      cases hc'
      exact hb

theorem createCorridor_borderWall {w h sx sy : Int} {d : IPt} {len : Nat}
    {m m' : Maze} (hc : createCorridor w h m sx sy d len = .ok m')
    (hb : BorderWall w h m) : BorderWall w h m' := by
  unfold createCorridor at hc
  exact createCorridorGo_borderWall _ m m' hc hb

theorem cspGo_borderWall {w h sx sy : Int} :
    ∀ (ds : List IPt) (created : Nat) (m m' : Maze),
    cspGo w h sx sy ds created m = .ok m' →
    BorderWall w h m → BorderWall w h m' := by
  intro ds
  induction ds with
  | nil =>
    intro created m m' hc hb
    have hc' : Except.ok m = Except.ok m' := hc
    cases hc'
    exact hb
  | cons d rest ih =>
    intro created m m' hc hb
    rw [cspGo] at hc
    split_ifs at hc with h2 hguard
    · have hc' : Except.ok m = Except.ok m' := hc
      cases hc'
      exact hb
    · obtain ⟨m1, h1, hc⟩ := exceptBind_ok _ _ _ hc
      exact ih _ m1 m' hc (createCorridor_borderWall h1 hb)
    · exact ih _ m m' hc hb

theorem createStartingPaths_borderWall {w h sx sy : Int} (f : Nat → Nat)
    {m m' : Maze} {s s2 : Nat}
    (hc : createStartingPaths f w h m sx sy s = .ok (m', s2))
    (hb : BorderWall w h m) : BorderWall w h m' := by
  unfold createStartingPaths at hc
  obtain ⟨dirs, s1, h1, hc⟩ := GenM.bind_ok _ _ _ _ _ hc
  obtain ⟨hcs, _⟩ := GenM.ofExcept_ok _ _ _ _ hc
  exact cspGo_borderWall dirs 0 m m' hcs hb

theorem createStartingArea_borderWall {w h sx sy : Int}
    (hsx : 0 < sx ∧ sx < w - 1 ∧ 0 < sy ∧ sy < h - 1) {m m' : Maze}
    (hc : createStartingArea w h m sx sy = .ok m') (hb : BorderWall w h m) :
    BorderWall w h m' := by
  have hf : ∀ a : Int, a.fdiv 2 = a / 2 := fun a => Int.fdiv_eq_ediv a (by decide)
  unfold createStartingArea at hc
  obtain ⟨m1, h1, hc⟩ := exceptBind_ok _ _ _ hc
  have hbm1 : BorderWall w h m1 := by
    refine foldlM_borderWall _ _ ?_ m m1 h1 hb
    intro mz p mz' hp hbz hs
    split_ifs at hs with hg
    · exact set?_borderWall hbz (by omega) (by omega) (by omega) (by omega) hs
    · have hs' : Except.ok mz = Except.ok mz' := hs
      cases hs'
      exact hbz
  refine foldlM_borderWall _ _ ?_ m1 m' hc hbm1
  intro mz d mz' hd hbz hs
  split_ifs at hs with hg
  · obtain ⟨mz1, hs1, hs⟩ := exceptBind_ok _ _ _ hs
    obtain ⟨mz2, hs2, hs⟩ := exceptBind_ok _ _ _ hs
    have hbz1 := set?_borderWall hbz (by omega) (by omega) (by omega) (by omega) hs1
    have hbz2 : BorderWall w h mz2 := by
      refine set?_borderWall hbz1 ?_ ?_ ?_ ?_ hs2 <;> rw [hf] <;> omega
    exact createCorridor_borderWall hs hbz2
  · have hs' : Except.ok mz = Except.ok mz' := hs
    cases hs'
    exact hbz

theorem ensureStartingChoices_borderWall {w h : Int} (f : Nat → Nat)
    {m m' : Maze} {s s2 : Nat}
    (hc : ensureStartingChoices f w h m s = .ok (m', s2))
    (hb : BorderWall w h m) : BorderWall w h m' := by
  unfold ensureStartingChoices at hc
  cases hacc : getAccessiblePositions w h m with
  | nil =>
    rw [hacc] at hc
    have hc' : (GenM.pure m : GenM Maze) s = .ok (m', s2) := hc
    obtain ⟨hb', _⟩ := GenM.pure_ok _ _ _ _ hc'
    subst hb'
    exact hb
  | cons c rest =>
    rw [hacc] at hc
    dsimp only at hc
    have hcmem : c ∈ getAccessiblePositions w h m := by
      rw [hacc]
      exact List.mem_cons_self _ _
    obtain ⟨⟨hb1, hb2, hb3, hb4⟩, hget⟩ := (accessible_mem w h m c).mp hcmem
    have hcint := path_interior hb hb1 hb2 hb3 hb4 hget
    split_ifs at hc with hlen
    · obtain ⟨m1, s1, h1, hc⟩ := GenM.bind_ok _ _ _ _ _ hc
      obtain ⟨hcs, _⟩ := GenM.ofExcept_ok _ _ _ _ hc
      exact createStartingArea_borderWall hcint hcs
        (createStartingPaths_borderWall f h1 hb)
    · obtain ⟨m1, s1, h1, hc⟩ := GenM.bind_ok _ _ _ _ _ hc
      obtain ⟨hcs, _⟩ := GenM.ofExcept_ok _ _ _ _ hc
      obtain ⟨hb', _⟩ := GenM.pure_ok _ _ _ _ h1
      subst hb'
      exact createStartingArea_borderWall hcint hcs hb

theorem addPacManFeatures_borderWall {w h : Int} (f : Nat → Nat)
    (hw : 5 ≤ w) (hh : 5 ≤ h) {m m' : Maze} {s s2 : Nat}
    (hc : addPacManFeatures f w h m s = .ok (m', s2)) (hb : BorderWall w h m) :
    BorderWall w h m' := by
  unfold addPacManFeatures at hc
  obtain ⟨m1, s1, h1, hc⟩ := GenM.bind_ok _ _ _ _ _ hc
  obtain ⟨m2, s2a, h2, hc⟩ := GenM.bind_ok _ _ _ _ _ hc
  obtain ⟨m3, s3, h3, hc⟩ := GenM.bind_ok _ _ _ _ _ hc
  obtain ⟨htun, _⟩ := GenM.ofExcept_ok _ _ _ _ hc
  have hb1 := addRandomLoops_borderWall f hw hh h1 hb
  have hb2 := createWiderCorridors_borderWall f hw hh h2 hb1
  have hb3 := createOpenAreas_borderWall f h3 hb2
  exact createEdgeTunnels_borderWall hw hb3 htun

theorem generate_borderWall (w0 h0 : Int) (f : Nat → Nat) (fuel s : Nat)
    (m : Maze) (s' : Nat) (hw : 5 ≤ oddNorm w0) (hh : 5 ≤ oddNorm h0)
    (h : generate w0 h0 f fuel s = .ok (m, s')) :
    BorderWall (oddNorm w0) (oddNorm h0) m := by
  unfold generate at h
  obtain ⟨m1, s1, h1, h⟩ := GenM.bind_ok _ _ _ _ _ h
  obtain ⟨m2, s2, h2, h⟩ := GenM.bind_ok _ _ _ _ _ h
  obtain ⟨m3, s3, h3, h⟩ := GenM.bind_ok _ _ _ _ _ h
  obtain ⟨m4, s4, h4, h⟩ := GenM.bind_ok _ _ _ _ _ h
  obtain ⟨u, s5, h5, h⟩ := GenM.bind_ok _ _ _ _ _ h
  obtain ⟨hb', _⟩ := GenM.pure_ok _ _ _ _ h
  obtain ⟨hset, _⟩ := GenM.ofExcept_ok _ _ _ _ h1
  have hbm1 : BorderWall (oddNorm w0) (oddNorm h0) m1 :=
    set?_borderWall (initMaze_borderWall _ _) (by omega) (by omega) (by omega)
      (by omega) hset
  have hbm2 : BorderWall (oddNorm w0) (oddNorm h0) m2 :=
    recursiveBacktrack_borderWall f fuel h2 hbm1 ⟨by omega, by omega, by omega, by omega⟩
  have hbm3 : BorderWall (oddNorm w0) (oddNorm h0) m3 :=
    addPacManFeatures_borderWall f hw hh h3 hbm2
  have hbm4 : BorderWall (oddNorm w0) (oddNorm h0) m4 :=
    ensureStartingChoices_borderWall f h4 hbm3
  rw [hb']
  exact hbm4

end MazeGenerator

/-- Claim C6 (amended): for a generator whose normalized dimensions are at
least 5×5, every grid `generate` returns has an all-wall outer border: the
initial grid is all wall, and every later write is confined to the interior —
the backtracker and its wall-knockouts by position validity, the loop/corridor
/open-area passes by their guards and the draw ranges, the edge tunnels by
`width ≥ 5`, and the connection scan because its midpoints lie between two
interior path cells.  At width 3 the claim as stated is false: the tunnel
write `maze[midY][width-3]` lands on column 0 (see the counterexample). -/
theorem border_invariant (w0 h0 : Int) (f : Nat → Nat) (fuel s s' : Nat) (m : Maze)
    (hw : 5 ≤ MazeGenerator.oddNorm w0) (hh : 5 ≤ MazeGenerator.oddNorm h0)
    (h : MazeGenerator.generate w0 h0 f fuel s = Except.ok (m, s')) :
    MazeGenerator.BorderWall (MazeGenerator.oddNorm w0) (MazeGenerator.oddNorm h0) m :=
  MazeGenerator.generate_borderWall w0 h0 f fuel s m s' hw hh h

/-- Witness for C6 (amended): the concrete 5×5 run `gen5` keeps its whole
border wall. -/
theorem border_invariant_witness : MazeGenerator.BorderWall 5 5 m5 := by
  have hgen : MazeGenerator.generate 5 5 f0 300 0 = Except.ok (m5, s5v) := by rfl
  exact border_invariant 5 5 f0 300 0 s5v m5 (by decide) (by decide) hgen

/-- Counterexample to C6 as stated: the concrete (normalized) 3×7 run
`gen37` succeeds yet carves the border cell (0,3) into a path — the edge
tunnel write at column `width - 3 = 0` — so its border is not all wall. -/
theorem border_invariant_counterexample :
    MazeGenerator.generate 3 7 f0 300 0 = Except.ok (m37, s37v) ∧
    m37.get 0 3 = some PATH ∧ ¬ MazeGenerator.BorderWall 3 7 m37 := by
  have hgen : MazeGenerator.generate 3 7 f0 300 0 = Except.ok (m37, s37v) := by rfl
  have hget : m37.get 0 3 = some PATH := by rfl
  refine ⟨hgen, hget, ?_⟩
  intro hb
  have hwall := hb 0 3 (by decide) (by decide) (by decide) (by decide) (Or.inl rfl)
  rw [hget] at hwall
  simp [PATH, WALL] at hwall

end BorderProofs

section AStarProofs

theorem alistGet_set {α : Type} (m : List (IPt × α)) (k k' : IPt) (v : α) :
    alistGet (alistSet m k v) k' = if k' = k then some v else alistGet m k' := by
  unfold alistGet alistSet
  rw [List.find?]
  split_ifs with he
  · subst he
    simp
  · have hbeq : (k == k') = false := by
      rw [beq_eq_false_iff_ne]
      exact fun hc => he hc.symm
    simp only [hbeq]

theorem getNeighbors_mem {r : MazeRenderer} {a b : IPt} :
    b ∈ Enemy.getNeighbors r a ↔
    ∃ d ∈ MazeGenerator.neighborDirs, b = ⟨a.x + d.x, a.y + d.y⟩ ∧
      r.isWallAtPosition (r.gridToWorld b.x b.y).1 (r.gridToWorld b.x b.y).2 = false := by
  unfold Enemy.getNeighbors
  rw [List.mem_filterMap]
  constructor
  · rintro ⟨d, hd, hb⟩
    dsimp only at hb
    split_ifs at hb with hw
    · cases hb
      exact ⟨d, hd, rfl, by rwa [Bool.not_eq_true] at hw⟩
  · rintro ⟨d, hd, rfl, hw⟩
    refine ⟨d, hd, ?_⟩
    dsimp only at hw ⊢
    rw [if_neg (by simp [hw])]

theorem heuristic_adj {r : MazeRenderer} {goal a b : IPt} (hab : AdjStep r a b) :
    Enemy.heuristic a goal ≤ Enemy.heuristic b goal + 1 := by
  obtain ⟨d, hd, rfl, _⟩ := getNeighbors_mem.mp hab
  unfold Enemy.heuristic
  simp only [Int.abs_eq_natAbs]
  fin_cases hd <;> dsimp only <;> omega

theorem heuristic_nonneg (a b : IPt) : 0 ≤ Enemy.heuristic a b := by
  unfold Enemy.heuristic
  positivity

theorem heuristic_self (a : IPt) : Enemy.heuristic a a = 0 := by
  unfold Enemy.heuristic
  simp

theorem walk_heuristic {r : MazeRenderer} {goal : IPt} :
    ∀ {n u : IPt} {k : Nat}, Walk r n u k →
    Enemy.heuristic n goal ≤ k + Enemy.heuristic u goal := by
  intro n u k hw
  induction hw with
  | refl m => omega
  | cons hab hbc ih =>
    have := @heuristic_adj r goal _ _ hab
    omega

theorem walk_snoc {r : MazeRenderer} :
    ∀ {a b c : IPt} {k : Nat}, Walk r a b k → AdjStep r b c → Walk r a c (k + 1) := by
  intro a b c k hw
  induction hw with
  | refl m => intro h; exact Walk.cons h (Walk.refl _)
  | cons hab hbc ih =>
    intro h
    exact Walk.cons hab (ih h)

theorem walk_trans {r : MazeRenderer} :
    ∀ {a b c : IPt} {j k : Nat}, Walk r a b j → Walk r b c k → Walk r a c (j + k) := by
  intro a b c j k hab
  induction hab with
  | refl m => intro h; simpa using h
  | cons hxy hyz ih =>
    intro h
    have hres := Walk.cons hxy (ih h)
    convert hres using 1
    omega

theorem walk_of_list {r : MazeRenderer} :
    ∀ (q : List IPt) (s g : IPt), q.Chain' (AdjStep r) →
    q.head? = some s → q.getLast? = some g → Walk r s g (q.length - 1) := by
  intro q
  induction q with
  | nil => intro s g _ hh hl; cases hh
  | cons a rest ih =>
    intro s g hc hh hl
    cases hh
    cases rest with
    | nil =>
      have hl' : some a = some g := hl
      cases hl'
      exact Walk.refl _
    | cons b rest2 =>
      rw [List.chain'_cons] at hc
      have hw := ih b g hc.2 rfl (by simpa using hl)
      exact Walk.cons hc.1 hw

theorem list_of_walk {r : MazeRenderer} :
    ∀ {s g : IPt} {k : Nat}, Walk r s g k →
    ∃ q : List IPt, q.Chain' (AdjStep r) ∧ q.head? = some s ∧ q.getLast? = some g ∧
      q.length = k + 1 := by
  intro s g k hw
  induction hw with
  | refl n => exact ⟨[n], by simp, rfl, rfl, rfl⟩
  | cons hab hbc ih =>
    obtain ⟨q, hc, hh, hl, hlen⟩ := ih
    cases q with
    | nil => cases hh
    | cons b0 rest =>
      have hh' : b0 = _ := Option.some.inj hh
      subst hh'
      refine ⟨_ :: b0 :: rest, ?_, rfl, ?_, ?_⟩
      · rw [List.chain'_cons]
        exact ⟨hab, hc⟩
      · simpa using hl
      · simpa using hlen

theorem any_beq_eq {l : List IPt} {x : IPt} :
    (l.any fun node => node == x) = true ↔ x ∈ l := by
  simp [List.any_eq_true, beq_iff_eq]

theorem gval_update (st : AStarState) (nb current : IPt) (t ft : Option Int)
    (op : List IPt) (n : IPt) :
    gval { st with
      openSet := op
      cameFrom := alistSet st.cameFrom nb current
      gScore := alistSet st.gScore nb t
      fScore := alistSet st.fScore nb ft } n =
    if n = nb then t else gval st n := by
  unfold gval
  dsimp only
  rw [alistGet_set]
  split_ifs <;> rfl

theorem fval_update (st : AStarState) (nb current : IPt) (t ft : Option Int)
    (op : List IPt) (n : IPt) :
    fval { st with
      openSet := op
      cameFrom := alistSet st.cameFrom nb current
      gScore := alistSet st.gScore nb t
      fScore := alistSet st.fScore nb ft } n =
    if n = nb then ft else fval st n := by
  unfold fval
  dsimp only
  rw [alistGet_set]
  split_ifs <;> rfl

theorem cfget_update (st : AStarState) (nb current : IPt) (t ft : Option Int)
    (op : List IPt) (n : IPt) :
    cfget { st with
      openSet := op
      cameFrom := alistSet st.cameFrom nb current
      gScore := alistSet st.gScore nb t
      fScore := alistSet st.fScore nb ft } n =
    if n = nb then some current else cfget st n := by
  unfold cfget
  dsimp only
  rw [alistGet_set]

theorem processNeighbors_spec (goal current : IPt) (gcur : Int) :
    ∀ (l : List IPt) (st : AStarState),
    current ∈ st.closedSet →
    gval st current = some gcur →
    (∀ n, fval st n = (gval st n).map (fun v => v + Enemy.heuristic n goal)) →
    st.openSet.Nodup →
    (processNeighbors goal l current st).closedSet = st.closedSet ∧
    (∀ n ∈ st.openSet, n ∈ (processNeighbors goal l current st).openSet) ∧
    (∀ n ∈ (processNeighbors goal l current st).openSet, n ∈ st.openSet ∨ n ∈ l) ∧
    (processNeighbors goal l current st).openSet.Nodup ∧
    (∀ n, fval (processNeighbors goal l current st) n =
      (gval (processNeighbors goal l current st) n).map
        (fun v => v + Enemy.heuristic n goal)) ∧
    (∀ n, (gval (processNeighbors goal l current st) n = gval st n ∧
           cfget (processNeighbors goal l current st) n = cfget st n ∧
           (n ∈ (processNeighbors goal l current st).openSet → n ∈ st.openSet)) ∨
      (n ∈ l ∧ n ∉ st.closedSet ∧
       gval (processNeighbors goal l current st) n = some (gcur + 1) ∧
       cfget (processNeighbors goal l current st) n = some current ∧
       n ∈ (processNeighbors goal l current st).openSet ∧
       (∀ v, gval st n = some v → n ∈ st.openSet → gcur + 1 < v))) ∧
    (∀ n ∈ l, n ∈ st.closedSet ∨ (n ∈ (processNeighbors goal l current st).openSet ∧
       ∀ v', gval (processNeighbors goal l current st) n = some v' → v' ≤ gcur + 1)) := by
  intro l
  induction l with
  | nil =>
    intro st hcl hg hf hnd
    rw [processNeighbors]
    exact ⟨rfl, fun n hn => hn, fun n hn => Or.inl hn, hnd, hf,
      fun n => Or.inl ⟨rfl, rfl, fun hn => hn⟩,
      fun n hn => absurd hn (List.not_mem_nil n)⟩
  | cons nb rest ih =>
    intro st hcl hg hf hnd
    rw [processNeighbors]
    split_ifs with hnbcl
    · obtain ⟨c1, c2, c3, c4, c5, c6, c7⟩ := ih st hcl hg hf hnd
      refine ⟨c1, c2, ?_, c4, c5, ?_, ?_⟩
      · intro n hn
        rcases c3 n hn with hn' | hn'
        · exact Or.inl hn'
        · exact Or.inr (List.mem_cons_of_mem _ hn')
      · intro n
        rcases c6 n with hn' | ⟨hm, hncl, hgv, hcf, hop, hdec⟩
        · exact Or.inl hn'
        · exact Or.inr ⟨List.mem_cons_of_mem _ hm, hncl, hgv, hcf, hop, hdec⟩
      · intro n hn
        rcases List.mem_cons.mp hn with rfl | hn'
        · exact Or.inl hnbcl
        · exact c7 n hn'
    · dsimp only
      simp only [show (alistGet st.gScore current).join = some gcur from hg]
      set t : Option Int := (some gcur).map (fun v => v + 1) with ht
      have ht' : t = some (gcur + 1) := rfl
      set op : List IPt :=
        if (st.openSet.any fun node => node == nb) = true then st.openSet
        else st.openSet ++ [nb] with hop
      split_ifs with hskip
      · obtain ⟨c1, c2, c3, c4, c5, c6, c7⟩ := ih st hcl hg hf hnd
        refine ⟨c1, c2, ?_, c4, c5, ?_, ?_⟩
        · intro n hn
          rcases c3 n hn with hn' | hn'
          · exact Or.inl hn'
          · exact Or.inr (List.mem_cons_of_mem _ hn')
        · intro n
          rcases c6 n with hn' | ⟨hm, hncl, hgv, hcf, hop2, hdec⟩
          · exact Or.inl hn'
          · exact Or.inr ⟨List.mem_cons_of_mem _ hm, hncl, hgv, hcf, hop2, hdec⟩
        · intro n hn
          rcases List.mem_cons.mp hn with rfl | hn'
          · refine Or.inr ⟨c2 n (any_beq_eq.mp hskip.1), ?_⟩
            intro v' hv'
            have hgeB := hskip.2
            rw [ht'] at hgeB
            rcases c6 n with ⟨hgv, _, _⟩ | ⟨_, _, hgv, _, _, _⟩
            · rw [hgv] at hv'
              rw [show (alistGet st.gScore n).join = some v' from hv'] at hgeB
              unfold optGeB at hgeB
              simpa using hgeB
            · rw [hgv] at hv'
              cases hv'
              exact le_refl _
          · exact c7 n hn'
      · set st1 : AStarState :=
          { st with
            openSet := op
            cameFrom := alistSet st.cameFrom nb current
            gScore := alistSet st.gScore nb t
            fScore := alistSet st.fScore nb
              (t.map (fun v => v + Enemy.heuristic nb goal)) } with hst1
        have hcl1 : current ∈ st1.closedSet := hcl
        have hcurne : current ≠ nb := fun hc => hnbcl (hc ▸ hcl)
        have hg1 : gval st1 current = some gcur := by
          rw [hst1, gval_update, if_neg hcurne]
          exact hg
        have hopsub : ∀ n ∈ st.openSet, n ∈ op := by
          intro n hn
          rw [hop]
          split_ifs
          · exact hn
          · exact List.mem_append_left _ hn
        have hopsup : ∀ n ∈ op, n ∈ st.openSet ∨ n = nb := by
          intro n hn
          rw [hop] at hn
          split_ifs at hn
          · exact Or.inl hn
          · rcases List.mem_append.mp hn with hn' | hn'
            · exact Or.inl hn'
            · exact Or.inr (List.mem_singleton.mp hn')
        have hnbop : nb ∈ op := by
          rw [hop]
          split_ifs with hin
          · exact any_beq_eq.mp hin
          · exact List.mem_append_right _ (List.mem_singleton.mpr rfl)
        have hf1 : ∀ n, fval st1 n = (gval st1 n).map (fun v => v + Enemy.heuristic n goal) := by
          intro n
          rw [hst1, fval_update, gval_update]
          split_ifs with hn
          · subst hn
            rfl
          · exact hf n
        have hnd1 : st1.openSet.Nodup := by
          rw [hst1]
          dsimp only
          rw [hop]
          split_ifs with hin
          · exact hnd
          · rw [List.nodup_append]
            refine ⟨hnd, List.nodup_singleton _, ?_⟩
            intro a ha hb
            rw [List.mem_singleton] at hb
            subst hb
            exact absurd (any_beq_eq.mpr ha) (by simpa using hin)
        have hgnb1 : gval st1 nb = some (gcur + 1) := by
          rw [hst1, gval_update, if_pos rfl, ht']
        obtain ⟨c1, c2, c3, c4, c5, c6, c7⟩ := ih st1 hcl1 hg1 hf1 hnd1
        have hc1' : (processNeighbors goal rest current st1).closedSet = st.closedSet := c1
        refine ⟨hc1', ?_, ?_, c4, c5, ?_, ?_⟩
        · intro n hn
          exact c2 n (hopsub n hn)
        · intro n hn
          rcases c3 n hn with hn' | hn'
          · rcases hopsup n hn' with hn'' | hn''
            · exact Or.inl hn''
            · exact Or.inr (hn'' ▸ List.mem_cons_self _ _)
          · exact Or.inr (List.mem_cons_of_mem _ hn')
        · intro n
          by_cases hn : n = nb
          · subst hn
            rcases c6 n with ⟨hgv, hcf, _⟩ | ⟨hm, hncl, hgv, hcf, hopn, hdec⟩
            all_goals refine Or.inr ⟨List.mem_cons_self _ _, hnbcl, ?_, ?_, ?_, ?_⟩
            · rw [hgv]
              exact hgnb1
            · rw [hcf, hst1, cfget_update, if_pos rfl]
            · exact c2 n hnbop
            · intro v hv hvin
              have hin : (st.openSet.any fun node => node == n) = true := any_beq_eq.mpr hvin
              have hge : optGeB t (gval st n) = false := by
                by_contra hge'
                exact hskip ⟨hin, by simpa using hge'⟩
              rw [ht', hv] at hge
              unfold optGeB at hge
              simpa using hge
            · rw [hgv]
            · rw [hcf]
            · exact hopn
            · intro v hv hvin
              have hin : (st.openSet.any fun node => node == n) = true := any_beq_eq.mpr hvin
              have hge : optGeB t (gval st n) = false := by
                by_contra hge'
                exact hskip ⟨hin, by simpa using hge'⟩
              rw [ht', hv] at hge
              unfold optGeB at hge
              simpa using hge
          · rcases c6 n with ⟨hgv, hcf, hmem⟩ | ⟨hm, hncl, hgv, hcf, hopn, hdec⟩
            · refine Or.inl ⟨?_, ?_, ?_⟩
              · rw [hgv, hst1, gval_update, if_neg hn]
              · rw [hcf, hst1, cfget_update, if_neg hn]
              · intro hno
                rcases hopsup n (hmem hno) with hn' | hn'
                · exact hn'
                · exact absurd hn' hn
            · refine Or.inr ⟨List.mem_cons_of_mem _ hm, ?_, hgv, hcf, hopn, ?_⟩
              · intro hc
                exact hncl hc
              · intro v hv hvin
                refine hdec v ?_ ?_
                · rw [hst1, gval_update, if_neg hn]
                  exact hv
                · exact hopsub n hvin
        · intro n hn
          rcases List.mem_cons.mp hn with rfl | hn'
          · refine Or.inr ⟨c2 n hnbop, ?_⟩
            intro v' hv'
            rcases c6 n with ⟨hgv, _, _⟩ | ⟨_, _, hgv, _, _, _⟩
            · rw [hgv, hgnb1] at hv'
              cases hv'
              exact le_refl _
            · rw [hgv] at hv'
              cases hv'
              exact le_refl _
          · rcases c7 n hn' with hn'' | ⟨hop2, hbound⟩
            · exact Or.inl hn''
            · exact Or.inr ⟨hop2, hbound⟩


theorem optLtB_some_iff {a b : Int} : optLtB (some a) (some b) = true ↔ a < b := by
  unfold optLtB
  simp

theorem perm_cons_eraseIdx {α : Type} :
    ∀ (l : List α) (i : Nat) (a : α), l[i]? = some a → l.Perm (a :: l.eraseIdx i) := by
  intro l
  induction l with
  | nil => intro i a h; simp at h
  | cons b rest ih =>
    intro i a h
    cases i with
    | zero =>
      have hb : b = a := by simpa using h
      subst hb
      simp [List.eraseIdx]
    | succ i =>
      have h' : rest[i]? = some a := by simpa using h
      have hperm := ih i a h'
      exact (List.Perm.cons b hperm).trans (List.Perm.swap a b (rest.eraseIdx i))

theorem findMinGo_spec (fS : List (IPt × Option Int)) (full : List IPt) :
    ∀ (l : List IPt) (cur : IPt) (curIdx i : Nat),
    full.drop i = l → full[curIdx]? = some cur →
    (∀ n ∈ cur :: l, ∃ v, (alistGet fS n).join = some v) →
    full[(findMinGo fS l cur curIdx i).2]? = some (findMinGo fS l cur curIdx i).1 ∧
    ∃ vres, (alistGet fS (findMinGo fS l cur curIdx i).1).join = some vres ∧
      ∀ n ∈ cur :: l, ∀ vn, (alistGet fS n).join = some vn → vres ≤ vn := by
  intro l
  induction l with
  | nil =>
    intro cur curIdx i hdrop hcur hvals
    rw [findMinGo]
    obtain ⟨vc, hvc⟩ := hvals cur (List.mem_cons_self _ _)
    refine ⟨hcur, vc, hvc, ?_⟩
    intro n hn vn hvn
    have hn' : n = cur := by simpa using hn
    subst hn'
    rw [hvc] at hvn
    cases hvn
    exact le_refl _
  | cons c restL ih =>
    intro cur curIdx i hdrop hcur hvals
    rw [findMinGo]
    have hc : full[i]? = some c := by
      have hdj : (full.drop i)[0]? = full[i + 0]? := List.getElem?_drop full i 0
      rw [hdrop] at hdj
      simpa using hdj.symm
    have hdrop' : full.drop (i + 1) = restL := by
      have : full.drop (i + 1) = (full.drop i).drop 1 := by
        rw [List.drop_drop]
      rw [this, hdrop]
      rfl
    obtain ⟨vcur, hvcur⟩ := hvals cur (List.mem_cons_self _ _)
    obtain ⟨vc, hvc⟩ := hvals c (List.mem_cons_of_mem _ (List.mem_cons_self _ _))
    split_ifs with hlt
    · have hvals' : ∀ n ∈ c :: restL, ∃ v, (alistGet fS n).join = some v := by
        intro n hn
        rcases List.mem_cons.mp hn with rfl | hn'
        · exact ⟨vc, hvc⟩
        · exact hvals n (List.mem_cons_of_mem _ (List.mem_cons_of_mem _ hn'))
      obtain ⟨hidx, vres, hvres, hmin⟩ := ih c i (i + 1) hdrop' hc hvals'
      refine ⟨hidx, vres, hvres, ?_⟩
      intro n hn vn hvn
      rcases List.mem_cons.mp hn with rfl | hn'
      · rw [hvcur] at hvn
        cases hvn
        rw [hvc, hvcur] at hlt
        have hlt' := optLtB_some_iff.mp hlt
        have := hmin c (List.mem_cons_self _ _) vc hvc
        omega
      · exact hmin n hn' vn hvn
    · have hvals' : ∀ n ∈ cur :: restL, ∃ v, (alistGet fS n).join = some v := by
        intro n hn
        rcases List.mem_cons.mp hn with rfl | hn'
        · exact ⟨vcur, hvcur⟩
        · exact hvals n (List.mem_cons_of_mem _ (List.mem_cons_of_mem _ hn'))
      obtain ⟨hidx, vres, hvres, hmin⟩ := ih cur curIdx (i + 1) hdrop' hcur hvals'
      refine ⟨hidx, vres, hvres, ?_⟩
      intro n hn vn hvn
      rcases List.mem_cons.mp hn with rfl | hn'
      · exact hmin n (List.mem_cons_self _ _) vn hvn
      · rcases List.mem_cons.mp hn' with rfl | hn''
        · rw [hvc] at hvn
          cases hvn
          rw [hvc, hvcur] at hlt
          have hle : vcur ≤ vc := by
            by_contra hgt
            exact hlt (optLtB_some_iff.mpr (by omega))
          have := hmin cur (List.mem_cons_self _ _) vcur hvcur
          omega
        · exact hmin n (List.mem_cons_of_mem _ hn'') vn hvn

theorem selectCurrent_none {fS : List (IPt × Option Int)} {openSet : List IPt}
    (h : selectCurrent fS openSet = none) : openSet = [] := by
  unfold selectCurrent at h
  cases openSet with
  | nil => rfl
  | cons c rest => cases h

theorem selectCurrent_spec {fS : List (IPt × Option Int)} {openSet : List IPt}
    {c : IPt} {rest : List IPt}
    (h : selectCurrent fS openSet = some (c, rest))
    (hvals : ∀ n ∈ openSet, ∃ v, (alistGet fS n).join = some v) :
    openSet.Perm (c :: rest) ∧
    ∃ vc, (alistGet fS c).join = some vc ∧
      ∀ n ∈ openSet, ∀ vn, (alistGet fS n).join = some vn → vc ≤ vn := by
  unfold selectCurrent at h
  cases openSet with
  | nil => cases h
  | cons c0 rest0 =>
    dsimp only at h
    obtain ⟨hidx, vres, hvres, hmin⟩ :=
      findMinGo_spec fS (c0 :: rest0) rest0 c0 0 1 rfl (by simp) hvals
    have hc : c = (findMinGo fS rest0 c0 0 1).1 ∧
        rest = (c0 :: rest0).eraseIdx (findMinGo fS rest0 c0 0 1).2 := by
      have h' := h
      injection h' with h1
      injection h1 with h2 h3
      exact ⟨h2.symm, h3.symm⟩
    obtain ⟨rfl, rfl⟩ := hc
    exact ⟨perm_cons_eraseIdx _ _ _ hidx, vres, hvres, hmin⟩

theorem walk_unsnoc {r : MazeRenderer} :
    ∀ {a c : IPt} {k : Nat}, Walk r a c k →
    (k = 0 → a = c) ∧ (∀ j : Nat, k = j + 1 → ∃ b, Walk r a b j ∧ AdjStep r b c) := by
  intro a c k hw
  induction hw with
  | refl n => exact ⟨fun _ => rfl, fun j hj => absurd hj (by omega)⟩
  | cons hab hbc ih =>
    rename_i a0 b0 c0 k0
    refine ⟨fun h => absurd h (by omega), ?_⟩
    intro j hj
    have hj' : _ = j := Nat.succ_injective hj
    subst hj'
    rcases Nat.eq_zero_or_pos k0 with hz | hpos
    · subst hz
      have hb0 : b0 = c0 := ih.1 rfl
      subst hb0
      exact ⟨a0, Walk.refl _, hab⟩
    · have hsucc : k0 = (k0 - 1) + 1 := by omega
      obtain ⟨w, hw1, hw2⟩ := ih.2 (k0 - 1) hsucc
      refine ⟨w, ?_, hw2⟩
      have hres := Walk.cons hab hw1
      have hk : k0 - 1 + 1 = k0 := by omega
      rw [hk] at hres
      exact hres

theorem frontier {r : MazeRenderer} {start goal : IPt} {st : AStarState}
    (hinv : AInv r start goal st) :
    ∀ (k : Nat) (u : IPt), Walk r start u k → u ∉ st.closedSet →
    ∃ n ∈ st.openSet, ∃ gn : Int, gval st n = some gn ∧
      ∃ k2 : Nat, Walk r n u k2 ∧ gn + (k2 : Int) ≤ (k : Int) := by
  intro k
  induction k with
  | zero =>
    intro u hw hu
    have hu' : start = u := (walk_unsnoc hw).1 rfl
    subst hu'
    rcases hinv.startIn with hs | hs
    · exact ⟨start, hs, 0, hinv.gStart, 0, Walk.refl _, by simp⟩
    · exact absurd hs hu
  | succ j ih =>
    intro u hw hu
    obtain ⟨w, hw1, hw2⟩ := (walk_unsnoc hw).2 j rfl
    by_cases hwcl : w ∈ st.closedSet
    · rcases hinv.closedExp w hwcl u hw2 with hucl | ⟨huop, hbound⟩
      · exact absurd hucl hu
      · obtain ⟨ku, hku⟩ := hinv.gOpen u huop
        obtain ⟨kw, hkw⟩ := hinv.gClosed w hwcl
        have h1 := hbound _ _ hku hkw
        have h2 := hinv.closedOpt w hwcl _ hkw j hw1
        refine ⟨u, huop, (ku : Int), hku, 0, Walk.refl _, ?_⟩
        push_cast
        omega
    · obtain ⟨n, hnop, gn, hgn, k2, hwalk2, hle⟩ := ih w hw1 hwcl
      refine ⟨n, hnop, gn, hgn, k2 + 1, walk_snoc hwalk2 hw2, ?_⟩
      push_cast at hle ⊢
      omega

theorem popped_opt {r : MazeRenderer} {start goal : IPt} {st : AStarState}
    {current : IPt} {openRest : List IPt}
    (hinv : AInv r start goal st)
    (hsel : selectCurrent st.fScore st.openSet = some (current, openRest)) :
    ∀ v, gval st current = some v → ∀ k : Nat, Walk r start current k → v ≤ (k : Int) := by
  have hvals : ∀ n ∈ st.openSet, ∃ v, (alistGet st.fScore n).join = some v := by
    intro n hn
    obtain ⟨kn, hkn⟩ := hinv.gOpen n hn
    exact ⟨(kn : Int) + Enemy.heuristic n goal,
      show fval st n = _ by rw [hinv.fSync n, hkn]; rfl⟩
  obtain ⟨hperm, vc, hvc, hmin⟩ := selectCurrent_spec hsel hvals
  have hcurop : current ∈ st.openSet := hperm.mem_iff.mpr (List.mem_cons_self _ _)
  have hcurncl : current ∉ st.closedSet := hinv.disj current hcurop
  intro v hv k hw
  obtain ⟨n, hnop, gn, hgn, k2, hwalk2, hle⟩ := frontier hinv k current hw hcurncl
  have hfn : fval st n = some (gn + Enemy.heuristic n goal) := by
    rw [hinv.fSync n, hgn]
    rfl
  have hfc : fval st current = some (v + Enemy.heuristic current goal) := by
    rw [hinv.fSync current, hv]
    rfl
  have hvc' : v + Enemy.heuristic current goal = vc := by
    have := hfc
    unfold fval at this
    rw [hvc] at this
    exact (Option.some.inj this).symm
  have hminn := hmin n hnop (gn + Enemy.heuristic n goal)
    (show (alistGet st.fScore n).join = _ from hfn)
  have hcons : Enemy.heuristic n goal ≤ (k2 : Int) + Enemy.heuristic current goal :=
    walk_heuristic hwalk2
  omega

theorem astar_init_inv (r : MazeRenderer) (start goal : IPt) :
    AInv r start goal
      { openSet := [start]
        closedSet := []
        cameFrom := []
        gScore := [(start, some 0)]
        fScore := [(start, some (Enemy.heuristic start goal))] } := by
  set st0 : AStarState :=
    { openSet := [start]
      closedSet := []
      cameFrom := []
      gScore := [(start, some 0)]
      fScore := [(start, some (Enemy.heuristic start goal))] } with hst0
  have hgv : ∀ n, gval st0 n = if n = start then some 0 else none := by
    intro n
    unfold gval alistGet
    rw [hst0]
    dsimp only
    rw [List.find?]
    by_cases hn : n = start
    · subst hn
      simp
    · have hbeq : (start == n) = false := by
        rw [beq_eq_false_iff_ne]
        exact fun hc => hn hc.symm
      simp [hbeq, List.find?, hn]
  have hfv : ∀ n, fval st0 n =
      if n = start then some (Enemy.heuristic start goal) else none := by
    intro n
    unfold fval alistGet
    rw [hst0]
    dsimp only
    rw [List.find?]
    by_cases hn : n = start
    · subst hn
      simp
    · have hbeq : (start == n) = false := by
        rw [beq_eq_false_iff_ne]
        exact fun hc => hn hc.symm
      simp [hbeq, List.find?, hn]
  have hcf : ∀ n, cfget st0 n = none := by
    intro n
    unfold cfget alistGet
    rw [hst0]
    simp
  refine ⟨List.nodup_singleton _, ?_, Or.inl (List.mem_singleton.mpr rfl), ?_, hcf start,
    ?_, ?_, ?_, ?_, ?_, ?_, ?_, ?_⟩
  · intro n hn
    exact List.not_mem_nil n
  · rw [hgv, if_pos rfl]
  · intro n hn
    rw [List.mem_singleton] at hn
    subst hn
    exact ⟨0, by rw [hgv, if_pos rfl]; rfl⟩
  · intro n hn
    exact absurd hn (List.not_mem_nil n)
  · intro n
    rw [hgv, hfv]
    by_cases hn : n = start
    · subst hn
      rw [if_pos rfl, if_pos rfl]
      simp
    · rw [if_neg hn, if_neg hn]
      rfl
  · intro n v hv
    rw [hgv] at hv
    split_ifs at hv with hn
    · subst hn
      cases hv
      exact ⟨0, rfl, Walk.refl _⟩
  · intro c hc
    exact absurd hc (List.not_mem_nil c)
  · intro c hc
    exact absurd hc (List.not_mem_nil c)
  · intro n p hp
    rw [hcf] at hp
    cases hp
  · intro n hn v hv
    rw [hgv] at hv
    split_ifs at hv with hns
    exact absurd hns hn

theorem step_inv {r : MazeRenderer} {start goal : IPt} {st : AStarState}
    {current : IPt} {openRest : List IPt}
    (hinv : AInv r start goal st)
    (hsel : selectCurrent st.fScore st.openSet = some (current, openRest)) :
    AInv r start goal (processNeighbors goal (Enemy.getNeighbors r current) current
      { st with
        openSet := openRest
        closedSet := current :: st.closedSet }) := by
  have hvals : ∀ n ∈ st.openSet, ∃ v, (alistGet st.fScore n).join = some v := by
    intro n hn
    obtain ⟨kn, hkn⟩ := hinv.gOpen n hn
    exact ⟨(kn : Int) + Enemy.heuristic n goal,
      show fval st n = _ by rw [hinv.fSync n, hkn]; rfl⟩
  obtain ⟨hperm, vc, hvc, hmin⟩ := selectCurrent_spec hsel hvals
  have hcurop : current ∈ st.openSet := hperm.mem_iff.mpr (List.mem_cons_self _ _)
  have hcurncl : current ∉ st.closedSet := hinv.disj current hcurop
  have hndcr : (current :: openRest).Nodup := hperm.nodup_iff.mp hinv.nodupO
  have hcurnor : current ∉ openRest := (List.nodup_cons.mp hndcr).1
  have hndor : openRest.Nodup := (List.nodup_cons.mp hndcr).2
  have hors : ∀ n ∈ openRest, n ∈ st.openSet := fun n hn =>
    hperm.mem_iff.mpr (List.mem_cons_of_mem _ hn)
  have hmemsplit : ∀ n ∈ st.openSet, n = current ∨ n ∈ openRest := fun n hn =>
    List.mem_cons.mp (hperm.mem_iff.mp hn)
  obtain ⟨kc, hkc⟩ := hinv.gOpen current hcurop
  obtain ⟨c1, c2, c3, c4, c5, c6, c7⟩ := processNeighbors_spec goal current (kc : Int)
    (Enemy.getNeighbors r current)
    { st with
      openSet := openRest
      closedSet := current :: st.closedSet }
    (List.mem_cons_self _ _) hkc (fun n => hinv.fSync n) hndor
  have hstartA : gval (processNeighbors goal (Enemy.getNeighbors r current) current
      { st with
        openSet := openRest
        closedSet := current :: st.closedSet }) start = gval st start ∧
      cfget (processNeighbors goal (Enemy.getNeighbors r current) current
      { st with
        openSet := openRest
        closedSet := current :: st.closedSet }) start = cfget st start := by
    rcases c6 start with ⟨hgv, hcf, _⟩ | ⟨hm, hncl', hgv, hcf, hop, hdec⟩
    · exact ⟨hgv, hcf⟩
    · exfalso
      rcases hinv.startIn with hs | hs
      · rcases hmemsplit start hs with rfl | hs'
        · exact hncl' (List.mem_cons_self _ _)
        · have hcon := hdec 0 hinv.gStart hs'
          omega
      · exact hncl' (List.mem_cons_of_mem _ hs)
  have hclosedA : ∀ c, c ∈ current :: st.closedSet →
      gval (processNeighbors goal (Enemy.getNeighbors r current) current
      { st with
        openSet := openRest
        closedSet := current :: st.closedSet }) c = gval st c ∧
      cfget (processNeighbors goal (Enemy.getNeighbors r current) current
      { st with
        openSet := openRest
        closedSet := current :: st.closedSet }) c = cfget st c := by
    intro c hc
    rcases c6 c with ⟨hgv, hcf, _⟩ | ⟨_, hncl', _, _, _, _⟩
    · exact ⟨hgv, hcf⟩
    · exact absurd hc hncl'
  have hgAcur : gval (processNeighbors goal (Enemy.getNeighbors r current) current
      { st with
        openSet := openRest
        closedSet := current :: st.closedSet }) current = some (kc : Int) :=
    ((hclosedA current (List.mem_cons_self _ _)).1).trans hkc
  refine ⟨c4, ?_, ?_, ?_, ?_, ?_, ?_, c5, ?_, ?_, ?_, ?_, ?_⟩
  · -- disj
    intro n hn hc
    rw [c1] at hc
    rcases c6 n with ⟨hgv, hcf, hmem⟩ | ⟨_, hncl', _, _, _, _⟩
    · have hnor : n ∈ openRest := hmem hn
      rcases List.mem_cons.mp hc with rfl | hc'
      · exact hcurnor hnor
      · exact hinv.disj n (hors n hnor) hc'
    · exact hncl' hc
  · -- startIn
    rcases hinv.startIn with hs | hs
    · rcases hmemsplit start hs with rfl | hs'
      · refine Or.inr ?_
        rw [c1]
        exact List.mem_cons_self _ _
      · exact Or.inl (c2 start hs')
    · refine Or.inr ?_
      rw [c1]
      exact List.mem_cons_of_mem _ hs
  · -- gStart
    rw [hstartA.1]
    exact hinv.gStart
  · -- cfStart
    rw [hstartA.2]
    exact hinv.cfStart
  · -- gOpen
    intro n hn
    rcases c6 n with ⟨hgv, _, hmem⟩ | ⟨_, _, hgv, _, _, _⟩
    · obtain ⟨k, hk⟩ := hinv.gOpen n (hors n (hmem hn))
      exact ⟨k, hgv.trans hk⟩
    · refine ⟨kc + 1, ?_⟩
      rw [hgv]
      push_cast
      rfl
  · -- gClosed
    intro n hn
    rw [c1] at hn
    obtain ⟨hgv, _⟩ := hclosedA n hn
    rcases List.mem_cons.mp hn with rfl | hn'
    · exact ⟨kc, hgv.trans hkc⟩
    · obtain ⟨k, hk⟩ := hinv.gClosed n hn'
      exact ⟨k, hgv.trans hk⟩
  · -- gVals
    intro n v hv
    rcases c6 n with ⟨hgv, _, _⟩ | ⟨hm, _, hgv, _, _, _⟩
    · rw [hgv] at hv
      exact hinv.gVals n v hv
    · rw [hgv] at hv
      cases hv
      obtain ⟨k', hk', hwalk⟩ := hinv.gVals current _ hkc
      have hk'' : k' = kc := by exact_mod_cast hk'.symm
      subst hk''
      refine ⟨k' + 1, by push_cast; rfl, walk_snoc hwalk hm⟩
  · -- closedOpt
    intro c hc v hv k hw
    rw [c1] at hc
    obtain ⟨hgv, _⟩ := hclosedA c hc
    rw [hgv] at hv
    rcases List.mem_cons.mp hc with rfl | hc'
    · exact popped_opt hinv hsel v hv k hw
    · exact hinv.closedOpt c hc' v hv k hw
  · -- closedExp
    intro c hc v hvmem
    rw [c1] at hc
    rcases List.mem_cons.mp hc with rfl | hc'
    · rcases c7 v hvmem with hvcl | ⟨hvop, hbound⟩
      · refine Or.inl ?_
        rw [c1]
        exact hvcl
      · refine Or.inr ⟨hvop, ?_⟩
        intro gv gc hgv hgc
        rw [hgAcur] at hgc
        have hgc' : gc = (kc : Int) := (Option.some.inj hgc).symm
        subst hgc'
        exact hbound gv hgv
    · rcases hinv.closedExp c hc' v hvmem with hvcl | ⟨hvop, hbound⟩
      · refine Or.inl ?_
        rw [c1]
        exact List.mem_cons_of_mem _ hvcl
      · rcases hmemsplit v hvop with rfl | hvor
        · refine Or.inl ?_
          rw [c1]
          exact List.mem_cons_self _ _
        · refine Or.inr ⟨c2 v hvor, ?_⟩
          intro gv gc hgv hgc
          have hgc0 : gval st c = some gc := by
            rw [← (hclosedA c (List.mem_cons_of_mem _ hc')).1]
            exact hgc
          rcases c6 v with ⟨hgv', _, _⟩ | ⟨_, _, hgv', _, _, hdec⟩
          · rw [hgv'] at hgv
            exact hbound gv gc hgv hgc0
          · rw [hgv'] at hgv
            have hgveq : gv = (kc : Int) + 1 := (Option.some.inj hgv).symm
            subst hgveq
            obtain ⟨gvold, hgvold⟩ := hinv.gOpen v hvop
            have hlt := hdec _ hgvold hvor
            have hle := hbound _ gc hgvold hgc0
            omega
  · -- cfGood
    intro n p hp
    rcases c6 n with ⟨hgvn, hcfn, _⟩ | ⟨hm, _, hgvn, hcfn, _, _⟩
    · rw [hcfn] at hp
      obtain ⟨hadj, hpcl, gp, hgp, hgn⟩ := hinv.cfGood n p hp
      refine ⟨hadj, ?_, gp, ?_, ?_⟩
      · rw [c1]
        exact List.mem_cons_of_mem _ hpcl
      · rw [(hclosedA p (List.mem_cons_of_mem _ hpcl)).1]
        exact hgp
      · rw [hgvn]
        exact hgn
    · rw [hcfn] at hp
      have hpc : p = current := (Option.some.inj hp).symm
      subst hpc
      refine ⟨hm, ?_, (kc : Int), hgAcur, ?_⟩
      · rw [c1]
        exact List.mem_cons_self _ _
      · rw [hgvn]
  · -- cfSome
    intro n hn v hv
    rcases c6 n with ⟨hgvn, hcfn, _⟩ | ⟨_, _, _, hcfn, _, _⟩
    · rw [hgvn] at hv
      obtain ⟨p, hp⟩ := hinv.cfSome n hn v hv
      exact ⟨p, by rw [hcfn]; exact hp⟩
    · exact ⟨current, hcfn⟩

theorem reconstructGo_spec {r : MazeRenderer} {start goal : IPt} {st : AStarState}
    (hinv : AInv r start goal st) :
    ∀ fuel current rest path (k : Nat), gval st current = some (k : Int) →
    reconstructGo st.cameFrom fuel current (current :: rest) = some path →
    ∃ pre : List IPt, path = pre ++ rest ∧ pre.length = k + 1 ∧
      List.Chain' (AdjStep r) pre ∧ pre.head? = some start ∧
      pre.getLast? = some current := by
  intro fuel
  induction fuel with
  | zero =>
    intro current rest path k hg hrec
    exact absurd hrec (by simp [reconstructGo])
  | succ f ih =>
    intro current rest path k hg hrec
    rw [reconstructGo] at hrec
    cases hcf : alistGet st.cameFrom current with
    | none =>
      rw [hcf] at hrec
      have hpath : path = current :: rest := (Option.some.inj hrec).symm
      have hcs : current = start := by
        by_contra hne
        obtain ⟨p, hp⟩ := hinv.cfSome current hne _ hg
        rw [show cfget st current = alistGet st.cameFrom current from rfl, hcf] at hp
        cases hp
      have hk0 : k = 0 := by
        rw [hcs, hinv.gStart] at hg
        exact_mod_cast (Option.some.inj hg).symm
      subst hk0
      refine ⟨[current], by simp [hpath], rfl, List.chain'_singleton _, ?_, rfl⟩
      simp [hcs]
    | some prev =>
      rw [hcf] at hrec
      obtain ⟨hadj, hpcl, gp, hgp, hgc⟩ := hinv.cfGood current prev hcf
      obtain ⟨kp, hkp, _⟩ := hinv.gVals prev gp hgp
      subst hkp
      have hgk : (k : Int) = (kp : Int) + 1 := by
        rw [hg] at hgc
        exact Option.some.inj hgc
      have hkval : k = kp + 1 := by exact_mod_cast hgk
      obtain ⟨pre, hpre, hlen, hchain, hhead, hlast⟩ :=
        ih prev (current :: rest) path kp hgp hrec
      refine ⟨pre ++ [current], by simpa using hpre, ?_, ?_, ?_, ?_⟩
      · simp [hlen, hkval]
      · rw [List.chain'_append]
        refine ⟨hchain, List.chain'_singleton _, ?_⟩
        intro x hx y hy
        rw [hlast] at hx
        cases hx
        cases hy
        exact hadj
      · cases pre with
        | nil => cases hhead
        | cons a t => exact hhead
      · exact List.getLast?_concat _

theorem astarGo_opt {r : MazeRenderer} {start goal : IPt} :
    ∀ fuel {st : AStarState} {path : List IPt}, AInv r start goal st →
    astarGo r goal fuel st = some path → path ≠ [] →
    path.head? = some start ∧ path.getLast? = some goal ∧
    List.Chain' (AdjStep r) path ∧
    ∃ kc : Nat, path.length = kc + 1 ∧ Walk r start goal kc ∧
      ∀ k, Walk r start goal k → kc ≤ k := by
  intro fuel
  induction fuel with
  | zero =>
    intro st path hinv hrun hne
    exact absurd hrun (by simp [astarGo])
  | succ f ih =>
    intro st path hinv hrun hne
    rw [astarGo] at hrun
    cases hsel : selectCurrent st.fScore st.openSet with
    | none =>
      rw [hsel] at hrun
      dsimp only at hrun
      exact absurd (Option.some.inj hrun).symm hne
    | some pr =>
      obtain ⟨current, openRest⟩ := pr
      rw [hsel] at hrun
      dsimp only at hrun
      by_cases hcg : current = goal
      · subst hcg
        rw [if_pos rfl] at hrun
        have hvals : ∀ n ∈ st.openSet, ∃ v, (alistGet st.fScore n).join = some v := by
          intro n hn
          obtain ⟨kn, hkn⟩ := hinv.gOpen n hn
          exact ⟨(kn : Int) + Enemy.heuristic n current,
            show fval st n = _ by rw [hinv.fSync n, hkn]; rfl⟩
        obtain ⟨hperm, _, _, _⟩ := selectCurrent_spec hsel hvals
        have hcurop : current ∈ st.openSet := hperm.mem_iff.mpr (List.mem_cons_self _ _)
        obtain ⟨kc, hkc⟩ := hinv.gOpen current hcurop
        rw [Enemy.reconstructPath] at hrun
        have hrun' : reconstructGo st.cameFrom (Nat.succ f) current (current :: []) =
            some path := hrun
        obtain ⟨pre, hpre, hlen, hchain, hhead, hlast⟩ :=
          reconstructGo_spec hinv (Nat.succ f) current [] path kc hkc hrun'
        have hpp : path = pre := by simpa using hpre
        subst hpp
        obtain ⟨k0, hk0, hwalk0⟩ := hinv.gVals current _ hkc
        have hk0' : k0 = kc := by exact_mod_cast hk0.symm
        subst hk0'
        refine ⟨hhead, hlast, hchain, k0, hlen, hwalk0, ?_⟩
        intro k hw
        have hle := popped_opt hinv hsel _ hkc k hw
        exact_mod_cast hle
      · rw [if_neg hcg] at hrun
        exact ih (step_inv hinv hsel) hrun hne

theorem worldToGrid_gridToWorld {r : MazeRenderer} (hcs : 0 < r.cellSize)
    (a b : Int) :
    r.worldToGrid (r.gridToWorld a b).1 (r.gridToWorld a b).2 = (a, b) := by
  unfold MazeRenderer.worldToGrid MazeRenderer.gridToWorld
  have hne : r.cellSize ≠ 0 := ne_of_gt hcs
  have h1 : ((a : ℚ) * r.cellSize + r.cellSize / 2) / r.cellSize = (a : ℚ) + 1/2 := by
    field_simp
    ring
  have h2 : ((b : ℚ) * r.cellSize + r.cellSize / 2) / r.cellSize = (b : ℚ) + 1/2 := by
    field_simp
    ring
  dsimp only
  rw [h1, h2]
  have hfl : ∀ c : Int, ⌊(c : ℚ) + 1/2⌋ = c := by
    intro c
    rw [add_comm, Int.floor_add_int]
    norm_num
  rw [hfl a, hfl b]

theorem getNeighbors_bounds {r : MazeRenderer} {m : Maze}
    (hm : r.maze = some m) (hcs : 0 < r.cellSize) {node p : IPt}
    (hp : p ∈ Enemy.getNeighbors r node) : inGrid m p := by
  unfold Enemy.getNeighbors at hp
  obtain ⟨d, _, hd⟩ := List.mem_filterMap.mp hp
  dsimp only at hd
  split_ifs at hd with hw
  have hpd : p = ⟨node.x + d.x, node.y + d.y⟩ := (Option.some.inj hd).symm
  subst hpd
  revert hw
  unfold MazeRenderer.isWallAtPosition
  rw [hm]
  have hrt := worldToGrid_gridToWorld hcs (node.x + d.x) (node.y + d.y)
  rw [hrt]
  dsimp only
  split_ifs with hb
  · intro hc
    exact absurd rfl hc
  · intro _
    push_neg at hb
    exact ⟨hb.1, hb.2.1, hb.2.2.1, hb.2.2.2⟩

theorem closed_length_bound {m : Maze} {start : IPt} {l : List IPt}
    (hnd : l.Nodup) (hsub : ∀ n ∈ l, n = start ∨ inGrid m n) :
    l.length ≤ m.width.toNat * m.height.toNat + 1 := by
  classical
  have hsub2 : l.toFinset ⊆ insert start
      (((Finset.range m.width.toNat) ×ˢ (Finset.range m.height.toNat)).image
        (fun p : Nat × Nat => (⟨(p.1 : Int), (p.2 : Int)⟩ : IPt))) := by
    intro n hn
    rcases hsub n (List.mem_toFinset.mp hn) with rfl | hg
    · exact Finset.mem_insert_self _ _
    · refine Finset.mem_insert_of_mem ?_
      refine Finset.mem_image.mpr ⟨(n.x.toNat, n.y.toNat), ?_, ?_⟩
      · refine Finset.mem_product.mpr ⟨Finset.mem_range.mpr ?_, Finset.mem_range.mpr ?_⟩
        · obtain ⟨h1, h2, _, _⟩ := hg
          omega
        · obtain ⟨_, _, h3, h4⟩ := hg
          omega
      · obtain ⟨h1, _, h3, _⟩ := hg
        obtain ⟨nx, ny⟩ := n
        dsimp only
        rw [Int.toNat_of_nonneg h1, Int.toNat_of_nonneg h3]
  calc l.length = l.toFinset.card := (List.toFinset_card_of_nodup hnd).symm
    _ ≤ _ := Finset.card_le_card hsub2
    _ ≤ _ + 1 := Finset.card_insert_le _ _
    _ ≤ m.width.toNat * m.height.toNat + 1 := by
        have hcard : (((Finset.range m.width.toNat) ×ˢ
            (Finset.range m.height.toNat)).image
            (fun p : Nat × Nat => (⟨(p.1 : Int), (p.2 : Int)⟩ : IPt))).card ≤
            ((Finset.range m.width.toNat) ×ˢ (Finset.range m.height.toNat)).card :=
          Finset.card_image_le
        rw [Finset.card_product, Finset.card_range, Finset.card_range] at hcard
        omega

theorem open_fvals {r : MazeRenderer} {start goal : IPt} {st : AStarState}
    (hinv : AInv r start goal st) :
    ∀ n ∈ st.openSet, ∃ v, (alistGet st.fScore n).join = some v := by
  intro n hn
  obtain ⟨kn, hkn⟩ := hinv.gOpen n hn
  exact ⟨(kn : Int) + Enemy.heuristic n goal,
    show fval st n = _ by rw [hinv.fSync n, hkn]; rfl⟩

theorem processNeighbors_closedSet (goal : IPt) :
    ∀ (l : List IPt) (current : IPt) (st : AStarState),
    (processNeighbors goal l current st).closedSet = st.closedSet := by
  intro l
  induction l with
  | nil =>
    intro current st
    rfl
  | cons nb rest ih =>
    intro current st
    rw [processNeighbors]
    dsimp only
    split_ifs with h1 h2 h3
    all_goals exact ih current _

theorem processNeighbors_openSub (goal : IPt) :
    ∀ (l : List IPt) (current : IPt) (st : AStarState) (n : IPt),
    n ∈ (processNeighbors goal l current st).openSet → n ∈ st.openSet ∨ n ∈ l := by
  intro l
  induction l with
  | nil =>
    intro current st n hn
    exact Or.inl hn
  | cons nb rest ih =>
    intro current st n hn
    rw [processNeighbors] at hn
    dsimp only at hn
    split_ifs at hn with h1 h2 h3
    · rcases ih current st n hn with h | h
      · exact Or.inl h
      · exact Or.inr (List.mem_cons_of_mem _ h)
    · rcases ih current st n hn with h | h
      · exact Or.inl h
      · exact Or.inr (List.mem_cons_of_mem _ h)
    · rcases ih current _ n hn with h | h
      · exact Or.inl h
      · exact Or.inr (List.mem_cons_of_mem _ h)
    · rcases ih current _ n hn with h | h
      · rcases List.mem_append.mp h with h' | h'
        · exact Or.inl h'
        · rcases List.mem_singleton.mp h' with rfl
          exact Or.inr (List.mem_cons_self _ _)
      · exact Or.inr (List.mem_cons_of_mem _ h)

theorem reconstructGo_succeeds {r : MazeRenderer} {start goal : IPt} {st : AStarState}
    (hinv : AInv r start goal st) :
    ∀ fuel (k : Nat) (current : IPt) (rest : List IPt),
    gval st current = some (k : Int) → k < fuel →
    ∃ path, reconstructGo st.cameFrom fuel current (current :: rest) = some path := by
  intro fuel
  induction fuel with
  | zero =>
    intro k current rest hg hk
    exact absurd hk (by omega)
  | succ f ih =>
    intro k current rest hg hk
    cases hcf : alistGet st.cameFrom current with
    | none =>
      refine ⟨current :: rest, ?_⟩
      rw [reconstructGo, hcf]
    | some prev =>
      obtain ⟨_, _, gp, hgp, hgc⟩ := hinv.cfGood current prev hcf
      obtain ⟨kp, hkp, _⟩ := hinv.gVals prev gp hgp
      subst hkp
      have hgk : (k : Int) = (kp : Int) + 1 := by
        rw [hg] at hgc
        exact Option.some.inj hgc
      have hkval : k = kp + 1 := by exact_mod_cast hgk
      obtain ⟨path, hp⟩ := ih kp prev (current :: rest) hgp (by omega)
      refine ⟨path, ?_⟩
      rw [reconstructGo, hcf]
      exact hp

theorem astar_exists {r : MazeRenderer} {m : Maze} {start goal : IPt} {kg : Nat}
    (hm : r.maze = some m) (hcs : 0 < r.cellSize) (hwg : Walk r start goal kg) :
    ∀ fuel (st : AStarState), AInv r start goal st →
    st.closedSet.Nodup →
    (∀ n ∈ st.openSet, n = start ∨ inGrid m n) →
    (∀ n ∈ st.closedSet, n = start ∨ inGrid m n) →
    goal ∉ st.closedSet →
    m.width.toNat * m.height.toNat + 2 - st.closedSet.length + (kg + 2) ≤ fuel →
    ∃ path, astarGo r goal fuel st = some path ∧ path ≠ [] := by
  intro fuel
  induction fuel with
  | zero =>
    intro st hinv hnd hosub hcsub hgcl hfuel
    have hlen := closed_length_bound hnd hcsub
    omega
  | succ f ih =>
    intro st hinv hnd hosub hcsub hgcl hfuel
    have hlen := closed_length_bound hnd hcsub
    have hopne : st.openSet ≠ [] := by
      obtain ⟨n, hn, _⟩ := frontier hinv kg goal hwg hgcl
      intro hc
      rw [hc] at hn
      cases hn
    obtain ⟨cur, orest, hsel⟩ :
        ∃ cur orest, selectCurrent st.fScore st.openSet = some (cur, orest) := by
      cases hop : st.openSet with
      | nil => exact absurd hop hopne
      | cons c rest0 => exact ⟨_, _, rfl⟩
    obtain ⟨hperm, _, _, _⟩ := selectCurrent_spec hsel (open_fvals hinv)
    have hcurop : cur ∈ st.openSet := hperm.mem_iff.mpr (List.mem_cons_self _ _)
    have hcurncl : cur ∉ st.closedSet := hinv.disj cur hcurop
    obtain ⟨kc, hkc⟩ := hinv.gOpen cur hcurop
    by_cases hcg : cur = goal
    · have hkckg : (kc : Int) ≤ (kg : Int) :=
        popped_opt hinv hsel _ hkc kg (hcg ▸ hwg)
      have hkckg' : kc ≤ kg := by exact_mod_cast hkckg
      obtain ⟨path, hp⟩ :=
        reconstructGo_succeeds hinv (Nat.succ f) kc cur [] hkc (by omega)
      refine ⟨path, ?_, ?_⟩
      · rw [astarGo, hsel]
        dsimp only
        rw [if_pos hcg]
        exact hp
      · obtain ⟨pre, hpe, hplen, _, _, _⟩ :=
          reconstructGo_spec hinv (Nat.succ f) cur [] path kc hkc hp
        intro hnil
        rw [hnil] at hpe
        have : pre.length = 0 := by
          rw [← List.append_nil pre, ← hpe]
          rfl
        omega
    · have hstep := step_inv hinv hsel
      have hcl2 := processNeighbors_closedSet goal (Enemy.getNeighbors r cur) cur
        { st with
          openSet := orest
          closedSet := cur :: st.closedSet }
      obtain ⟨path, hp, hne⟩ := ih _ hstep
        (by
          rw [hcl2]
          exact List.nodup_cons.mpr ⟨hcurncl, hnd⟩)
        (by
          intro n hn
          rcases processNeighbors_openSub goal (Enemy.getNeighbors r cur) cur _ n hn
            with h | h
          · exact hosub n (hperm.mem_iff.mpr (List.mem_cons_of_mem _ h))
          · exact Or.inr (getNeighbors_bounds hm hcs h))
        (by
          rw [hcl2]
          intro n hn
          rcases List.mem_cons.mp hn with rfl | hn'
          · exact hosub n hcurop
          · exact hcsub n hn')
        (by
          rw [hcl2]
          intro hc
          rcases List.mem_cons.mp hc with rfl | hc'
          · exact hcg rfl
          · exact hgcl hc')
        (by
          rw [hcl2]
          dsimp only [List.length_cons]
          omega)
      refine ⟨path, ?_, hne⟩
      rw [astarGo, hsel]
      dsimp only
      rw [if_neg hcg]
      exact hp

/-- Claim C3: on a renderer holding a maze with a positive cell size, whenever
`goal` is reachable from `start` through 4-adjacent non-wall cells (a `Walk` of
any length `kg`, steps being exactly `Enemy.getNeighbors` membership),
`Enemy.findPathAStar` with fuel at least `width*height + kg + 4` returns a
path: a non-empty cell list starting at `start`, ending at `goal`, consecutive
cells 4-adjacent and non-wall, whose length is minimal over all such walks
(`length = shortest walk + 1`); in particular, if a walk of length exactly the
Manhattan distance exists (no wall forces a detour), the returned path has
length exactly that Manhattan distance plus one. -/
theorem astar_shortest_path {r : MazeRenderer} {m : Maze} {start goal : IPt}
    {kg : Nat} (hm : r.maze = some m) (hcs : 0 < r.cellSize)
    (hwg : Walk r start goal kg) (fuel : Nat)
    (hfuel : m.width.toNat * m.height.toNat + kg + 4 ≤ fuel) :
    ∃ path : List IPt, Enemy.findPathAStar r start goal fuel = some path ∧
      path ≠ [] ∧ path.head? = some start ∧ path.getLast? = some goal ∧
      List.Chain' (AdjStep r) path ∧
      (∀ k, Walk r start goal k → path.length ≤ k + 1) ∧
      (∀ d : Nat, (d : Int) = Enemy.heuristic start goal →
        Walk r start goal d → path.length = d + 1) := by
  have hinv0 := astar_init_inv r start goal
  obtain ⟨path, hp, hne⟩ := astar_exists hm hcs hwg fuel
    { openSet := [start]
      closedSet := []
      cameFrom := []
      gScore := [(start, some 0)]
      fScore := [(start, some (Enemy.heuristic start goal))] }
    hinv0 List.nodup_nil
    (fun n hn => Or.inl (List.mem_singleton.mp hn))
    (fun n hn => absurd hn (List.not_mem_nil n))
    (List.not_mem_nil goal)
    (by
      dsimp only [List.length_nil]
      omega)
  obtain ⟨hhead, hlast, hchain, kc, hlen, hwkc, hmin⟩ := astarGo_opt fuel hinv0 hp hne
  refine ⟨path, ?_, hne, hhead, hlast, hchain, ?_, ?_⟩
  · rw [Enemy.findPathAStar]
    exact hp
  · intro k hw
    have hk := hmin k hw
    omega
  · intro d hd hwd
    have h1 : kc ≤ d := hmin d hwd
    have h2 : Enemy.heuristic start goal ≤ (kc : Int) + Enemy.heuristic goal goal :=
      walk_heuristic hwkc
    have h3 : Enemy.heuristic goal goal = 0 := heuristic_self goal
    rw [h3, add_zero, ← hd] at h2
    have h4 : d ≤ kc := by exact_mod_cast h2
    omega

/-- Witness for C3: in the all-path 3x3 maze `openMaze` (cell size 20), the
corner `(2,2)` is reachable from `(0,0)` by a 4-step walk, and the theorem
yields a shortest path for the concrete run with fuel 17. -/
theorem astar_shortest_path_witness :
    openR.maze = some openMaze ∧ (0 : ℚ) < openR.cellSize ∧
    Walk openR ⟨0, 0⟩ ⟨2, 2⟩ 4 ∧
    openMaze.width.toNat * openMaze.height.toNat + 4 + 4 ≤ 17 ∧
    ∃ path : List IPt,
      Enemy.findPathAStar openR ⟨0, 0⟩ ⟨2, 2⟩ 17 = some path ∧ path ≠ [] ∧
      path.head? = some ⟨0, 0⟩ ∧ path.getLast? = some ⟨2, 2⟩ ∧
      List.Chain' (AdjStep openR) path ∧
      (∀ k, Walk openR ⟨0, 0⟩ ⟨2, 2⟩ k → path.length ≤ k + 1) ∧
      (∀ d : Nat, (d : Int) = Enemy.heuristic ⟨0, 0⟩ ⟨2, 2⟩ →
        Walk openR ⟨0, 0⟩ ⟨2, 2⟩ d → path.length = d + 1) := by
  have hstep : ∀ a b : IPt, b ∈ Enemy.getNeighbors openR a → AdjStep openR a b :=
    fun a b h => h
  have ha1 : AdjStep openR ⟨2, 1⟩ ⟨2, 2⟩ := by
    refine hstep _ _ ?_
    norm_num [Enemy.getNeighbors, MazeGenerator.neighborDirs,
      MazeRenderer.isWallAtPosition, MazeRenderer.worldToGrid,
      MazeRenderer.gridToWorld, openR, openMaze, Maze.get]
  have ha2 : AdjStep openR ⟨2, 0⟩ ⟨2, 1⟩ := by
    refine hstep _ _ ?_
    norm_num [Enemy.getNeighbors, MazeGenerator.neighborDirs,
      MazeRenderer.isWallAtPosition, MazeRenderer.worldToGrid,
      MazeRenderer.gridToWorld, openR, openMaze, Maze.get]
  have ha3 : AdjStep openR ⟨1, 0⟩ ⟨2, 0⟩ := by
    refine hstep _ _ ?_
    norm_num [Enemy.getNeighbors, MazeGenerator.neighborDirs,
      MazeRenderer.isWallAtPosition, MazeRenderer.worldToGrid,
      MazeRenderer.gridToWorld, openR, openMaze, Maze.get]
  have ha4 : AdjStep openR ⟨0, 0⟩ ⟨1, 0⟩ := by
    refine hstep _ _ ?_
    norm_num [Enemy.getNeighbors, MazeGenerator.neighborDirs,
      MazeRenderer.isWallAtPosition, MazeRenderer.worldToGrid,
      MazeRenderer.gridToWorld, openR, openMaze, Maze.get]
  have hw : Walk openR ⟨0, 0⟩ ⟨2, 2⟩ 4 :=
    Walk.cons ha4 (Walk.cons ha3 (Walk.cons ha2 (Walk.cons ha1 (Walk.refl _))))
  exact ⟨rfl, by norm_num [openR], hw, by decide,
    astar_shortest_path rfl (by norm_num [openR]) hw 17 (by decide)⟩

end AStarProofs

end MazeGame
